import Mathlib

/-!
Scheduled dispatch (slot list, window normalisation, commands), sortable GUI
lists and the script scanner.

A shallow embedding of `DispatchSchedule` from `src/schdispatch_cmd.cpp`:
the sorted slot vector with `AddScheduledDispatch` / `RemoveScheduledDispatch`,
and `UpdateScheduledDispatchToDate`, which rolls the start tick of the schedule so
that the current tick lies inside the current window.

Conventions of the embedding.

* `DateTicksScaled` / `int64` values are mathematical integers (`Int`): signed
  64-bit overflow is undefined behaviour in C++, so the embedding describes the
  runs in which no 64-bit overflow happens.
* `uint32` values (slot offsets, the duration) are natural numbers.
* The `int32` field `scheduled_dispatch_last_dispatch` is an `Int`; every store
  into it goes through a clamp or an explicit 32-bit narrowing.
* The two `while` loops take a fuel argument and return `Fault.outOfFuel` when
  it is used up; `Returns` says that every large enough fuel gives the result.
* Division by zero is a fault (`Fault.divByZero`), a failed `assert` is
  `Fault.assertFailed`, and a read outside a vector is `Fault.outOfBounds`.
* The commands of `src/schdispatch_cmd.cpp` run on an explicit `World` (the
  vehicle pool, the order lists, the current company and the clock) and return
  the `CommandCost` together with the world afterwards.
* `GUIList` of `src/sortlist_type.h` lives in the namespace `SortList`: the flag
  word is a natural number and the item vector is a list.
* `ScriptScanner::RegisterScript` of `src/script/script_scanner.cpp` lives in the
  namespace `Script`: the two `std::map`s are lists of entries, and the key
  comparison of the maps is a parameter.
-/

namespace SchDispatch

/-! ## Machine integers -/

/-- Smallest `int32` value (`INT_MIN`). -/
def INT32_MIN : Int := -2147483648

/-- Largest `int32` value (`INT_MAX`). -/
def INT32_MAX : Int := 2147483647

/-- Values representable in a signed 32-bit integer. -/
def IsInt32 (a : Int) : Prop := INT32_MIN ≤ a ∧ a ≤ INT32_MAX

instance (a : Int) : Decidable (IsInt32 a) := by
  unfold IsInt32; infer_instance

/-- Implicit C++ narrowing of an `int64` to `int32` (value modulo `2^32`). -/
def wrapI32 (a : Int) : Int := (a - INT32_MIN) % 4294967296 + INT32_MIN

/-- Modelled from the spec: `ClampToI32` (declared outside `src/`) clamps a
64-bit value to the signed 32-bit range. -/
def ClampToI32 (a : Int) : Int :=
  if a ≤ INT32_MIN then INT32_MIN else if a ≥ INT32_MAX then INT32_MAX else a

/-- Modelled from the spec: `OverflowSafeInt32::operator+=` (the class is
declared outside `src/`) is addition that clamps at the signed 32-bit boundary
instead of wrapping. Both operands are signed 32-bit values, so the `uint32`
duration handed to it is first narrowed to `int32`. -/
def OverflowSafeInt32_add (a : Int) (d : Nat) : Int := ClampToI32 (a + wrapI32 d)

/-- Modelled from the spec: `OverflowSafeInt32::operator-=` (the class is
declared outside `src/`) is subtraction that clamps at the signed 32-bit
boundary instead of wrapping. Both operands are signed 32-bit values, so the
`uint32` duration handed to it is first narrowed to `int32`. -/
def OverflowSafeInt32_sub (a : Int) (d : Nat) : Int := ClampToI32 (a - wrapI32 d)

/-- Modelled from the spec: `CeilDivT<int64>` (declared outside `src/`) is the
number of whole `b`-sized steps needed to cover `a`, i.e. the quotient of `a`
by `b` rounded up; it is only called with `a > 0`. C++ division truncates. -/
def CeilDivT (a b : Int) : Int := (a + b - 1).tdiv b

/-- Executions that produce no result. -/
inductive Fault where
  | divByZero
  | outOfFuel
  | assertFailed
  | outOfBounds
  deriving DecidableEq, Repr

/-- Every large enough fuel makes the fuelled computation `f` return `r`. -/
def Returns {α : Type} (f : Nat → Except Fault α) (r : α) : Prop :=
  ∃ n, ∀ fuel, n ≤ fuel → f fuel = .ok r

/-! ## Data model -/

/-- The part of `_settings_game.game_time` read by the normaliser. -/
structure GameTimeSettings where
  time_in_minutes : Bool
  ticks_per_minute : Nat
  deriving DecidableEq, Repr

/-- The `DispatchSchedule` object. Modelled from the spec: the window start is
one absolute tick `scheduled_dispatch_start_tick`; the source stores it as the
pair `scheduled_dispatch_start_date` / `scheduled_dispatch_start_full_date_fract`,
read by `GetScheduledDispatchStartTick` and written by
`SchdispatchConvertToFullDateFract`, both declared outside `src/`. -/
structure DispatchSchedule where
  scheduled_dispatch : List Nat
  scheduled_dispatch_duration : Nat
  scheduled_dispatch_start_tick : Int
  scheduled_dispatch_last_dispatch : Int
  scheduled_dispatch_max_delay : Int
  deriving DecidableEq, Repr

/-- Getter of the window start (`window_start` in the spec). -/
def DispatchSchedule.GetScheduledDispatchStartTick (s : DispatchSchedule) : Int :=
  s.scheduled_dispatch_start_tick

/-- Getter of the window length (`duration` in the spec). -/
def DispatchSchedule.GetScheduledDispatchDuration (s : DispatchSchedule) : Nat :=
  s.scheduled_dispatch_duration

/-- Strictly ascending slot list: sorted with no two equal values. -/
def StrictAsc (xs : List Nat) : Prop := xs.Pairwise (fun a b => a < b)

instance (xs : List Nat) : Decidable (StrictAsc xs) := by
  unfold StrictAsc; infer_instance

/-! ## Slot vector primitives -/

/-- The search loop of `std::lower_bound` over the vector `xs`: `first` is the
current left end, `len` the number of candidates still open. -/
def lower_bound_loop (xs : List Nat) (val : Nat) : Nat → Nat → Nat → Nat
  | 0, first, _ => first
  | fuel + 1, first, len =>
    if len = 0 then first
    else
      let half := len / 2
      let middle := first + half
      if xs.getD middle 0 < val then
        lower_bound_loop xs val fuel (middle + 1) (len - half - 1)
      else
        lower_bound_loop xs val fuel first half

/-- Binary search `std::lower_bound(begin, end, val)`, as an index into `xs`
(`xs.length` stands for `end()`). The loop halves `len`, so `xs.length` rounds
are always enough. -/
def lower_bound (xs : List Nat) (val : Nat) : Nat :=
  lower_bound_loop xs val xs.length 0 xs.length

/-- The call `std::vector::insert(position, value)`. -/
def vector_insert (xs : List Nat) (pos : Nat) (val : Nat) : List Nat :=
  xs.take pos ++ val :: xs.drop pos

/-- The call `std::vector::erase(position)`. -/
def vector_erase (xs : List Nat) (pos : Nat) : List Nat :=
  xs.take pos ++ xs.drop (pos + 1)

/-! ## Window normalisation -/

/-- First block of `UpdateScheduledDispatchToDate`: when the start tick is the
sentinel `0`, align it to `now` and derive the last-dispatch counter. -/
def UpdateScheduledDispatchToDate_init (cfg : GameTimeSettings) (s : DispatchSchedule)
    (now : Int) : Except Fault DispatchSchedule :=
  if s.GetScheduledDispatchStartTick = 0 then
    if s.GetScheduledDispatchDuration = 0 then .error .divByZero
    else
      let start : Int := now - Int.tmod now s.GetScheduledDispatchDuration
      let last_dispatch : Int := -start
      if last_dispatch < INT32_MIN ∧ cfg.time_in_minutes = true then
        let day : Int := 24 * 60 * cfg.ticks_per_minute
        if day = 0 then .error .divByZero
        else
          .ok { s with
            scheduled_dispatch_start_tick := start
            scheduled_dispatch_last_dispatch :=
              wrapI32 (last_dispatch + CeilDivT (INT32_MIN - last_dispatch) day * day) }
      else
        .ok { s with
          scheduled_dispatch_start_tick := start
          scheduled_dispatch_last_dispatch := ClampToI32 last_dispatch }
  else .ok s

/-- One pass of the body of the first `while` loop. -/
def backward_step (s : DispatchSchedule) : DispatchSchedule :=
  { s with
    scheduled_dispatch_last_dispatch :=
      OverflowSafeInt32_add s.scheduled_dispatch_last_dispatch s.GetScheduledDispatchDuration
    scheduled_dispatch_start_tick :=
      s.GetScheduledDispatchStartTick - s.GetScheduledDispatchDuration }

/-- One pass of the body of the second `while` loop. -/
def forward_step (s : DispatchSchedule) : DispatchSchedule :=
  { s with
    scheduled_dispatch_last_dispatch :=
      OverflowSafeInt32_sub s.scheduled_dispatch_last_dispatch s.GetScheduledDispatchDuration
    scheduled_dispatch_start_tick :=
      s.GetScheduledDispatchStartTick + s.GetScheduledDispatchDuration }

/-- First loop, `while (GetScheduledDispatchStartTick() > now)`; the Boolean is
`update_windows`. -/
def UpdateScheduledDispatchToDate_backward (now : Int) :
    Nat → DispatchSchedule → Bool → Except Fault (DispatchSchedule × Bool)
  | 0, s, update_windows =>
    if s.GetScheduledDispatchStartTick > now then .error .outOfFuel
    else .ok (s, update_windows)
  | fuel + 1, s, update_windows =>
    if s.GetScheduledDispatchStartTick > now then
      UpdateScheduledDispatchToDate_backward now fuel (backward_step s) true
    else .ok (s, update_windows)

/-- Second loop,
`while (GetScheduledDispatchStartTick() + GetScheduledDispatchDuration() <= now)`. -/
def UpdateScheduledDispatchToDate_forward (now : Int) :
    Nat → DispatchSchedule → Bool → Except Fault (DispatchSchedule × Bool)
  | 0, s, update_windows =>
    if s.GetScheduledDispatchStartTick + s.GetScheduledDispatchDuration ≤ now then
      .error .outOfFuel
    else .ok (s, update_windows)
  | fuel + 1, s, update_windows =>
    if s.GetScheduledDispatchStartTick + s.GetScheduledDispatchDuration ≤ now then
      UpdateScheduledDispatchToDate_forward now fuel (forward_step s) true
    else .ok (s, update_windows)

/-- The method `DispatchSchedule::UpdateScheduledDispatchToDate(now)`: the new
schedule together with the returned `update_windows`. -/
def UpdateScheduledDispatchToDate (cfg : GameTimeSettings) (fuel : Nat)
    (s : DispatchSchedule) (now : Int) : Except Fault (DispatchSchedule × Bool) :=
  match UpdateScheduledDispatchToDate_init cfg s now with
  | .error e => .error e
  | .ok s1 =>
    match UpdateScheduledDispatchToDate_backward now fuel s1 false with
    | .error e => .error e
    | .ok (s2, update_windows) =>
      UpdateScheduledDispatchToDate_forward now fuel s2 update_windows

/-- The method `DispatchSchedule::UpdateScheduledDispatch()`, with the global
`_scaled_date_ticks` passed in; the window invalidation it triggers is a GUI
effect outside the model. -/
def UpdateScheduledDispatch (cfg : GameTimeSettings) (fuel : Nat)
    (scaled_date_ticks : Int) (s : DispatchSchedule) : Except Fault DispatchSchedule :=
  match UpdateScheduledDispatchToDate cfg fuel s scaled_date_ticks with
  | .error e => .error e
  | .ok (s1, _) => .ok s1

/-! ## Slot operations -/

/-- The method `DispatchSchedule::AddScheduledDispatch(offset)`. -/
def AddScheduledDispatch (cfg : GameTimeSettings) (fuel : Nat) (scaled_date_ticks : Int)
    (s : DispatchSchedule) (offset : Nat) : Except Fault DispatchSchedule :=
  let insert_position := lower_bound s.scheduled_dispatch offset
  if insert_position ≠ s.scheduled_dispatch.length ∧
      s.scheduled_dispatch.getD insert_position 0 = offset then
    .ok s
  else
    UpdateScheduledDispatch cfg fuel scaled_date_ticks
      { s with scheduled_dispatch := vector_insert s.scheduled_dispatch insert_position offset }

/-- The method `DispatchSchedule::RemoveScheduledDispatch(offset)`. -/
def RemoveScheduledDispatch (s : DispatchSchedule) (offset : Nat) : DispatchSchedule :=
  let erase_position := lower_bound s.scheduled_dispatch offset
  if erase_position = s.scheduled_dispatch.length ∨
      s.scheduled_dispatch.getD erase_position 0 ≠ offset then
    s
  else
    { s with scheduled_dispatch := vector_erase s.scheduled_dispatch erase_position }

/-- One call on the slot list; an add also reads the clock at that moment. -/
inductive SlotCall where
  | add (offset : Nat) (scaled_date_ticks : Int)
  | remove (offset : Nat)
  deriving DecidableEq, Repr

/-- Run a finite sequence of add / remove calls, left to right. -/
def runSlotCalls (cfg : GameTimeSettings) (fuel : Nat) :
    List SlotCall → DispatchSchedule → Except Fault DispatchSchedule
  | [], s => .ok s
  | .add offset t :: rest, s =>
    match AddScheduledDispatch cfg fuel t s offset with
    | .error e => .error e
    | .ok s1 => runSlotCalls cfg fuel rest s1
  | .remove offset :: rest, s =>
    runSlotCalls cfg fuel rest (RemoveScheduledDispatch s offset)

/-! ## Frame and ghost instrumentation -/

/-- The fields normalisation leaves alone agree between two schedules. -/
def SameFrame (a b : DispatchSchedule) : Prop :=
  a.scheduled_dispatch = b.scheduled_dispatch ∧
  a.scheduled_dispatch_duration = b.scheduled_dispatch_duration ∧
  a.scheduled_dispatch_max_delay = b.scheduled_dispatch_max_delay

/-- The first-run block with a ghost flag: `true` when the block ran and the
exact value `-start` does not fit 32 bits, so that the stored last-dispatch
value was day-advanced or clamped. -/
def UpdateScheduledDispatchToDate_init_traced (cfg : GameTimeSettings) (s : DispatchSchedule)
    (now : Int) : Except Fault (DispatchSchedule × Bool) :=
  match UpdateScheduledDispatchToDate_init cfg s now with
  | .error e => .error e
  | .ok s1 =>
    .ok (s1, decide (s.GetScheduledDispatchStartTick = 0 ∧
      ¬ IsInt32 (-(now - Int.tmod now s.GetScheduledDispatchDuration))))

/-- The first loop with a ghost flag `clamped`, raised when the saturating
addition clamped, i.e. its result is not the exact sum of its two 32-bit
operands. -/
def UpdateScheduledDispatchToDate_backward_traced (now : Int) :
    Nat → DispatchSchedule → Bool → Bool → Except Fault (DispatchSchedule × Bool × Bool)
  | 0, s, update_windows, clamped =>
    if s.GetScheduledDispatchStartTick > now then .error .outOfFuel
    else .ok (s, update_windows, clamped)
  | fuel + 1, s, update_windows, clamped =>
    if s.GetScheduledDispatchStartTick > now then
      UpdateScheduledDispatchToDate_backward_traced now fuel (backward_step s) true
        (clamped || decide (OverflowSafeInt32_add s.scheduled_dispatch_last_dispatch
            s.GetScheduledDispatchDuration
          ≠ s.scheduled_dispatch_last_dispatch + wrapI32 s.GetScheduledDispatchDuration))
    else .ok (s, update_windows, clamped)

/-- The second loop with a ghost flag `clamped`, raised when the saturating
subtraction clamped, i.e. its result is not the exact difference of its two
32-bit operands. -/
def UpdateScheduledDispatchToDate_forward_traced (now : Int) :
    Nat → DispatchSchedule → Bool → Bool → Except Fault (DispatchSchedule × Bool × Bool)
  | 0, s, update_windows, clamped =>
    if s.GetScheduledDispatchStartTick + s.GetScheduledDispatchDuration ≤ now then
      .error .outOfFuel
    else .ok (s, update_windows, clamped)
  | fuel + 1, s, update_windows, clamped =>
    if s.GetScheduledDispatchStartTick + s.GetScheduledDispatchDuration ≤ now then
      UpdateScheduledDispatchToDate_forward_traced now fuel (forward_step s) true
        (clamped || decide (OverflowSafeInt32_sub s.scheduled_dispatch_last_dispatch
            s.GetScheduledDispatchDuration
          ≠ s.scheduled_dispatch_last_dispatch - wrapI32 s.GetScheduledDispatchDuration))
    else .ok (s, update_windows, clamped)

/-- The method `UpdateScheduledDispatchToDate` with the ghost flag: the schedule, the
returned `update_windows`, and whether any store into the last-dispatch counter
was saturated, clamped or day-advanced during the call. -/
def UpdateScheduledDispatchToDate_traced (cfg : GameTimeSettings) (fuel : Nat)
    (s : DispatchSchedule) (now : Int) : Except Fault (DispatchSchedule × Bool × Bool) :=
  match UpdateScheduledDispatchToDate_init_traced cfg s now with
  | .error e => .error e
  | .ok (s1, clamped1) =>
    match UpdateScheduledDispatchToDate_backward_traced now fuel s1 false clamped1 with
    | .error e => .error e
    | .ok (s2, update_windows, clamped2) =>
      UpdateScheduledDispatchToDate_forward_traced now fuel s2 update_windows clamped2

/-! ## Pass counters -/

/-- The first loop with a ghost counter `passes` of the passes made so far. -/
def UpdateScheduledDispatchToDate_backward_counted (now : Int) :
    Nat → DispatchSchedule → Bool → Nat → Except Fault (DispatchSchedule × Bool × Nat)
  | 0, s, update_windows, passes =>
    if s.GetScheduledDispatchStartTick > now then .error .outOfFuel
    else .ok (s, update_windows, passes)
  | fuel + 1, s, update_windows, passes =>
    if s.GetScheduledDispatchStartTick > now then
      UpdateScheduledDispatchToDate_backward_counted now fuel (backward_step s) true (passes + 1)
    else .ok (s, update_windows, passes)

/-- The second loop with a ghost counter `passes` of the passes made so far. -/
def UpdateScheduledDispatchToDate_forward_counted (now : Int) :
    Nat → DispatchSchedule → Bool → Nat → Except Fault (DispatchSchedule × Bool × Nat)
  | 0, s, update_windows, passes =>
    if s.GetScheduledDispatchStartTick + s.GetScheduledDispatchDuration ≤ now then
      .error .outOfFuel
    else .ok (s, update_windows, passes)
  | fuel + 1, s, update_windows, passes =>
    if s.GetScheduledDispatchStartTick + s.GetScheduledDispatchDuration ≤ now then
      UpdateScheduledDispatchToDate_forward_counted now fuel (forward_step s) true (passes + 1)
    else .ok (s, update_windows, passes)

/-- The method `UpdateScheduledDispatchToDate` with ghost counters: the
schedule, the returned `update_windows`, the number of passes of the first
loop and the number of passes of the second loop. -/
def UpdateScheduledDispatchToDate_counted (cfg : GameTimeSettings) (fuel : Nat)
    (s : DispatchSchedule) (now : Int) :
    Except Fault (DispatchSchedule × Bool × Nat × Nat) :=
  match UpdateScheduledDispatchToDate_init cfg s now with
  | .error e => .error e
  | .ok s1 =>
    match UpdateScheduledDispatchToDate_backward_counted now fuel s1 false 0 with
    | .error e => .error e
    | .ok (s2, update_windows, backward_passes) =>
      match UpdateScheduledDispatchToDate_forward_counted now fuel s2 update_windows 0 with
      | .error e => .error e
      | .ok (s3, update_windows2, forward_passes) =>
        .ok (s3, update_windows2, backward_passes, forward_passes)

/-! ## Bulk replacement of the slot list -/

/-- The call `std::is_sorted(begin, end)`: no element is smaller than its
predecessor. -/
def is_sorted : List Nat → Bool
  | [] => true
  | [_] => true
  | a :: b :: rest => if b < a then false else is_sorted (b :: rest)

/-- The method `DispatchSchedule::SetScheduledDispatch(dispatch_list)`. The
predicate `IsScheduledDispatchValid` is declared outside `src/` and is taken as
a parameter; a failing `assert` is the fault `assertFailed`. -/
def SetScheduledDispatch (IsScheduledDispatchValid : DispatchSchedule → Bool)
    (cfg : GameTimeSettings) (fuel : Nat) (scaled_date_ticks : Int)
    (s : DispatchSchedule) (dispatch_list : List Nat) : Except Fault DispatchSchedule :=
  let s1 := { s with scheduled_dispatch := dispatch_list }
  if is_sorted s1.scheduled_dispatch = false then .error .assertFailed
  else if IsScheduledDispatchValid s1 = true then
    UpdateScheduledDispatch cfg fuel scaled_date_ticks s1
  else .ok s1

/-! ## Command layer -/

/-- Modelled from the spec: the macro `GB(x, s, n)` (declared outside `src/`)
fetches the `n` bits of `x` that start at bit `s`. -/
def GB (x s n : Nat) : Nat := (x / 2 ^ s) % 2 ^ n

/-- Modelled from the spec: the macro `HasBit(x, y)` (declared outside `src/`)
tests bit `y` of `x`. -/
def HasBit (x y : Nat) : Bool := x.testBit y

/-- Modelled from the spec: the flag `DC_EXEC` of `DoCommandFlag` (declared
outside `src/`) marks a command that is committed rather than only tested. -/
def DC_EXEC : Nat := 1

/-- The string identifiers the commands return as error messages. -/
inductive StringID where
  | INVALID_STRING_ID
  | STR_ERROR_OWNED_BY
  | STR_ERROR_SCHDISPATCH_TRIED_TO_ADD_TOO_MANY_SLOTS
  deriving DecidableEq, Repr

/-- Modelled from the spec: a `CommandCost` (declared outside `src/`) is a
success or a failure that carries an error message. -/
structure CommandCost where
  success : Bool
  message : StringID
  deriving DecidableEq, Repr

/-- The value `CommandCost()`: success. -/
def CommandCost.Succeeded : CommandCost := ⟨true, .INVALID_STRING_ID⟩

/-- The constant `CMD_ERROR`: failure without a message. -/
def CMD_ERROR : CommandCost := ⟨false, .INVALID_STRING_ID⟩

/-- The macro `return_cmd_error(msg)`: failure with a message. -/
def return_cmd_error (msg : StringID) : CommandCost := ⟨false, msg⟩

/-- The method `CommandCost::Failed()`. -/
def CommandCost.Failed (c : CommandCost) : Bool := !c.success

/-- An order, reduced to the dispatch schedule index it refers to
(`GetDispatchScheduleIndex`, `-1` for none). -/
structure Order where
  dispatch_schedule_index : Int
  deriving DecidableEq, Repr

/-- Modelled from the spec: an `OrderList` (declared outside `src/`) owns the
ordered set of dispatch schedules and the chain of orders that starts at
`GetFirstOrder()`. -/
structure OrderList where
  dispatch_schedules : List DispatchSchedule
  orders : List Order
  deriving DecidableEq, Repr

/-- Modelled from the spec: a `Vehicle` (declared outside `src/`), reduced to
what the commands read and write: `IsPrimaryVehicle()`, `owner`, the bit
`VF_SCHEDULED_DISPATCH` of `vehicle_flags`, and `orders.list` as a key into
the pool of order lists (`none` for `nullptr`). -/
structure Vehicle where
  primary : Bool
  owner : Nat
  VF_SCHEDULED_DISPATCH : Bool
  orders_list : Option Nat
  deriving DecidableEq, Repr

/-- The game state the commands act on: the vehicle pool, the order lists,
and the globals `_current_company`, `_scaled_date_ticks` and
`_settings_game.game_time`. -/
structure World where
  vehicles : List (Option Vehicle)
  order_lists : List OrderList
  current_company : Nat
  scaled_date_ticks : Int
  game_time : GameTimeSettings
  deriving DecidableEq, Repr

/-- The call `Vehicle::GetIfValid(veh)`. -/
def World.GetIfValid (w : World) (veh : Nat) : Option Vehicle :=
  w.vehicles.getD veh none

/-- Modelled from the spec: `CheckOwnership(owner)` (declared outside `src/`)
validates ownership: it fails unless the owner is the current company. -/
def World.CheckOwnership (w : World) (owner : Nat) : CommandCost :=
  if owner = w.current_company then CommandCost.Succeeded
  else return_cmd_error .STR_ERROR_OWNED_BY

/-- The pointer `v->orders.list`, dereferenced (`none` for `nullptr`). -/
def World.ordersList (w : World) (v : Vehicle) : Option (Nat × OrderList) :=
  match v.orders_list with
  | none => none
  | some k =>
    match w.order_lists[k]? with
    | none => none
    | some ol => some (k, ol)

/-- Write the order list with key `k` back to the pool. -/
def World.setOrderList (w : World) (k : Nat) (ol : OrderList) : World :=
  { w with order_lists := w.order_lists.set k ol }

/-- Write through the reference `GetDispatchScheduleByIndex(schedule_index)`. -/
def World.setSchedule (w : World) (k : Nat) (ol : OrderList) (schedule_index : Nat)
    (ds : DispatchSchedule) : World :=
  w.setOrderList k { ol with dispatch_schedules := ol.dispatch_schedules.set schedule_index ds }

/-- Modelled from the spec: the chain `FirstShared()` ... `NextShared()`
(declared outside `src/`) runs over the vehicles that share the order list of
`v`, over `v` alone when it has none; each gets the dispatch flag `enable`. -/
def World.setSharedDispatchFlag (w : World) (veh : Nat) (v : Vehicle) (enable : Bool) : World :=
  match v.orders_list with
  | none => { w with vehicles := w.vehicles.set veh (some { v with VF_SCHEDULED_DISPATCH := enable }) }
  | some k =>
    { w with vehicles := w.vehicles.map (fun ov =>
        match ov with
        | none => none
        | some v2 =>
          if v2.orders_list = some k then some { v2 with VF_SCHEDULED_DISPATCH := enable }
          else some v2) }

/-- The command `CmdScheduledDispatch`: enable or disable scheduled dispatch. -/
def CmdScheduledDispatch (w : World) (flags p1 p2 : Nat) : CommandCost × World :=
  let veh := GB p1 0 20
  match w.GetIfValid veh with
  | none => (CMD_ERROR, w)
  | some v =>
    if v.primary = false then (CMD_ERROR, w)
    else
      let ret := w.CheckOwnership v.owner
      if ret.Failed = true then (ret, w)
      else if flags &&& DC_EXEC ≠ 0 then
        (CommandCost.Succeeded, w.setSharedDispatchFlag veh v (HasBit p2 0))
      else (CommandCost.Succeeded, w)

/-- The `for` loop of `CmdScheduledDispatchAdd`: `extra_slots` more offsets,
each `offset` after the previous one in `uint32` arithmetic. -/
def CmdScheduledDispatchAdd_loop (cfg : GameTimeSettings) (fuel : Nat) (scaled_date_ticks : Int)
    (offset : Nat) : Nat → Nat → DispatchSchedule → Except Fault DispatchSchedule
  | 0, _, ds => .ok ds
  | extra_slots + 1, p2, ds =>
    match AddScheduledDispatch cfg fuel scaled_date_ticks ds ((p2 + offset) % 4294967296) with
    | .error e => .error e
    | .ok ds1 =>
      CmdScheduledDispatchAdd_loop cfg fuel scaled_date_ticks offset extra_slots
        ((p2 + offset) % 4294967296) ds1

/-- The command `CmdScheduledDispatchAdd`: add a slot and `extra_slots` more. -/
def CmdScheduledDispatchAdd (w : World) (fuel : Nat) (flags p1 p2 p3 : Nat) :
    Except Fault (CommandCost × World) :=
  let veh := GB p1 0 20
  let schedule_index := GB p1 20 12
  let offset := GB p3 0 32
  let extra_slots := GB p3 32 16
  match w.GetIfValid veh with
  | none => .ok (CMD_ERROR, w)
  | some v =>
    if v.primary = false then .ok (CMD_ERROR, w)
    else
      let ret := w.CheckOwnership v.owner
      if ret.Failed = true then .ok (ret, w)
      else
        match w.ordersList v with
        | none => .ok (CMD_ERROR, w)
        | some (k, ol) =>
          match ol.dispatch_schedules[schedule_index]? with
          | none => .ok (CMD_ERROR, w)
          | some ds =>
            if extra_slots > 512 then
              .ok (return_cmd_error .STR_ERROR_SCHDISPATCH_TRIED_TO_ADD_TOO_MANY_SLOTS, w)
            else if extra_slots > 0 ∧ offset = 0 then .ok (CMD_ERROR, w)
            else if flags &&& DC_EXEC ≠ 0 then
              match AddScheduledDispatch w.game_time fuel w.scaled_date_ticks ds p2 with
              | .error e => .error e
              | .ok ds1 =>
                match CmdScheduledDispatchAdd_loop w.game_time fuel w.scaled_date_ticks offset
                    extra_slots p2 ds1 with
                | .error e => .error e
                | .ok ds2 => .ok (CommandCost.Succeeded, w.setSchedule k ol schedule_index ds2)
            else .ok (CommandCost.Succeeded, w)

/-- The command `CmdScheduledDispatchRemove`: remove a slot. -/
def CmdScheduledDispatchRemove (w : World) (flags p1 p2 : Nat) : CommandCost × World :=
  let veh := GB p1 0 20
  let schedule_index := GB p1 20 12
  match w.GetIfValid veh with
  | none => (CMD_ERROR, w)
  | some v =>
    if v.primary = false then (CMD_ERROR, w)
    else
      let ret := w.CheckOwnership v.owner
      if ret.Failed = true then (ret, w)
      else
        match w.ordersList v with
        | none => (CMD_ERROR, w)
        | some (k, ol) =>
          match ol.dispatch_schedules[schedule_index]? with
          | none => (CMD_ERROR, w)
          | some ds =>
            if flags &&& DC_EXEC ≠ 0 then
              (CommandCost.Succeeded,
                w.setSchedule k ol schedule_index (RemoveScheduledDispatch ds p2))
            else (CommandCost.Succeeded, w)

/-- The command `CmdScheduledDispatchSetDuration`: set the window length, then
normalise. The setter `SetScheduledDispatchDuration` (declared outside `src/`)
stores its argument. -/
def CmdScheduledDispatchSetDuration (w : World) (fuel : Nat) (flags p1 p2 : Nat) :
    Except Fault (CommandCost × World) :=
  let veh := GB p1 0 20
  let schedule_index := GB p1 20 12
  match w.GetIfValid veh with
  | none => .ok (CMD_ERROR, w)
  | some v =>
    if v.primary = false then .ok (CMD_ERROR, w)
    else
      let ret := w.CheckOwnership v.owner
      if ret.Failed = true then .ok (ret, w)
      else
        match w.ordersList v with
        | none => .ok (CMD_ERROR, w)
        | some (k, ol) =>
          match ol.dispatch_schedules[schedule_index]? with
          | none => .ok (CMD_ERROR, w)
          | some ds =>
            if flags &&& DC_EXEC ≠ 0 then
              match UpdateScheduledDispatch w.game_time fuel w.scaled_date_ticks
                  { ds with scheduled_dispatch_duration := p2 } with
              | .error e => .error e
              | .ok ds1 => .ok (CommandCost.Succeeded, w.setSchedule k ol schedule_index ds1)
            else .ok (CommandCost.Succeeded, w)

/-- The command `CmdScheduledDispatchSetStartDate`: set the window start, then
normalise. The conversion `SchdispatchConvertToScaledTick` of a date and a
date fraction to a tick is declared outside `src/` and taken as a parameter. -/
def CmdScheduledDispatchSetStartDate (SchdispatchConvertToScaledTick : Int → Nat → Int)
    (w : World) (fuel : Nat) (flags p1 p2 p3 : Nat) : Except Fault (CommandCost × World) :=
  let veh := GB p1 0 20
  let schedule_index := GB p1 20 12
  match w.GetIfValid veh with
  | none => .ok (CMD_ERROR, w)
  | some v =>
    if v.primary = false then .ok (CMD_ERROR, w)
    else
      let ret := w.CheckOwnership v.owner
      if ret.Failed = true then .ok (ret, w)
      else
        match w.ordersList v with
        | none => .ok (CMD_ERROR, w)
        | some (k, ol) =>
          match ol.dispatch_schedules[schedule_index]? with
          | none => .ok (CMD_ERROR, w)
          | some ds =>
            let date : Int := wrapI32 p2
            let full_date_fract := GB p3 0 16
            if flags &&& DC_EXEC ≠ 0 then
              match UpdateScheduledDispatch w.game_time fuel w.scaled_date_ticks
                  { ds with scheduled_dispatch_start_tick :=
                      SchdispatchConvertToScaledTick date full_date_fract } with
              | .error e => .error e
              | .ok ds1 => .ok (CommandCost.Succeeded, w.setSchedule k ol schedule_index ds1)
            else .ok (CommandCost.Succeeded, w)

/-- The command `CmdScheduledDispatchSetDelay`: set the maximum delay. -/
def CmdScheduledDispatchSetDelay (w : World) (flags p1 p2 : Nat) : CommandCost × World :=
  let veh := GB p1 0 20
  let schedule_index := GB p1 20 12
  match w.GetIfValid veh with
  | none => (CMD_ERROR, w)
  | some v =>
    if v.primary = false then (CMD_ERROR, w)
    else
      let ret := w.CheckOwnership v.owner
      if ret.Failed = true then (ret, w)
      else
        match w.ordersList v with
        | none => (CMD_ERROR, w)
        | some (k, ol) =>
          match ol.dispatch_schedules[schedule_index]? with
          | none => (CMD_ERROR, w)
          | some ds =>
            if flags &&& DC_EXEC ≠ 0 then
              (CommandCost.Succeeded,
                w.setSchedule k ol schedule_index { ds with scheduled_dispatch_max_delay := p2 })
            else (CommandCost.Succeeded, w)

/-- The command `CmdScheduledDispatchResetLastDispatch`: zero the
last-dispatch counter. -/
def CmdScheduledDispatchResetLastDispatch (w : World) (flags p1 : Nat) : CommandCost × World :=
  let veh := GB p1 0 20
  let schedule_index := GB p1 20 12
  match w.GetIfValid veh with
  | none => (CMD_ERROR, w)
  | some v =>
    if v.primary = false then (CMD_ERROR, w)
    else
      let ret := w.CheckOwnership v.owner
      if ret.Failed = true then (ret, w)
      else
        match w.ordersList v with
        | none => (CMD_ERROR, w)
        | some (k, ol) =>
          match ol.dispatch_schedules[schedule_index]? with
          | none => (CMD_ERROR, w)
          | some ds =>
            if flags &&& DC_EXEC ≠ 0 then
              (CommandCost.Succeeded,
                w.setSchedule k ol schedule_index
                  { ds with scheduled_dispatch_last_dispatch := 0 })
            else (CommandCost.Succeeded, w)

/-- The command `CmdScheduledDispatchClear`: drop every slot. -/
def CmdScheduledDispatchClear (w : World) (flags p1 : Nat) : CommandCost × World :=
  let veh := GB p1 0 20
  let schedule_index := GB p1 20 12
  match w.GetIfValid veh with
  | none => (CMD_ERROR, w)
  | some v =>
    if v.primary = false then (CMD_ERROR, w)
    else
      let ret := w.CheckOwnership v.owner
      if ret.Failed = true then (ret, w)
      else
        match w.ordersList v with
        | none => (CMD_ERROR, w)
        | some (k, ol) =>
          match ol.dispatch_schedules[schedule_index]? with
          | none => (CMD_ERROR, w)
          | some ds =>
            if flags &&& DC_EXEC ≠ 0 then
              (CommandCost.Succeeded,
                w.setSchedule k ol schedule_index { ds with scheduled_dispatch := [] })
            else (CommandCost.Succeeded, w)

/-- Modelled from the spec: a schedule built by `emplace_back()` (the
constructor is declared outside `src/`) is empty with window start 0. -/
def DispatchSchedule.fresh : DispatchSchedule := ⟨[], 0, 0, 0, 0⟩

/-- The command `CmdScheduledDispatchAddNewSchedule`: append a schedule with
the given duration and start, then normalise it. -/
def CmdScheduledDispatchAddNewSchedule (SchdispatchConvertToScaledTick : Int → Nat → Int)
    (w : World) (fuel : Nat) (flags p1 p2 p3 : Nat) : Except Fault (CommandCost × World) :=
  let veh := GB p1 0 20
  match w.GetIfValid veh with
  | none => .ok (CMD_ERROR, w)
  | some v =>
    if v.primary = false then .ok (CMD_ERROR, w)
    else
      let ret := w.CheckOwnership v.owner
      if ret.Failed = true then .ok (ret, w)
      else
        match w.ordersList v with
        | none => .ok (CMD_ERROR, w)
        | some (k, ol) =>
          if ol.dispatch_schedules.length ≥ 4096 then .ok (CMD_ERROR, w)
          else
            let date : Int := wrapI32 (GB p3 0 32)
            let full_date_fract := GB p3 32 16
            if flags &&& DC_EXEC ≠ 0 then
              match UpdateScheduledDispatch w.game_time fuel w.scaled_date_ticks
                  { DispatchSchedule.fresh with
                    scheduled_dispatch_duration := p2
                    scheduled_dispatch_start_tick :=
                      SchdispatchConvertToScaledTick date full_date_fract } with
              | .error e => .error e
              | .ok ds1 =>
                .ok (CommandCost.Succeeded,
                  w.setOrderList k
                    { ol with dispatch_schedules := ol.dispatch_schedules ++ [ds1] })
            else .ok (CommandCost.Succeeded, w)

/-- The order loop of `CmdScheduledDispatchRemoveSchedule`, on one order. -/
def RemoveSchedule_fixOrder (schedule_index : Nat) (o : Order) : Order :=
  let idx := o.dispatch_schedule_index
  if idx = (schedule_index : Int) then { o with dispatch_schedule_index := -1 }
  else if idx > (schedule_index : Int) then { o with dispatch_schedule_index := idx - 1 }
  else o

/-- The command `CmdScheduledDispatchRemoveSchedule`: erase a schedule and
renumber the orders that refer to later schedules. -/
def CmdScheduledDispatchRemoveSchedule (w : World) (flags p1 : Nat) : CommandCost × World :=
  let veh := GB p1 0 20
  let schedule_index := GB p1 20 12
  match w.GetIfValid veh with
  | none => (CMD_ERROR, w)
  | some v =>
    if v.primary = false then (CMD_ERROR, w)
    else
      let ret := w.CheckOwnership v.owner
      if ret.Failed = true then (ret, w)
      else
        match w.ordersList v with
        | none => (CMD_ERROR, w)
        | some (k, ol) =>
          if schedule_index ≥ ol.dispatch_schedules.length then (CMD_ERROR, w)
          else if flags &&& DC_EXEC ≠ 0 then
            (CommandCost.Succeeded,
              w.setOrderList k
                { dispatch_schedules := ol.dispatch_schedules.eraseIdx schedule_index
                  orders := ol.orders.map (RemoveSchedule_fixOrder schedule_index) })
          else (CommandCost.Succeeded, w)

/-- The ten scheduled-dispatch commands. -/
inductive SchdispatchCommand where
  | Dispatch
  | Add
  | Remove
  | SetDuration
  | SetStartDate
  | SetDelay
  | ResetLastDispatch
  | Clear
  | AddNewSchedule
  | RemoveSchedule
  deriving DecidableEq, Repr

/-- Run one scheduled-dispatch command. -/
def runCommand (SchdispatchConvertToScaledTick : Int → Nat → Int) (w : World) (fuel : Nat)
    (c : SchdispatchCommand) (flags p1 p2 p3 : Nat) : Except Fault (CommandCost × World) :=
  match c with
  | .Dispatch => .ok (CmdScheduledDispatch w flags p1 p2)
  | .Add => CmdScheduledDispatchAdd w fuel flags p1 p2 p3
  | .Remove => .ok (CmdScheduledDispatchRemove w flags p1 p2)
  | .SetDuration => CmdScheduledDispatchSetDuration w fuel flags p1 p2
  | .SetStartDate =>
    CmdScheduledDispatchSetStartDate SchdispatchConvertToScaledTick w fuel flags p1 p2 p3
  | .SetDelay => .ok (CmdScheduledDispatchSetDelay w flags p1 p2)
  | .ResetLastDispatch => .ok (CmdScheduledDispatchResetLastDispatch w flags p1)
  | .Clear => .ok (CmdScheduledDispatchClear w flags p1)
  | .AddNewSchedule =>
    CmdScheduledDispatchAddNewSchedule SchdispatchConvertToScaledTick w fuel flags p1 p2 p3
  | .RemoveSchedule => .ok (CmdScheduledDispatchRemoveSchedule w flags p1)

/-- A small game state for worked examples: vehicle 0 is a primary vehicle of
company 1, the current company, and owns order list 0 with one order and one
dispatch schedule. -/
def sampleWorld (ds : DispatchSchedule) : World :=
  { vehicles := [some { primary := true, owner := 1, VF_SCHEDULED_DISPATCH := false,
                        orders_list := some 0 }]
    order_lists := [{ dispatch_schedules := [ds], orders := [{ dispatch_schedule_index := 0 }] }]
    current_company := 1
    scaled_date_ticks := 250
    game_time := { time_in_minutes := false, ticks_per_minute := 74 } }

/-- The cost `CmdScheduledDispatchAdd` returns once the vehicle, its ownership,
its order list and the schedule index have passed their checks. -/
def CmdScheduledDispatchAdd_validation (p3 : Nat) : CommandCost :=
  if GB p3 32 16 > 512 then
    return_cmd_error .STR_ERROR_SCHDISPATCH_TRIED_TO_ADD_TOO_MANY_SLOTS
  else if GB p3 32 16 > 0 ∧ GB p3 0 32 = 0 then CMD_ERROR
  else CommandCost.Succeeded

/-! ## Sequences of commands and the schedule count -/

/-- One issued command: which command, its flags and its parameters. -/
structure SchdispatchCall where
  cmd : SchdispatchCommand
  flags : Nat
  p1 : Nat
  p2 : Nat
  p3 : Nat
  deriving DecidableEq, Repr

/-- Run a finite sequence of commands, left to right, each on the game state
the previous one left. -/
def runCommands (SchdispatchConvertToScaledTick : Int → Nat → Int) (fuel : Nat) :
    List SchdispatchCall → World → Except Fault World
  | [], w => .ok w
  | c :: rest, w =>
    match runCommand SchdispatchConvertToScaledTick w fuel c.cmd c.flags c.p1 c.p2 c.p3 with
    | .error e => .error e
    | .ok (_, w1) => runCommands SchdispatchConvertToScaledTick fuel rest w1

/-- Every order list of the game state holds at most 4096 dispatch schedules. -/
def World.CountsOk (w : World) : Prop :=
  ∀ ol ∈ w.order_lists, ol.dispatch_schedules.length ≤ 4096

instance (w : World) : Decidable w.CountsOk := by
  unfold World.CountsOk; infer_instance

/-- Every dispatch schedule of the game state has a strictly ascending slot
list. -/
def World.SlotsOk (w : World) : Prop :=
  ∀ ol ∈ w.order_lists, ∀ ds ∈ ol.dispatch_schedules, StrictAsc ds.scheduled_dispatch

instance (w : World) : Decidable w.SlotsOk := by
  unfold World.SlotsOk; infer_instance

/-- A game state for worked examples like `sampleWorld`, with the given
dispatch schedules and orders in the order list of vehicle 0. -/
def sampleWorldWith (schedules : List DispatchSchedule) (orders : List Order) : World :=
  { vehicles := [some { primary := true, owner := 1, VF_SCHEDULED_DISPATCH := false,
                        orders_list := some 0 }]
    order_lists := [{ dispatch_schedules := schedules, orders := orders }]
    current_company := 1
    scaled_date_ticks := 250
    game_time := { time_in_minutes := false, ticks_per_minute := 74 } }

end SchDispatch

namespace SortList

open SchDispatch (Fault Returns)

/-! ## Sortable GUI lists -/

/-- Flag `VL_DESC`: sort descending instead of ascending. -/
def VL_DESC : Nat := 1

/-- Flag `VL_RESORT`: resort the list in the next loop. -/
def VL_RESORT : Nat := 2

/-- Flag `VL_REBUILD`: rebuild the sort list. -/
def VL_REBUILD : Nat := 4

/-- Flag `VL_FIRST_SORT`: sort with `qsort` first. -/
def VL_FIRST_SORT : Nat := 8

/-- Modelled from the spec: the macro `HASBITS(x, y)` (declared outside
`src/`) tells whether every bit of `y` is set in `x`. -/
def HASBITS (x y : Nat) : Bool := decide (x &&& y = y)

/-- Modelled from the spec: the macro `SETBITS(x, y)` (declared outside
`src/`) sets the bits of `y` in `x`. -/
def SETBITS (x y : Nat) : Nat := x ||| y

/-- Modelled from the spec: the macro `CLRBITS(x, y)` (declared outside
`src/`) clears the bits of `y` in `x`, written here as `x` xor the bits of `y`
that `x` has. -/
def CLRBITS (x y : Nat) : Nat := x ^^^ (x &&& y)

/-- Modelled from the spec: the constant `DAY_TICKS` (declared outside `src/`),
74 ticks a day. -/
def DAY_TICKS : Nat := 74

/-- The struct `Listing`: sort order and sort criteria. -/
structure Listing where
  order : Bool
  criteria : Nat
  deriving DecidableEq, Repr

/-- The class `GUIList<T>`: the items of the underlying `SmallVector` together
with the sort flags, the sort criteria and the resort timer. -/
structure GUIList (α : Type) where
  data : List α
  flags : Nat
  sort_type : Nat
  resort_timer : Nat
  deriving DecidableEq, Repr

/-- The method `IsSortable()`: the vector holds at least two items (its `data`
pointer is then not `NULL`). -/
def GUIList.IsSortable {α : Type} (l : GUIList α) : Bool := decide (l.data.length ≥ 2)

/-- The method `ResetResortTimer()`: resort every 10 days. -/
def GUIList.ResetResortTimer {α : Type} (l : GUIList α) : GUIList α :=
  { l with resort_timer := DAY_TICKS * 10 }

/-- The statement `Swap(*a, *b)` after both items have been read. -/
def Swap {α : Type} (data : List α) (a b : Nat) (x y : α) : List α :=
  (data.set a y).set b x

/-- The `do ... while (++a < --b)` loop of `Reverse()`. -/
def Reverse_loop {α : Type} : Nat → List α → Nat → Nat → Except Fault (List α)
  | 0, _, _, _ => .error .outOfFuel
  | fuel + 1, data, a, b =>
    match data[a]?, data[b]? with
    | some x, some y =>
      if a + 1 < b - 1 then Reverse_loop fuel (Swap data a b x y) (a + 1) (b - 1)
      else .ok (Swap data a b x y)
    | _, _ => .error .outOfBounds

/-- The method `Reverse()`; its loop swaps at most once per item. -/
def GUIList.Reverse {α : Type} (l : GUIList α) : Except Fault (GUIList α) :=
  if l.IsSortable = false then .error .assertFailed
  else
    match Reverse_loop l.data.length l.data 0 (l.data.length - 1) with
    | .error e => .error e
    | .ok d => .ok { l with data := d }

/-- The method `GetListing()`: export the current sort conditions. -/
def GUIList.GetListing {α : Type} (l : GUIList α) : Listing :=
  { order := HASBITS l.flags VL_DESC, criteria := l.sort_type }

/-- The method `SetListing(l)`: import sort conditions. -/
def GUIList.SetListing {α : Type} (g : GUIList α) (l : Listing) : GUIList α :=
  let flags1 := if l.order = true then SETBITS g.flags VL_DESC else CLRBITS g.flags VL_DESC
  { g with flags := SETBITS flags1 VL_FIRST_SORT, sort_type := l.criteria }

/-- The method `NeedResort()`: the new list and the returned Boolean; the
`uint16` timer wraps when it is decremented at 0. -/
def GUIList.NeedResort {α : Type} (l : GUIList α) : GUIList α × Bool :=
  let timer := (l.resort_timer + 65535) % 65536
  if timer = 0 then
    (GUIList.ResetResortTimer { l with resort_timer := timer, flags := SETBITS l.flags VL_RESORT },
      true)
  else ({ l with resort_timer := timer }, false)

/-- The method `ForceResort()`. -/
def GUIList.ForceResort {α : Type} (l : GUIList α) : GUIList α :=
  { l with flags := SETBITS l.flags VL_RESORT }

/-- The test `(!desc && diff <= 0) || (desc && diff >= 0)` of the gnome sort. -/
def InOrder {α : Type} (compare : α → α → Int) (desc : Bool) (x y : α) : Prop :=
  (desc = false ∧ compare x y ≤ 0) ∨ (desc = true ∧ compare x y ≥ 0)

instance {α : Type} (compare : α → α → Int) (desc : Bool) (x y : α) :
    Decidable (InOrder compare desc x y) := by
  unfold InOrder; infer_instance

/-- The `while (length > 1)` loop of `Sort`: `a` and `b` are the positions of
the two pointers, `offset` is the jump variable. A read outside the list is
the fault `outOfBounds`. -/
def Sort_loop {α : Type} (compare : α → α → Int) (desc : Bool) :
    Nat → List α → Nat → Nat → Nat → Nat → Except Fault (List α)
  | 0, data, _, _, length, _ => if length > 1 then .error .outOfFuel else .ok data
  | fuel + 1, data, a, b, length, offset =>
    if length > 1 then
      match data[a]?, data[b]? with
      | some x, some y =>
        if InOrder compare desc x y then
          if offset ≠ 0 then
            Sort_loop compare desc fuel data (a + offset) (b + offset) length 0
          else Sort_loop compare desc fuel data (a + 1) (b + 1) (length - 1) offset
        else
          if a ≠ 0 then
            Sort_loop compare desc fuel (Swap data a b x y) (a - 1) (b - 1) length (offset + 1)
          else Sort_loop compare desc fuel (Swap data a b x y) a b length offset
      | _, _ => .error .outOfBounds
    else .ok data

/-- The method `Sort(compare)`. The library routine `qsort` is taken as a
parameter. -/
def GUIList.Sort {α : Type} (qsort : (α → α → Int) → List α → List α)
    (compare : α → α → Int) (fuel : Nat) (l : GUIList α) : Except Fault (GUIList α) :=
  if HASBITS l.flags VL_RESORT = false then .ok l
  else
    let l1 := GUIList.ResetResortTimer { l with flags := CLRBITS l.flags VL_RESORT }
    if l1.IsSortable = false then .ok l1
    else
      let desc := HASBITS l1.flags VL_DESC
      if HASBITS l1.flags VL_FIRST_SORT = true then
        let l2 := { l1 with data := qsort compare l1.data }
        if desc = true then l2.Reverse else .ok l2
      else
        match Sort_loop compare desc fuel l1.data 0 1 l1.data.length 0 with
        | .error e => .error e
        | .ok d => .ok { l1 with data := d }

/-! ## Invariant and measure of the gnome sort loop -/

/-- The items at positions `i` and `j`, when both exist, pass the order test. -/
def RelAt {α : Type} (compare : α → α → Int) (desc : Bool) (data : List α) (i j : Nat) : Prop :=
  match data[i]?, data[j]? with
  | some x, some y => InOrder compare desc x y
  | _, _ => True

instance {α : Type} (compare : α → α → Int) (desc : Bool) (data : List α) (i j : Nat) :
    Decidable (RelAt compare desc data i j) := by
  unfold RelAt; split <;> infer_instance

/-- Loop invariant of `Sort_loop`: `b` follows `a`; the items before the
pointers, the walked-back items and the remaining length add up to the list;
neighbours are in order up to `a` and from `a + 1` to `a + offset + 1`; and
while walking back, the item at `a` is in order with the one two places on. -/
def GnomeInv {α : Type} (compare : α → α → Int) (desc : Bool) (data : List α)
    (a b length offset : Nat) : Prop :=
  b = a + 1 ∧ a + offset + length = data.length ∧ 1 ≤ length ∧ (2 ≤ length ∨ offset = 0) ∧
  (∀ i, i < a → RelAt compare desc data i (i + 1)) ∧
  (∀ i, a + 1 ≤ i → i ≤ a + offset → RelAt compare desc data i (i + 1)) ∧
  (0 < offset → RelAt compare desc data a (a + 2))

/-- A bound on the number of passes `Sort_loop` still makes from a state that
satisfies the invariant. -/
def gnomeMeasure {α : Type} (compare : α → α → Int) (desc : Bool) (data : List α)
    (a length offset : Nat) : Nat :=
  length * (2 * data.length + 5) +
    (if offset = 0 then (if RelAt compare desc data a (a + 1) then 0 else 2 * a + 3)
     else 2 * a + 3 + (if RelAt compare desc data a (a + 1) then 0 else 1))

/-- A comparison function on numbers in the style of the sorters of the GUI
lists: the difference of the two items. -/
def compareNat (a b : Nat) : Int := (a : Int) - b

/-- A list of three numbers flagged for a resort, after its first sort. -/
def sampleList : GUIList Nat :=
  { data := [3, 1, 2], flags := VL_RESORT, sort_type := 0, resort_timer := 5 }

end SortList

namespace Script

/-! ## The script scanner -/

/-- Modelled from the spec: a `ScriptInfo` (declared outside `src/`), reduced
to what `RegisterScript` reads of it: `GetName()`, `GetShortName()`,
`GetVersion()`, `GetMainScript()` and `IsDeveloperOnly()`. -/
structure ScriptInfo where
  name : String
  short_name : String
  version : Int
  main_script : String
  developer_only : Bool
  deriving DecidableEq, Repr

/-- Modelled from the spec: a `ScriptInfoList` (declared outside `src/`) is a
`std::map` from names to scripts. It is kept here as the list of its entries;
the key comparison of the map is the parameter `same` of the operations. -/
abbrev ScriptInfoList := List (String × ScriptInfo)

/-- The call `list.find(key)`: the script stored under `key`, `none` for
`end()`. -/
def ScriptInfoList.find (same : String → String → Bool) :
    ScriptInfoList → String → Option ScriptInfo
  | [], _ => none
  | (k, v) :: rest, key =>
    if same k key = true then some v else ScriptInfoList.find same rest key

/-- The assignment `list[key] = info`: overwrite the entry under `key`, or
insert one when there is none. -/
def ScriptInfoList.set (same : String → String → Bool) :
    ScriptInfoList → String → ScriptInfo → ScriptInfoList
  | [], key, info => [(key, info)]
  | (k, v) :: rest, key, info =>
    if same k key = true then (k, info) :: rest
    else (k, v) :: ScriptInfoList.set same rest key info

/-- The two lists of a `ScriptScanner`: every registered script by name and
version, and the newest eligible script by name. -/
structure ScriptScanner where
  info_list : ScriptInfoList
  info_single_list : ScriptInfoList
  deriving DecidableEq, Repr

/-- The method `ScriptScanner::Reset()`: both lists are emptied. -/
def ScriptScanner.Reset : ScriptScanner := ⟨[], []⟩

/-- The method `ScriptScanner::RegisterScript(info)`. The virtual method
`GetScriptName` and the key comparison `same` of the lists are declared outside
`src/` and taken as parameters; `ai_developer_tools` is the setting
`_settings_client.gui.ai_developer_tools`. Freeing a rejected `info` and the
debug output are outside the model. -/
def ScriptScanner.RegisterScript (same : String → String → Bool)
    (GetScriptName : ScriptInfo → String) (ai_developer_tools : Bool)
    (s : ScriptScanner) (info : ScriptInfo) : ScriptScanner :=
  let script_original_name := GetScriptName info
  let script_name := script_original_name ++ "." ++ toString info.version
  if info.short_name.utf8ByteSize ≠ 4 then s
  else
    match s.info_list.find same script_name with
    | some registered =>
      if registered.main_script = info.main_script then s
      else s
    | none =>
      let s1 := { s with info_list := s.info_list.set same script_name info }
      if !info.developer_only || ai_developer_tools then
        match s1.info_single_list.find same script_original_name with
        | none =>
          { s1 with info_single_list :=
              s1.info_single_list.set same script_original_name info }
        | some it =>
          if it.version < info.version then
            { s1 with info_single_list :=
                s1.info_single_list.set same script_original_name info }
          else s1
      else s1

/-- Register a finite sequence of scripts, left to right. -/
def ScriptScanner.RegisterScripts (same : String → String → Bool)
    (GetScriptName : ScriptInfo → String) (ai_developer_tools : Bool)
    (s : ScriptScanner) (infos : List ScriptInfo) : ScriptScanner :=
  infos.foldl (ScriptScanner.RegisterScript same GetScriptName ai_developer_tools) s

/-- A script may enter the newest-version list: it is not developer-only, or
the developer tools are on. -/
def Eligible (ai_developer_tools : Bool) (info : ScriptInfo) : Bool :=
  !info.developer_only || ai_developer_tools

/-- The invariant of the two lists: what the newest-version list holds under a
name is registered, eligible, carries that name and has the highest version of
the eligible registered scripts of that name; and every eligible registered
script has an entry under its name. -/
def NewestInv (same : String → String → Bool) (GetScriptName : ScriptInfo → String)
    (ai_developer_tools : Bool) (s : ScriptScanner) : Prop :=
  (∀ n e, s.info_single_list.find same n = some e →
    (∃ key, s.info_list.find same key = some e) ∧ Eligible ai_developer_tools e = true ∧
    same (GetScriptName e) n = true ∧
    ∀ key e2, s.info_list.find same key = some e2 → Eligible ai_developer_tools e2 = true →
      same (GetScriptName e2) n = true → e2.version ≤ e.version) ∧
  (∀ key e2, s.info_list.find same key = some e2 → Eligible ai_developer_tools e2 = true →
    (s.info_single_list.find same (GetScriptName e2)).isSome = true)

/-- Exact comparison of two names. -/
def sameExact (a b : String) : Bool := decide (a = b)

/-- Four scripts named `Foo` for worked examples: versions 1, 3 and 2, and a
developer-only version 9. -/
def sampleScripts : List ScriptInfo :=
  [⟨"Foo", "FOOO", 1, "foo1/main.nut", false⟩, ⟨"Foo", "FOOO", 3, "foo3/main.nut", false⟩,
   ⟨"Foo", "FOOO", 2, "foo2/main.nut", false⟩, ⟨"Foo", "FOOO", 9, "foo9/main.nut", true⟩]

end Script

namespace SchDispatch

/-! ## Facts about the binary search -/

theorem strictAsc_getD_lt {xs : List Nat} (hs : StrictAsc xs) {i j : Nat}
    (hij : i < j) (hj : j < xs.length) : xs.getD i 0 < xs.getD j 0 := by
  have hi : i < xs.length := lt_trans hij hj
  rw [List.getD_eq_getElem xs 0 hi, List.getD_eq_getElem xs 0 hj]
  exact (List.pairwise_iff_getElem.mp hs) i j hi hj hij

theorem lower_bound_loop_spec (xs : List Nat) (val : Nat) (hs : StrictAsc xs) :
    ∀ fuel first len, len ≤ fuel → first + len ≤ xs.length →
      (∀ j, j < first → xs.getD j 0 < val) →
      (∀ j, first + len ≤ j → j < xs.length → val ≤ xs.getD j 0) →
      lower_bound_loop xs val fuel first len ≤ xs.length ∧
      (∀ j, j < lower_bound_loop xs val fuel first len → xs.getD j 0 < val) ∧
      (∀ j, lower_bound_loop xs val fuel first len ≤ j → j < xs.length →
        val ≤ xs.getD j 0) := by
  intro fuel
  induction fuel with
  | zero =>
    intro first len hlen hbound hlo hhi
    have h0 : len = 0 := Nat.le_zero.mp hlen
    subst h0
    simp only [lower_bound_loop]
    exact ⟨by omega, hlo, fun j hj hjl => hhi j (by omega) hjl⟩
  | succ fuel ih =>
    intro first len hlen hbound hlo hhi
    unfold lower_bound_loop
    by_cases h0 : len = 0
    · subst h0
      simp only [if_true]
      exact ⟨by omega, hlo, fun j hj hjl => hhi j (by omega) hjl⟩
    · simp only [if_neg h0]
      have hhalf : len / 2 < len := Nat.div_lt_self (Nat.pos_of_ne_zero h0) (by decide)
      have hmid : first + len / 2 < xs.length := by omega
      by_cases hcmp : xs.getD (first + len / 2) 0 < val
      · simp only [if_pos hcmp]
        apply ih
        · omega
        · omega
        · intro j hj
          by_cases hjm : j = first + len / 2
          · rw [hjm]; exact hcmp
          · exact lt_trans (strictAsc_getD_lt hs (by omega) hmid) hcmp
        · intro j hj hjl
          exact hhi j (by omega) hjl
      · simp only [if_neg hcmp]
        apply ih
        · omega
        · omega
        · exact hlo
        · intro j hj hjl
          by_cases hjm : j = first + len / 2
          · rw [hjm]; exact Nat.le_of_not_lt hcmp
          · exact le_trans (Nat.le_of_not_lt hcmp)
              (le_of_lt (strictAsc_getD_lt hs (by omega) hjl))

theorem lower_bound_le_length {xs : List Nat} (hs : StrictAsc xs) (val : Nat) :
    lower_bound xs val ≤ xs.length :=
  (lower_bound_loop_spec xs val hs xs.length 0 xs.length (le_refl _) (by omega)
    (fun j hj => absurd hj (Nat.not_lt_zero j)) (fun j hj hjl => by omega)).1

theorem lower_bound_below {xs : List Nat} (hs : StrictAsc xs) (val : Nat) {j : Nat}
    (hj : j < lower_bound xs val) : xs.getD j 0 < val :=
  (lower_bound_loop_spec xs val hs xs.length 0 xs.length (le_refl _) (by omega)
    (fun j hj => absurd hj (Nat.not_lt_zero j)) (fun j hj hjl => by omega)).2.1 j hj

theorem lower_bound_above {xs : List Nat} (hs : StrictAsc xs) (val : Nat) {j : Nat}
    (hj : lower_bound xs val ≤ j) (hjl : j < xs.length) : val ≤ xs.getD j 0 :=
  (lower_bound_loop_spec xs val hs xs.length 0 xs.length (le_refl _) (by omega)
    (fun j hj => absurd hj (Nat.not_lt_zero j)) (fun j hj hjl => by omega)).2.2 j hj hjl

theorem mem_take_lower_bound {xs : List Nat} (hs : StrictAsc xs) (val : Nat) {x : Nat}
    (hx : x ∈ xs.take (lower_bound xs val)) : x < val := by
  obtain ⟨i, hi, rfl⟩ := List.mem_take_iff_getElem.mp hx
  have hi2 : i < lower_bound xs val ∧ i < xs.length := by
    simpa using hi
  rw [← List.getD_eq_getElem xs 0 hi2.2]
  exact lower_bound_below hs val hi2.1

theorem mem_drop_lower_bound {xs : List Nat} (hs : StrictAsc xs) (val : Nat) {x : Nat}
    (hx : x ∈ xs.drop (lower_bound xs val)) : val ≤ x := by
  obtain ⟨i, hi, rfl⟩ := List.mem_drop_iff_getElem.mp hx
  have hl : lower_bound xs val + i < xs.length := by omega
  rw [← List.getD_eq_getElem xs 0 hl]
  exact lower_bound_above hs val (by omega) hl

/-- Past the search position every slot is strictly above the value searched. -/
theorem mem_drop_succ_lower_bound {xs : List Nat} (hs : StrictAsc xs) (val : Nat) {x : Nat}
    (hx : x ∈ xs.drop (lower_bound xs val + 1)) : val < x := by
  obtain ⟨i, hi, rfl⟩ := List.mem_drop_iff_getElem.mp hx
  have hl : lower_bound xs val + 1 + i < xs.length := by omega
  have h0 : lower_bound xs val < xs.length := by omega
  rw [← List.getD_eq_getElem xs 0 hl]
  exact lt_of_le_of_lt (lower_bound_above hs val (le_refl _) h0)
    (strictAsc_getD_lt hs (by omega) hl)

/-- When the search does not hit the value, the value is not in the list. -/
theorem not_mem_of_lower_bound_miss {xs : List Nat} (hs : StrictAsc xs) (val : Nat)
    (hmiss : lower_bound xs val = xs.length ∨ xs.getD (lower_bound xs val) 0 ≠ val) :
    val ∉ xs := by
  intro hmem
  obtain ⟨j, hj, hjv⟩ := List.mem_iff_getElem.mp hmem
  rw [← List.getD_eq_getElem xs 0 hj] at hjv
  rcases Nat.lt_trichotomy j (lower_bound xs val) with hlt | heq | hgt
  · have := lower_bound_below hs val hlt
    omega
  · subst heq
    rcases hmiss with h | h
    · omega
    · exact h hjv
  · have hlb : lower_bound xs val < xs.length := by omega
    have h1 := lower_bound_above hs val (le_refl _) hlb
    have h2 := strictAsc_getD_lt hs hgt hj
    omega

/-- When the search hits the value, the value is in the list. -/
theorem mem_of_lower_bound_hit {xs : List Nat} (val : Nat)
    (hlt : lower_bound xs val ≠ xs.length) (hle : lower_bound xs val ≤ xs.length)
    (hhit : xs.getD (lower_bound xs val) 0 = val) : val ∈ xs := by
  have h : lower_bound xs val < xs.length := lt_of_le_of_ne hle hlt
  rw [List.getD_eq_getElem xs 0 h] at hhit
  exact List.mem_iff_getElem.mpr ⟨_, h, hhit⟩

/-! ## Inserting and erasing at the search position -/

theorem strictAsc_vector_insert {xs : List Nat} (hs : StrictAsc xs) (val : Nat)
    (hmiss : lower_bound xs val = xs.length ∨ xs.getD (lower_bound xs val) 0 ≠ val) :
    StrictAsc (vector_insert xs (lower_bound xs val) val) := by
  have hnot := not_mem_of_lower_bound_miss hs val hmiss
  have hdrop : ∀ x ∈ xs.drop (lower_bound xs val), val < x := by
    intro x hx
    have h1 := mem_drop_lower_bound hs val hx
    have h2 : x ≠ val := fun h => hnot (h ▸ (List.drop_sublist _ xs).subset hx)
    omega
  unfold vector_insert StrictAsc
  rw [List.pairwise_append, List.pairwise_cons]
  refine ⟨hs.sublist (List.take_sublist _ xs), ⟨hdrop, hs.sublist (List.drop_sublist _ xs)⟩, ?_⟩
  intro a ha b hb
  have h1 := mem_take_lower_bound hs val ha
  rcases List.mem_cons.mp hb with rfl | hb
  · exact h1
  · exact lt_trans h1 (hdrop b hb)

theorem mem_vector_insert (xs : List Nat) (pos val x : Nat) :
    x ∈ vector_insert xs pos val ↔ x ∈ xs ∨ x = val := by
  unfold vector_insert
  conv_rhs => rw [← List.take_append_drop pos xs]
  simp only [List.mem_append, List.mem_cons]
  tauto

theorem vector_erase_eq_filter {xs : List Nat} (hs : StrictAsc xs) (val : Nat)
    (hlt : lower_bound xs val ≠ xs.length)
    (hhit : xs.getD (lower_bound xs val) 0 = val) :
    vector_erase xs (lower_bound xs val) = xs.filter (fun x => decide (x ≠ val)) := by
  have h : lower_bound xs val < xs.length :=
    lt_of_le_of_ne (lower_bound_le_length hs val) hlt
  rw [List.getD_eq_getElem xs 0 h] at hhit
  have hsplit : xs = xs.take (lower_bound xs val) ++ val :: xs.drop (lower_bound xs val + 1) := by
    conv_lhs => rw [← List.take_append_drop (lower_bound xs val) xs, List.drop_eq_getElem_cons h, hhit]
  have h1 : (xs.take (lower_bound xs val)).filter (fun x => decide (x ≠ val))
      = xs.take (lower_bound xs val) := by
    rw [List.filter_eq_self]
    intro a ha
    have := mem_take_lower_bound hs val ha
    simp only [ne_eq, decide_eq_true_eq]
    omega
  have h2 : (xs.drop (lower_bound xs val + 1)).filter (fun x => decide (x ≠ val))
      = xs.drop (lower_bound xs val + 1) := by
    rw [List.filter_eq_self]
    intro a ha
    have := mem_drop_succ_lower_bound hs val ha
    simp only [ne_eq, decide_eq_true_eq]
    omega
  unfold vector_erase
  conv_rhs => rw [hsplit, List.filter_append, List.filter_cons_of_neg (by simp), h1, h2]

theorem filter_ne_of_not_mem {xs : List Nat} {val : Nat} (h : val ∉ xs) :
    xs.filter (fun x => decide (x ≠ val)) = xs := by
  rw [List.filter_eq_self]
  intro a ha
  simp only [ne_eq, decide_eq_true_eq]
  exact fun hav => h (hav ▸ ha)

/-! ## Integer division facts -/

theorem floor_div_bounds (a : Int) (d : Nat) (hd : 0 < d) (ha : 0 ≤ a) :
    ((a / (d : Int)).toNat : Int) * d ≤ a ∧ a < (((a / (d : Int)).toNat : Int) + 1) * d := by
  have hdpos : (0 : Int) < d := by exact_mod_cast hd
  have h1 := Int.ediv_add_emod a d
  have h2 := Int.emod_nonneg a (ne_of_gt hdpos)
  have h3 := Int.emod_lt_of_pos a hdpos
  have hq : 0 ≤ a / (d : Int) := Int.ediv_nonneg ha (le_of_lt hdpos)
  rw [Int.toNat_of_nonneg hq]
  constructor <;> nlinarith

theorem ceil_div_bounds (a : Int) (d : Nat) (hd : 0 < d) (ha : 0 < a) :
    1 ≤ ((a + d - 1) / (d : Int)).toNat ∧
    ((((a + d - 1) / (d : Int)).toNat : Int) - 1) * d < a ∧
    a ≤ (((a + d - 1) / (d : Int)).toNat : Int) * d := by
  have hdpos : (0 : Int) < d := by exact_mod_cast hd
  have h1 := Int.ediv_add_emod (a + d - 1) d
  have h2 := Int.emod_nonneg (a + d - 1) (ne_of_gt hdpos)
  have h3 := Int.emod_lt_of_pos (a + d - 1) hdpos
  have hq : 0 ≤ (a + d - 1) / (d : Int) := Int.ediv_nonneg (by omega) (le_of_lt hdpos)
  have hq1 : 1 ≤ (a + d - 1) / (d : Int) := by
    by_contra hlt
    have : (a + d - 1) / (d : Int) ≤ 0 := by omega
    nlinarith
  refine ⟨?_, ?_, ?_⟩
  · have : ((1 : Nat) : Int) ≤ (((a + d - 1) / (d : Int)).toNat : Int) := by
      rw [Int.toNat_of_nonneg hq]; exact_mod_cast hq1
    exact_mod_cast this
  · rw [Int.toNat_of_nonneg hq]; nlinarith
  · rw [Int.toNat_of_nonneg hq]; nlinarith

/-! ## The loop bodies, iterated -/

theorem backward_iter_fields (k : Nat) : ∀ s : DispatchSchedule,
    (backward_step^[k] s).scheduled_dispatch_start_tick
        = s.scheduled_dispatch_start_tick - (k : Int) * s.scheduled_dispatch_duration ∧
    (backward_step^[k] s).scheduled_dispatch_duration = s.scheduled_dispatch_duration ∧
    (backward_step^[k] s).scheduled_dispatch = s.scheduled_dispatch ∧
    (backward_step^[k] s).scheduled_dispatch_max_delay = s.scheduled_dispatch_max_delay := by
  induction k with
  | zero => intro s; simp
  | succ k ih =>
    intro s
    rw [Function.iterate_succ_apply]
    obtain ⟨h1, h2, h3, h4⟩ := ih (backward_step s)
    refine ⟨?_, ?_, ?_, ?_⟩
    · rw [h1]
      simp only [backward_step, DispatchSchedule.GetScheduledDispatchStartTick,
        DispatchSchedule.GetScheduledDispatchDuration]
      push_cast; ring
    · rw [h2]; rfl
    · rw [h3]; rfl
    · rw [h4]; rfl

theorem forward_iter_fields (k : Nat) : ∀ s : DispatchSchedule,
    (forward_step^[k] s).scheduled_dispatch_start_tick
        = s.scheduled_dispatch_start_tick + (k : Int) * s.scheduled_dispatch_duration ∧
    (forward_step^[k] s).scheduled_dispatch_duration = s.scheduled_dispatch_duration ∧
    (forward_step^[k] s).scheduled_dispatch = s.scheduled_dispatch ∧
    (forward_step^[k] s).scheduled_dispatch_max_delay = s.scheduled_dispatch_max_delay := by
  induction k with
  | zero => intro s; simp
  | succ k ih =>
    intro s
    rw [Function.iterate_succ_apply]
    obtain ⟨h1, h2, h3, h4⟩ := ih (forward_step s)
    refine ⟨?_, ?_, ?_, ?_⟩
    · rw [h1]
      simp only [forward_step, DispatchSchedule.GetScheduledDispatchStartTick,
        DispatchSchedule.GetScheduledDispatchDuration]
      push_cast; ring
    · rw [h2]; rfl
    · rw [h3]; rfl
    · rw [h4]; rfl

/-! ## The two loops run exactly as many passes as windows are crossed -/

theorem backward_stops (now : Int) (fuel : Nat) (s : DispatchSchedule) (u : Bool)
    (h : s.scheduled_dispatch_start_tick ≤ now) :
    UpdateScheduledDispatchToDate_backward now fuel s u = .ok (s, u) := by
  have hn : ¬ s.GetScheduledDispatchStartTick > now := by
    simp only [DispatchSchedule.GetScheduledDispatchStartTick]; omega
  cases fuel <;> simp only [UpdateScheduledDispatchToDate_backward, if_neg hn]

theorem forward_stops (now : Int) (fuel : Nat) (s : DispatchSchedule) (u : Bool)
    (h : now < s.scheduled_dispatch_start_tick + s.scheduled_dispatch_duration) :
    UpdateScheduledDispatchToDate_forward now fuel s u = .ok (s, u) := by
  have hn : ¬ s.GetScheduledDispatchStartTick + s.GetScheduledDispatchDuration ≤ now := by
    simp only [DispatchSchedule.GetScheduledDispatchStartTick,
      DispatchSchedule.GetScheduledDispatchDuration]; omega
  cases fuel <;> simp only [UpdateScheduledDispatchToDate_forward, if_neg hn]

theorem backward_runs (now : Int) : ∀ (k : Nat) (s : DispatchSchedule) (u : Bool) (fuel : Nat),
    k ≤ fuel →
    s.scheduled_dispatch_start_tick - (k : Int) * s.scheduled_dispatch_duration ≤ now →
    (k = 0 ∨ now < s.scheduled_dispatch_start_tick
        - ((k : Int) - 1) * s.scheduled_dispatch_duration) →
    UpdateScheduledDispatchToDate_backward now fuel s u
      = .ok (backward_step^[k] s, u || decide (0 < k)) := by
  intro k
  induction k with
  | zero =>
    intro s u fuel _ h1 _
    simp only [Nat.cast_zero, zero_mul, sub_zero] at h1
    simpa using backward_stops now fuel s u h1
  | succ k ih =>
    intro s u fuel hf h1 h2
    have hkd : (0 : Int) ≤ (k : Int) * s.scheduled_dispatch_duration := by positivity
    have hgt : s.GetScheduledDispatchStartTick > now := by
      simp only [DispatchSchedule.GetScheduledDispatchStartTick]
      rcases h2 with h2 | h2
      · omega
      · push_cast at h2
        simp only [add_sub_cancel_right] at h2
        omega
    obtain ⟨f, rfl⟩ : ∃ f, fuel = f + 1 := ⟨fuel - 1, by omega⟩
    simp only [UpdateScheduledDispatchToDate_backward, if_pos hgt]
    rw [ih (backward_step s) true f (by omega), Function.iterate_succ_apply]
    · simp
    · simp only [backward_step, DispatchSchedule.GetScheduledDispatchStartTick,
        DispatchSchedule.GetScheduledDispatchDuration]
      push_cast at h1
      linarith
    · by_cases hk : k = 0
      · exact Or.inl hk
      · right
        simp only [backward_step, DispatchSchedule.GetScheduledDispatchStartTick,
          DispatchSchedule.GetScheduledDispatchDuration]
        rcases h2 with h2 | h2
        · omega
        · push_cast at h2
          linarith

theorem forward_runs (now : Int) : ∀ (k : Nat) (s : DispatchSchedule) (u : Bool) (fuel : Nat),
    k ≤ fuel →
    s.scheduled_dispatch_start_tick + (k : Int) * s.scheduled_dispatch_duration ≤ now →
    now < s.scheduled_dispatch_start_tick
        + ((k : Int) + 1) * s.scheduled_dispatch_duration →
    UpdateScheduledDispatchToDate_forward now fuel s u
      = .ok (forward_step^[k] s, u || decide (0 < k)) := by
  intro k
  induction k with
  | zero =>
    intro s u fuel _ _ h2
    simp only [Nat.cast_zero, zero_add, one_mul] at h2
    simpa using forward_stops now fuel s u h2
  | succ k ih =>
    intro s u fuel hf h1 h2
    have hkd : (0 : Int) ≤ (k : Int) * s.scheduled_dispatch_duration := by positivity
    have hle : s.GetScheduledDispatchStartTick + s.GetScheduledDispatchDuration ≤ now := by
      simp only [DispatchSchedule.GetScheduledDispatchStartTick,
        DispatchSchedule.GetScheduledDispatchDuration]
      push_cast at h1
      linarith
    obtain ⟨f, rfl⟩ : ∃ f, fuel = f + 1 := ⟨fuel - 1, by omega⟩
    simp only [UpdateScheduledDispatchToDate_forward, if_pos hle]
    rw [ih (forward_step s) true f (by omega), Function.iterate_succ_apply]
    · simp
    · simp only [forward_step, DispatchSchedule.GetScheduledDispatchStartTick,
        DispatchSchedule.GetScheduledDispatchDuration]
      push_cast at h1
      linarith
    · simp only [forward_step, DispatchSchedule.GetScheduledDispatchStartTick,
        DispatchSchedule.GetScheduledDispatchDuration]
      push_cast at h2
      linarith

/-! ## The first-run block -/

theorem init_of_started (cfg : GameTimeSettings) (s : DispatchSchedule) (now : Int)
    (h : s.scheduled_dispatch_start_tick ≠ 0) :
    UpdateScheduledDispatchToDate_init cfg s now = .ok s := by
  simp [UpdateScheduledDispatchToDate_init, DispatchSchedule.GetScheduledDispatchStartTick, h]

theorem init_ok (cfg : GameTimeSettings) (s : DispatchSchedule) (now : Int)
    (hd : 0 < s.scheduled_dispatch_duration) (ht : 0 < cfg.ticks_per_minute) :
    ∃ s1, UpdateScheduledDispatchToDate_init cfg s now = .ok s1 ∧
      s1.scheduled_dispatch_duration = s.scheduled_dispatch_duration ∧
      s1.scheduled_dispatch = s.scheduled_dispatch ∧
      s1.scheduled_dispatch_max_delay = s.scheduled_dispatch_max_delay ∧
      (s.scheduled_dispatch_start_tick = 0 →
        s1.scheduled_dispatch_start_tick
          = now - Int.tmod now s.scheduled_dispatch_duration) := by
  have hd0 : s.scheduled_dispatch_duration ≠ 0 := Nat.pos_iff_ne_zero.mp hd
  have hday : ¬ ((24 : Int) * 60 * cfg.ticks_per_minute = 0) := by
    have : (0 : Int) < cfg.ticks_per_minute := by exact_mod_cast ht
    omega
  unfold UpdateScheduledDispatchToDate_init
  simp only [DispatchSchedule.GetScheduledDispatchStartTick,
    DispatchSchedule.GetScheduledDispatchDuration, if_neg hd0, if_neg hday]
  split_ifs with h0 h1
  · exact ⟨_, rfl, rfl, rfl, rfl, fun _ => rfl⟩
  · exact ⟨_, rfl, rfl, rfl, rfl, fun _ => rfl⟩
  · exact ⟨_, rfl, rfl, rfl, rfl, fun h => absurd h h0⟩

theorem update_of_init {cfg : GameTimeSettings} {s s1 : DispatchSchedule} {now : Int}
    (h : UpdateScheduledDispatchToDate_init cfg s now = .ok s1) (fuel : Nat) :
    UpdateScheduledDispatchToDate cfg fuel s now =
      match UpdateScheduledDispatchToDate_backward now fuel s1 false with
      | .error e => .error e
      | .ok (s2, update_windows) =>
        UpdateScheduledDispatchToDate_forward now fuel s2 update_windows := by
  simp only [UpdateScheduledDispatchToDate, h]

/-! ## Normalisation from a given start tick -/

/-- Start tick in the future: the first loop runs `k` passes, the second none. -/
theorem normalise_backward_case (s1 : DispatchSchedule) (now : Int)
    (hd : 0 < s1.scheduled_dispatch_duration) (hgt : now < s1.scheduled_dispatch_start_tick)
    (k : Nat)
    (hk : k = ((s1.scheduled_dispatch_start_tick - now + s1.scheduled_dispatch_duration - 1)
      / (s1.scheduled_dispatch_duration : Int)).toNat) :
    1 ≤ k ∧
    ((k : Int) - 1) * s1.scheduled_dispatch_duration < s1.scheduled_dispatch_start_tick - now ∧
    s1.scheduled_dispatch_start_tick - now ≤ (k : Int) * s1.scheduled_dispatch_duration ∧
    ∀ fuel, k ≤ fuel →
      UpdateScheduledDispatchToDate_backward now fuel s1 false
        = .ok (backward_step^[k] s1, true) ∧
      ∀ fuel2, UpdateScheduledDispatchToDate_forward now fuel2 (backward_step^[k] s1) true
        = .ok (backward_step^[k] s1, true) := by
  obtain ⟨hk1, hlo, hhi⟩ := ceil_div_bounds (s1.scheduled_dispatch_start_tick - now)
    s1.scheduled_dispatch_duration hd (by omega)
  rw [← hk] at hk1 hlo hhi
  refine ⟨hk1, hlo, hhi, ?_⟩
  intro fuel hf
  obtain ⟨f1, f2, _, _⟩ := backward_iter_fields k s1
  constructor
  · rw [backward_runs now k s1 false fuel hf (by linarith) (Or.inr (by linarith))]
    have hpos : 0 < k := hk1
    simp [hpos]
  · intro fuel2
    apply forward_stops
    rw [f1, f2]
    linarith

/-- Start tick not in the future: the first loop does not run, the second runs
`k` passes. -/
theorem normalise_forward_case (s1 : DispatchSchedule) (now : Int)
    (hd : 0 < s1.scheduled_dispatch_duration) (hle : s1.scheduled_dispatch_start_tick ≤ now)
    (k : Nat)
    (hk : k = ((now - s1.scheduled_dispatch_start_tick)
      / (s1.scheduled_dispatch_duration : Int)).toNat) :
    (k : Int) * s1.scheduled_dispatch_duration ≤ now - s1.scheduled_dispatch_start_tick ∧
    now - s1.scheduled_dispatch_start_tick < ((k : Int) + 1) * s1.scheduled_dispatch_duration ∧
    ∀ fuel, k ≤ fuel →
      UpdateScheduledDispatchToDate_backward now fuel s1 false = .ok (s1, false) ∧
      UpdateScheduledDispatchToDate_forward now fuel s1 false
        = .ok (forward_step^[k] s1, decide (0 < k)) := by
  obtain ⟨hlo, hhi⟩ := floor_div_bounds (now - s1.scheduled_dispatch_start_tick)
    s1.scheduled_dispatch_duration hd (by omega)
  rw [← hk] at hlo hhi
  refine ⟨hlo, hhi, ?_⟩
  intro fuel hf
  constructor
  · exact backward_stops now fuel s1 false hle
  · rw [forward_runs now k s1 false fuel hf (by linarith) (by linarith)]
    simp

/-- Normalisation of a schedule with a positive duration returns, and the
result is the start state moved by whole windows onto the window of `now`. -/
theorem update_returns (cfg : GameTimeSettings) (s : DispatchSchedule) (now : Int)
    (hd : 0 < s.scheduled_dispatch_duration) (ht : 0 < cfg.ticks_per_minute) :
    ∃ r b, Returns (fun fuel => UpdateScheduledDispatchToDate cfg fuel s now) (r, b) ∧
      r.scheduled_dispatch_duration = s.scheduled_dispatch_duration ∧
      r.scheduled_dispatch = s.scheduled_dispatch ∧
      r.scheduled_dispatch_max_delay = s.scheduled_dispatch_max_delay ∧
      r.scheduled_dispatch_start_tick ≤ now ∧
      now < r.scheduled_dispatch_start_tick + r.scheduled_dispatch_duration := by
  obtain ⟨s1, hinit, hdur, hslots, hdelay, _⟩ := init_ok cfg s now hd ht
  have hd1 : 0 < s1.scheduled_dispatch_duration := by rw [hdur]; exact hd
  by_cases hgt : now < s1.scheduled_dispatch_start_tick
  · obtain ⟨k, hk⟩ : ∃ k : Nat, k = ((s1.scheduled_dispatch_start_tick - now
        + s1.scheduled_dispatch_duration - 1) / (s1.scheduled_dispatch_duration : Int)).toNat :=
      ⟨_, rfl⟩
    obtain ⟨_, hlo, hhi, hrun⟩ := normalise_backward_case s1 now hd1 hgt k hk
    obtain ⟨f1, f2, f3, f4⟩ := backward_iter_fields k s1
    refine ⟨backward_step^[k] s1, true, ⟨k, fun fuel hf => ?_⟩, ?_, ?_, ?_, ?_, ?_⟩
    · show UpdateScheduledDispatchToDate cfg fuel s now = _
      rw [update_of_init hinit fuel, (hrun fuel hf).1]
      exact (hrun fuel hf).2 fuel
    · rw [f2, hdur]
    · rw [f3, hslots]
    · rw [f4, hdelay]
    · rw [f1]; linarith
    · rw [f1, f2]; linarith
  · obtain ⟨k, hk⟩ : ∃ k : Nat, k = ((now - s1.scheduled_dispatch_start_tick)
        / (s1.scheduled_dispatch_duration : Int)).toNat := ⟨_, rfl⟩
    obtain ⟨hlo, hhi, hrun⟩ := normalise_forward_case s1 now hd1 (by omega) k hk
    obtain ⟨f1, f2, f3, f4⟩ := forward_iter_fields k s1
    refine ⟨forward_step^[k] s1, decide (0 < k), ⟨k, fun fuel hf => ?_⟩, ?_, ?_, ?_, ?_, ?_⟩
    · show UpdateScheduledDispatchToDate cfg fuel s now = _
      rw [update_of_init hinit fuel, (hrun fuel hf).1]
      exact (hrun fuel hf).2
    · rw [f2, hdur]
    · rw [f3, hslots]
    · rw [f4, hdelay]
    · rw [f1]; linarith
    · rw [f1, f2]; linarith

/-! ## Normalisation never touches the slots, the duration or the delay -/

theorem SameFrame.trans {a b c : DispatchSchedule} (h1 : SameFrame a b) (h2 : SameFrame b c) :
    SameFrame a c :=
  ⟨h1.1.trans h2.1, h1.2.1.trans h2.2.1, h1.2.2.trans h2.2.2⟩

theorem init_frame {cfg : GameTimeSettings} {s s1 : DispatchSchedule} {now : Int}
    (h : UpdateScheduledDispatchToDate_init cfg s now = .ok s1) : SameFrame s1 s := by
  unfold UpdateScheduledDispatchToDate_init at h
  dsimp only at h
  split_ifs at h <;> cases h <;> exact ⟨rfl, rfl, rfl⟩

theorem backward_frame (now : Int) : ∀ (fuel : Nat) (s : DispatchSchedule) (u : Bool)
    (r : DispatchSchedule) (b : Bool),
    UpdateScheduledDispatchToDate_backward now fuel s u = .ok (r, b) → SameFrame r s := by
  intro fuel
  induction fuel with
  | zero =>
    intro s u r b h
    unfold UpdateScheduledDispatchToDate_backward at h
    split_ifs at h
    cases h
    exact ⟨rfl, rfl, rfl⟩
  | succ fuel ih =>
    intro s u r b h
    unfold UpdateScheduledDispatchToDate_backward at h
    split_ifs at h
    · exact (ih _ _ _ _ h).trans ⟨rfl, rfl, rfl⟩
    · cases h
      exact ⟨rfl, rfl, rfl⟩

theorem forward_frame (now : Int) : ∀ (fuel : Nat) (s : DispatchSchedule) (u : Bool)
    (r : DispatchSchedule) (b : Bool),
    UpdateScheduledDispatchToDate_forward now fuel s u = .ok (r, b) → SameFrame r s := by
  intro fuel
  induction fuel with
  | zero =>
    intro s u r b h
    unfold UpdateScheduledDispatchToDate_forward at h
    split_ifs at h
    cases h
    exact ⟨rfl, rfl, rfl⟩
  | succ fuel ih =>
    intro s u r b h
    unfold UpdateScheduledDispatchToDate_forward at h
    split_ifs at h
    · exact (ih _ _ _ _ h).trans ⟨rfl, rfl, rfl⟩
    · cases h
      exact ⟨rfl, rfl, rfl⟩

theorem update_frame {cfg : GameTimeSettings} {fuel : Nat} {s r : DispatchSchedule}
    {now : Int} {b : Bool}
    (h : UpdateScheduledDispatchToDate cfg fuel s now = .ok (r, b)) : SameFrame r s := by
  unfold UpdateScheduledDispatchToDate at h
  cases hi : UpdateScheduledDispatchToDate_init cfg s now with
  | error e => rw [hi] at h; cases h
  | ok s1 =>
    rw [hi] at h
    simp only at h
    cases hb : UpdateScheduledDispatchToDate_backward now fuel s1 false with
    | error e => rw [hb] at h; cases h
    | ok p =>
      obtain ⟨s2, u⟩ := p
      rw [hb] at h
      simp only at h
      exact ((forward_frame now fuel s2 u r b h).trans (backward_frame now fuel s1 false s2 u hb)).trans
        (init_frame hi)

theorem update_dispatch_frame {cfg : GameTimeSettings} {fuel : Nat} {s r : DispatchSchedule}
    {now : Int} (h : UpdateScheduledDispatch cfg fuel now s = .ok r) : SameFrame r s := by
  unfold UpdateScheduledDispatch at h
  cases hu : UpdateScheduledDispatchToDate cfg fuel s now with
  | error e => rw [hu] at h; cases h
  | ok p =>
    obtain ⟨r1, b⟩ := p
    rw [hu] at h
    simp only at h
    cases h
    exact update_frame hu

theorem update_dispatch_returns (cfg : GameTimeSettings) (s : DispatchSchedule) (now : Int)
    (hd : 0 < s.scheduled_dispatch_duration) (ht : 0 < cfg.ticks_per_minute) :
    ∃ r, Returns (fun fuel => UpdateScheduledDispatch cfg fuel now s) r := by
  obtain ⟨r, b, ⟨n, hn⟩, _⟩ := update_returns cfg s now hd ht
  refine ⟨r, n, fun fuel hf => ?_⟩
  show UpdateScheduledDispatch cfg fuel now s = _
  unfold UpdateScheduledDispatch
  have h := hn fuel hf
  dsimp only at h
  rw [h]

/-! ## Slot operations -/

theorem lower_bound_hit_of_mem {xs : List Nat} (hs : StrictAsc xs) {val : Nat}
    (hmem : val ∈ xs) :
    lower_bound xs val ≠ xs.length ∧ xs.getD (lower_bound xs val) 0 = val := by
  by_contra hcon
  apply not_mem_of_lower_bound_miss hs val _ hmem
  by_cases h1 : lower_bound xs val = xs.length
  · exact Or.inl h1
  · right
    intro h2
    exact hcon ⟨h1, h2⟩

/-- What a returning `AddScheduledDispatch` does to the slots of the schedule. -/
theorem add_slots {cfg : GameTimeSettings} {fuel : Nat} {t : Int} {s r : DispatchSchedule}
    {x : Nat} (hs : StrictAsc s.scheduled_dispatch)
    (h : AddScheduledDispatch cfg fuel t s x = .ok r) :
    StrictAsc r.scheduled_dispatch ∧
    (∀ y, y ∈ r.scheduled_dispatch ↔ y ∈ s.scheduled_dispatch ∨ y = x) ∧
    r.scheduled_dispatch_duration = s.scheduled_dispatch_duration := by
  unfold AddScheduledDispatch at h
  simp only at h
  split_ifs at h with hhit
  · cases h
    have hmem := mem_of_lower_bound_hit x hhit.1 (lower_bound_le_length hs x) hhit.2
    refine ⟨hs, fun y => ⟨fun hy => Or.inl hy, fun hy => ?_⟩, rfl⟩
    rcases hy with hy | rfl
    · exact hy
    · exact hmem
  · obtain ⟨f1, f2, _⟩ := update_dispatch_frame h
    have hmiss : lower_bound s.scheduled_dispatch x = s.scheduled_dispatch.length ∨
        s.scheduled_dispatch.getD (lower_bound s.scheduled_dispatch x) 0 ≠ x := by
      by_cases h1 : lower_bound s.scheduled_dispatch x = s.scheduled_dispatch.length
      · exact Or.inl h1
      · exact Or.inr (fun h2 => hhit ⟨h1, h2⟩)
    simp only at f1 f2
    refine ⟨?_, ?_, f2⟩
    · rw [f1]; exact strictAsc_vector_insert hs x hmiss
    · intro y; rw [f1]; exact mem_vector_insert _ _ _ _

theorem add_returns (cfg : GameTimeSettings) (t : Int) (s : DispatchSchedule) (x : Nat)
    (hd : 0 < s.scheduled_dispatch_duration) (ht : 0 < cfg.ticks_per_minute) :
    ∃ r, Returns (fun fuel => AddScheduledDispatch cfg fuel t s x) r := by
  by_cases hhit : lower_bound s.scheduled_dispatch x ≠ s.scheduled_dispatch.length ∧
      s.scheduled_dispatch.getD (lower_bound s.scheduled_dispatch x) 0 = x
  · refine ⟨s, 0, fun fuel _ => ?_⟩
    show AddScheduledDispatch cfg fuel t s x = _
    unfold AddScheduledDispatch
    simp only [if_pos hhit]
  · obtain ⟨r, n, hn⟩ := update_dispatch_returns cfg
      { s with scheduled_dispatch :=
          vector_insert s.scheduled_dispatch (lower_bound s.scheduled_dispatch x) x } t hd ht
    refine ⟨r, n, fun fuel hf => ?_⟩
    show AddScheduledDispatch cfg fuel t s x = _
    unfold AddScheduledDispatch
    simp only [if_neg hhit]
    exact hn fuel hf

/-- What `RemoveScheduledDispatch` does to the slots of the schedule. -/
theorem remove_slots (s : DispatchSchedule) (x : Nat) (hs : StrictAsc s.scheduled_dispatch) :
    (RemoveScheduledDispatch s x).scheduled_dispatch
      = s.scheduled_dispatch.filter (fun y => decide (y ≠ x)) := by
  unfold RemoveScheduledDispatch
  simp only
  split_ifs with hmiss
  · exact (filter_ne_of_not_mem (not_mem_of_lower_bound_miss hs x hmiss)).symm
  · have h1 : lower_bound s.scheduled_dispatch x ≠ s.scheduled_dispatch.length :=
      fun h => hmiss (Or.inl h)
    have h2 : s.scheduled_dispatch.getD (lower_bound s.scheduled_dispatch x) 0 = x := by
      by_contra h
      exact hmiss (Or.inr h)
    exact vector_erase_eq_filter hs x h1 h2

theorem remove_frame (s : DispatchSchedule) (x : Nat) :
    (RemoveScheduledDispatch s x).scheduled_dispatch_duration = s.scheduled_dispatch_duration ∧
    (RemoveScheduledDispatch s x).scheduled_dispatch_start_tick
      = s.scheduled_dispatch_start_tick ∧
    (RemoveScheduledDispatch s x).scheduled_dispatch_last_dispatch
      = s.scheduled_dispatch_last_dispatch ∧
    (RemoveScheduledDispatch s x).scheduled_dispatch_max_delay
      = s.scheduled_dispatch_max_delay := by
  unfold RemoveScheduledDispatch
  simp only
  split_ifs <;> exact ⟨rfl, rfl, rfl, rfl⟩

theorem remove_strictAsc (s : DispatchSchedule) (x : Nat) (hs : StrictAsc s.scheduled_dispatch) :
    StrictAsc (RemoveScheduledDispatch s x).scheduled_dispatch := by
  rw [remove_slots s x hs]
  exact List.Pairwise.filter _ hs

theorem runSlotCalls_strictAsc (cfg : GameTimeSettings) (fuel : Nat) :
    ∀ (calls : List SlotCall) (s r : DispatchSchedule), StrictAsc s.scheduled_dispatch →
      runSlotCalls cfg fuel calls s = .ok r → StrictAsc r.scheduled_dispatch := by
  intro calls
  induction calls with
  | nil =>
    intro s r hs h
    simp only [runSlotCalls] at h
    cases h
    exact hs
  | cons c rest ih =>
    intro s r hs h
    cases c with
    | add x t =>
      simp only [runSlotCalls] at h
      cases ha : AddScheduledDispatch cfg fuel t s x with
      | error e => rw [ha] at h; cases h
      | ok s1 =>
        rw [ha] at h
        exact ih s1 r (add_slots hs ha).1 h
    | remove x =>
      simp only [runSlotCalls] at h
      exact ih _ r (remove_strictAsc s x hs) h

theorem runSlotCalls_returns (cfg : GameTimeSettings) (ht : 0 < cfg.ticks_per_minute) :
    ∀ (calls : List SlotCall) (s : DispatchSchedule), StrictAsc s.scheduled_dispatch →
      0 < s.scheduled_dispatch_duration →
      ∃ r, Returns (fun fuel => runSlotCalls cfg fuel calls s) r := by
  intro calls
  induction calls with
  | nil =>
    intro s _ _
    exact ⟨s, 0, fun fuel _ => rfl⟩
  | cons c rest ih =>
    intro s hs hd
    cases c with
    | add x t =>
      obtain ⟨s1, n1, h1⟩ := add_returns cfg t s x hd ht
      obtain ⟨hs1, _, hd1⟩ := add_slots hs (h1 n1 (le_refl _))
      obtain ⟨r, n2, h2⟩ := ih s1 hs1 (by rw [hd1]; exact hd)
      refine ⟨r, max n1 n2, fun fuel hf => ?_⟩
      show runSlotCalls cfg fuel (SlotCall.add x t :: rest) s = _
      simp only [runSlotCalls]
      have := h1 fuel (le_trans (le_max_left _ _) hf)
      simp only at this
      rw [this]
      exact h2 fuel (le_trans (le_max_right _ _) hf)
    | remove x =>
      obtain ⟨r, n2, h2⟩ := ih (RemoveScheduledDispatch s x) (remove_strictAsc s x hs)
        (by rw [(remove_frame s x).1]; exact hd)
      refine ⟨r, n2, fun fuel hf => ?_⟩
      show runSlotCalls cfg fuel (SlotCall.remove x :: rest) s = _
      simp only [runSlotCalls]
      exact h2 fuel hf

/-! ## Saturating arithmetic -/

theorem ClampToI32_isInt32 (a : Int) : IsInt32 (ClampToI32 a) := by
  unfold ClampToI32 IsInt32 INT32_MIN INT32_MAX
  split_ifs <;> constructor <;> omega

theorem ClampToI32_of_isInt32 {a : Int} (h : IsInt32 a) : ClampToI32 a = a := by
  unfold IsInt32 INT32_MIN INT32_MAX at h
  unfold ClampToI32 INT32_MIN INT32_MAX
  split_ifs <;> omega

theorem ClampToI32_eq_iff (a : Int) : ClampToI32 a = a ↔ IsInt32 a := by
  constructor
  · intro h
    rw [← h]
    exact ClampToI32_isInt32 a
  · exact ClampToI32_of_isInt32

/-- A value that fits `int32` survives the narrowing. -/
theorem wrapI32_of_isInt32 {a : Int} (h : IsInt32 a) : wrapI32 a = a := by
  unfold IsInt32 INT32_MIN INT32_MAX at h
  unfold wrapI32 INT32_MIN
  omega

theorem backward_step_last_isInt32 (s : DispatchSchedule) :
    IsInt32 (backward_step s).scheduled_dispatch_last_dispatch := by
  simp only [backward_step, OverflowSafeInt32_add]
  exact ClampToI32_isInt32 _

theorem forward_step_last_isInt32 (s : DispatchSchedule) :
    IsInt32 (forward_step s).scheduled_dispatch_last_dispatch := by
  simp only [forward_step, OverflowSafeInt32_sub]
  exact ClampToI32_isInt32 _

theorem backward_iter_last (k : Nat) : ∀ s : DispatchSchedule,
    (s.scheduled_dispatch_duration : Int) ≤ INT32_MAX →
    IsInt32 s.scheduled_dispatch_last_dispatch →
    (backward_step^[k] s).scheduled_dispatch_last_dispatch
      = min INT32_MAX
          (s.scheduled_dispatch_last_dispatch + (k : Int) * s.scheduled_dispatch_duration) := by
  induction k with
  | zero =>
    intro s _ h
    simp only [Function.iterate_zero, id_eq, Nat.cast_zero, zero_mul, add_zero]
    exact (min_eq_right h.2).symm
  | succ k ih =>
    intro s hd32 h
    have hw : wrapI32 (s.scheduled_dispatch_duration : Int) = s.scheduled_dispatch_duration :=
      wrapI32_of_isInt32 ⟨by unfold INT32_MIN; omega, hd32⟩
    rw [Function.iterate_succ_apply, ih (backward_step s) hd32 (backward_step_last_isInt32 s)]
    have hkd : (0 : Int) ≤ (k : Int) * s.scheduled_dispatch_duration :=
      mul_nonneg (Int.ofNat_nonneg _) (Int.ofNat_nonneg _)
    have hsplit : ((k + 1 : Nat) : Int) * s.scheduled_dispatch_duration
        = (k : Int) * s.scheduled_dispatch_duration + s.scheduled_dispatch_duration := by
      push_cast; ring
    rw [hsplit]
    simp only [backward_step, DispatchSchedule.GetScheduledDispatchDuration,
      OverflowSafeInt32_add, hw]
    generalize (k : Int) * s.scheduled_dispatch_duration = m at hkd
    unfold IsInt32 INT32_MIN INT32_MAX at h
    unfold ClampToI32 INT32_MIN INT32_MAX
    simp only [min_def]
    split_ifs <;> omega

theorem forward_iter_last (k : Nat) : ∀ s : DispatchSchedule,
    (s.scheduled_dispatch_duration : Int) ≤ INT32_MAX →
    IsInt32 s.scheduled_dispatch_last_dispatch →
    (forward_step^[k] s).scheduled_dispatch_last_dispatch
      = max INT32_MIN
          (s.scheduled_dispatch_last_dispatch - (k : Int) * s.scheduled_dispatch_duration) := by
  induction k with
  | zero =>
    intro s _ h
    simp only [Function.iterate_zero, id_eq, Nat.cast_zero, zero_mul, sub_zero]
    exact (max_eq_right h.1).symm
  | succ k ih =>
    intro s hd32 h
    have hw : wrapI32 (s.scheduled_dispatch_duration : Int) = s.scheduled_dispatch_duration :=
      wrapI32_of_isInt32 ⟨by unfold INT32_MIN; omega, hd32⟩
    rw [Function.iterate_succ_apply, ih (forward_step s) hd32 (forward_step_last_isInt32 s)]
    have hkd : (0 : Int) ≤ (k : Int) * s.scheduled_dispatch_duration :=
      mul_nonneg (Int.ofNat_nonneg _) (Int.ofNat_nonneg _)
    have hsplit : ((k + 1 : Nat) : Int) * s.scheduled_dispatch_duration
        = (k : Int) * s.scheduled_dispatch_duration + s.scheduled_dispatch_duration := by
      push_cast; ring
    rw [hsplit]
    simp only [forward_step, DispatchSchedule.GetScheduledDispatchDuration,
      OverflowSafeInt32_sub, hw]
    generalize (k : Int) * s.scheduled_dispatch_duration = m at hkd
    unfold IsInt32 INT32_MIN INT32_MAX at h
    unfold ClampToI32 INT32_MIN INT32_MAX
    simp only [max_def]
    split_ifs <;> omega

/-- Two schedules with the same five fields are the same schedule. -/
theorem schedule_eq {a b : DispatchSchedule}
    (h1 : a.scheduled_dispatch = b.scheduled_dispatch)
    (h2 : a.scheduled_dispatch_duration = b.scheduled_dispatch_duration)
    (h3 : a.scheduled_dispatch_start_tick = b.scheduled_dispatch_start_tick)
    (h4 : a.scheduled_dispatch_last_dispatch = b.scheduled_dispatch_last_dispatch)
    (h5 : a.scheduled_dispatch_max_delay = b.scheduled_dispatch_max_delay) : a = b := by
  cases a; cases b
  simp only [DispatchSchedule.mk.injEq]
  exact ⟨h1, h2, h3, h4, h5⟩

/-! ## The ghost flag does not change what the code computes -/

theorem backward_traced_erase (now : Int) : ∀ (fuel : Nat) (s : DispatchSchedule) (u c : Bool),
    (∀ r b c2, UpdateScheduledDispatchToDate_backward_traced now fuel s u c = .ok (r, b, c2) →
      UpdateScheduledDispatchToDate_backward now fuel s u = .ok (r, b)) ∧
    (∀ r b, UpdateScheduledDispatchToDate_backward now fuel s u = .ok (r, b) →
      ∃ c2, UpdateScheduledDispatchToDate_backward_traced now fuel s u c = .ok (r, b, c2)) := by
  intro fuel
  induction fuel with
  | zero =>
    intro s u c
    simp only [UpdateScheduledDispatchToDate_backward_traced,
      UpdateScheduledDispatchToDate_backward]
    split_ifs
    · exact ⟨fun r b c2 h => (by cases h), fun r b h => (by cases h)⟩
    · exact ⟨fun r b c2 h => (by cases h; rfl), fun r b h => (by cases h; exact ⟨c, rfl⟩)⟩
  | succ fuel ih =>
    intro s u c
    simp only [UpdateScheduledDispatchToDate_backward_traced,
      UpdateScheduledDispatchToDate_backward]
    split_ifs
    · exact ih _ _ _
    · exact ⟨fun r b c2 h => (by cases h; rfl), fun r b h => (by cases h; exact ⟨c, rfl⟩)⟩

theorem forward_traced_erase (now : Int) : ∀ (fuel : Nat) (s : DispatchSchedule) (u c : Bool),
    (∀ r b c2, UpdateScheduledDispatchToDate_forward_traced now fuel s u c = .ok (r, b, c2) →
      UpdateScheduledDispatchToDate_forward now fuel s u = .ok (r, b)) ∧
    (∀ r b, UpdateScheduledDispatchToDate_forward now fuel s u = .ok (r, b) →
      ∃ c2, UpdateScheduledDispatchToDate_forward_traced now fuel s u c = .ok (r, b, c2)) := by
  intro fuel
  induction fuel with
  | zero =>
    intro s u c
    simp only [UpdateScheduledDispatchToDate_forward_traced,
      UpdateScheduledDispatchToDate_forward]
    split_ifs
    · exact ⟨fun r b c2 h => (by cases h), fun r b h => (by cases h)⟩
    · exact ⟨fun r b c2 h => (by cases h; rfl), fun r b h => (by cases h; exact ⟨c, rfl⟩)⟩
  | succ fuel ih =>
    intro s u c
    simp only [UpdateScheduledDispatchToDate_forward_traced,
      UpdateScheduledDispatchToDate_forward]
    split_ifs
    · exact ih _ _ _
    · exact ⟨fun r b c2 h => (by cases h; rfl), fun r b h => (by cases h; exact ⟨c, rfl⟩)⟩

/-- The traced normaliser returns exactly what the normaliser returns. -/
theorem update_traced_erase (cfg : GameTimeSettings) (fuel : Nat) (s : DispatchSchedule)
    (now : Int) :
    (∀ r b c, UpdateScheduledDispatchToDate_traced cfg fuel s now = .ok (r, b, c) →
      UpdateScheduledDispatchToDate cfg fuel s now = .ok (r, b)) ∧
    (∀ r b, UpdateScheduledDispatchToDate cfg fuel s now = .ok (r, b) →
      ∃ c, UpdateScheduledDispatchToDate_traced cfg fuel s now = .ok (r, b, c)) := by
  unfold UpdateScheduledDispatchToDate_traced UpdateScheduledDispatchToDate
    UpdateScheduledDispatchToDate_init_traced
  cases hi : UpdateScheduledDispatchToDate_init cfg s now with
  | error e => exact ⟨fun r b c h => (by cases h), fun r b h => (by cases h)⟩
  | ok s1 =>
    dsimp only
    constructor
    · intro r b c h
      cases hb : UpdateScheduledDispatchToDate_backward_traced now fuel s1 false
        (decide (s.GetScheduledDispatchStartTick = 0 ∧
          ¬ IsInt32 (-(now - Int.tmod now s.GetScheduledDispatchDuration)))) with
      | error e => rw [hb] at h; cases h
      | ok p =>
        obtain ⟨s2, u, c2⟩ := p
        rw [hb] at h
        dsimp only at h
        rw [(backward_traced_erase now fuel s1 false _).1 s2 u c2 hb]
        exact (forward_traced_erase now fuel s2 u c2).1 r b c h
    · intro r b h
      cases hb : UpdateScheduledDispatchToDate_backward now fuel s1 false with
      | error e => rw [hb] at h; cases h
      | ok p =>
        obtain ⟨s2, u⟩ := p
        rw [hb] at h
        dsimp only at h
        obtain ⟨c2, hc2⟩ := (backward_traced_erase now fuel s1 false
          (decide (s.GetScheduledDispatchStartTick = 0 ∧
            ¬ IsInt32 (-(now - Int.tmod now s.GetScheduledDispatchDuration))))).2 s2 u hb
        rw [hc2]
        exact (forward_traced_erase now fuel s2 u c2).2 r b h

/-! ## Without saturation the two counters move in lockstep -/

theorem backward_traced_sum (now : Int) : ∀ (fuel : Nat) (s : DispatchSchedule) (u c : Bool)
    (r : DispatchSchedule) (b : Bool),
    (s.scheduled_dispatch_duration : Int) ≤ INT32_MAX →
    UpdateScheduledDispatchToDate_backward_traced now fuel s u c = .ok (r, b, false) →
    c = false ∧
    r.scheduled_dispatch_start_tick + r.scheduled_dispatch_last_dispatch
      = s.scheduled_dispatch_start_tick + s.scheduled_dispatch_last_dispatch := by
  intro fuel
  induction fuel with
  | zero =>
    intro s u c r b _ h
    simp only [UpdateScheduledDispatchToDate_backward_traced] at h
    split_ifs at h
    cases h
    exact ⟨rfl, rfl⟩
  | succ fuel ih =>
    intro s u c r b hmax h
    simp only [UpdateScheduledDispatchToDate_backward_traced] at h
    split_ifs at h
    · obtain ⟨hc, hsum⟩ := ih (backward_step s) _ _ _ _ hmax h
      simp only [Bool.or_eq_false_iff, decide_eq_false_iff_not, not_not] at hc
      have hw : wrapI32 (s.scheduled_dispatch_duration : Int) = s.scheduled_dispatch_duration :=
        wrapI32_of_isInt32 ⟨by unfold INT32_MIN; omega, hmax⟩
      refine ⟨hc.1, ?_⟩
      rw [hsum]
      simp only [backward_step, DispatchSchedule.GetScheduledDispatchStartTick,
        DispatchSchedule.GetScheduledDispatchDuration] at hc ⊢
      rw [hc.2, hw]
      ring
    · cases h
      exact ⟨rfl, rfl⟩

theorem forward_traced_sum (now : Int) : ∀ (fuel : Nat) (s : DispatchSchedule) (u c : Bool)
    (r : DispatchSchedule) (b : Bool),
    (s.scheduled_dispatch_duration : Int) ≤ INT32_MAX →
    UpdateScheduledDispatchToDate_forward_traced now fuel s u c = .ok (r, b, false) →
    c = false ∧
    r.scheduled_dispatch_start_tick + r.scheduled_dispatch_last_dispatch
      = s.scheduled_dispatch_start_tick + s.scheduled_dispatch_last_dispatch := by
  intro fuel
  induction fuel with
  | zero =>
    intro s u c r b _ h
    simp only [UpdateScheduledDispatchToDate_forward_traced] at h
    split_ifs at h
    cases h
    exact ⟨rfl, rfl⟩
  | succ fuel ih =>
    intro s u c r b hmax h
    simp only [UpdateScheduledDispatchToDate_forward_traced] at h
    split_ifs at h
    · obtain ⟨hc, hsum⟩ := ih (forward_step s) _ _ _ _ hmax h
      simp only [Bool.or_eq_false_iff, decide_eq_false_iff_not, not_not] at hc
      have hw : wrapI32 (s.scheduled_dispatch_duration : Int) = s.scheduled_dispatch_duration :=
        wrapI32_of_isInt32 ⟨by unfold INT32_MIN; omega, hmax⟩
      refine ⟨hc.1, ?_⟩
      rw [hsum]
      simp only [forward_step, DispatchSchedule.GetScheduledDispatchStartTick,
        DispatchSchedule.GetScheduledDispatchDuration] at hc ⊢
      rw [hc.2, hw]
      ring
    · cases h
      exact ⟨rfl, rfl⟩

theorem init_traced_sum {cfg : GameTimeSettings} {s s1 : DispatchSchedule} {now : Int}
    (hi : s.scheduled_dispatch_start_tick ≠ 0 ∨ s.scheduled_dispatch_last_dispatch = 0)
    (h : UpdateScheduledDispatchToDate_init_traced cfg s now = .ok (s1, false)) :
    s1.scheduled_dispatch_start_tick + s1.scheduled_dispatch_last_dispatch
      = s.scheduled_dispatch_start_tick + s.scheduled_dispatch_last_dispatch := by
  unfold UpdateScheduledDispatchToDate_init_traced at h
  cases hinit : UpdateScheduledDispatchToDate_init cfg s now with
  | error e => rw [hinit] at h; cases h
  | ok s2 =>
    rw [hinit] at h
    simp only [Except.ok.injEq, Prod.mk.injEq, decide_eq_false_iff_not, not_and, not_not] at h
    obtain ⟨rfl, hfit⟩ := h
    by_cases h0 : s.scheduled_dispatch_start_tick = 0
    · have hl : s.scheduled_dispatch_last_dispatch = 0 := by
        rcases hi with hi | hi
        · exact absurd h0 hi
        · exact hi
      have hfit2 := hfit h0
      have hnotlt : ¬ (-(now - Int.tmod now s.GetScheduledDispatchDuration) < INT32_MIN) := by
        have := hfit2.1
        omega
      unfold UpdateScheduledDispatchToDate_init at hinit
      dsimp only at hinit
      simp only [DispatchSchedule.GetScheduledDispatchStartTick, h0, if_true] at hinit
      split_ifs at hinit with hz hbr
      · exact absurd hbr.1 hnotlt
      · cases hinit
        simp only [ClampToI32_of_isInt32 hfit2, h0, hl]
        ring
    · rw [init_of_started cfg s now h0] at hinit
      cases hinit
      rfl

/-! ## C++ remainder on a negative dividend -/

theorem tmod_negative_bounds (a : Int) (d : Nat) (hd : 0 < d) (ha : a < 0) :
    -(d : Int) < Int.tmod a d ∧ Int.tmod a d ≤ 0 := by
  obtain ⟨n, rfl⟩ := Int.eq_negSucc_of_lt_zero ha
  have h : Int.tmod (Int.negSucc n) (d : Int) = -(((n + 1) % d : Nat) : Int) := rfl
  have hlt : (n + 1) % d < d := Nat.mod_lt _ hd
  rw [h]
  omega

theorem tmod_nonneg_eq (a : Int) (d : Nat) (ha : 0 ≤ a) : Int.tmod a d = a % (d : Int) :=
  Int.tmod_eq_emod ha (Int.ofNat_nonneg d)

/-- A schedule whose window already contains `now` passes the first-run block
unchanged, provided the block does not fire on the sentinel with a non-zero
last-dispatch counter. -/
theorem init_noop (cfg : GameTimeSettings) (s : DispatchSchedule) (now : Int)
    (hd : 0 < s.scheduled_dispatch_duration)
    (hlo : s.scheduled_dispatch_start_tick ≤ now)
    (hhi : now < s.scheduled_dispatch_start_tick + s.scheduled_dispatch_duration)
    (hi : s.scheduled_dispatch_start_tick ≠ 0 ∨ s.scheduled_dispatch_last_dispatch = 0) :
    UpdateScheduledDispatchToDate_init cfg s now = .ok s := by
  by_cases h0 : s.scheduled_dispatch_start_tick = 0
  · have hl : s.scheduled_dispatch_last_dispatch = 0 := by
      rcases hi with hi | hi
      · exact absurd h0 hi
      · exact hi
    rw [h0] at hlo hhi
    have hmod : Int.tmod now s.scheduled_dispatch_duration = now := by
      rw [tmod_nonneg_eq now _ hlo]
      exact Int.emod_eq_of_lt hlo (by omega)
    have hd0 : ¬ s.scheduled_dispatch_duration = 0 := Nat.pos_iff_ne_zero.mp hd
    unfold UpdateScheduledDispatchToDate_init
    dsimp only
    simp only [DispatchSchedule.GetScheduledDispatchStartTick,
      DispatchSchedule.GetScheduledDispatchDuration, h0, if_true, if_neg hd0, hmod, sub_self,
      neg_zero]
    have hnot : ¬ ((0 : Int) < INT32_MIN ∧ cfg.time_in_minutes = true) := by
      intro h
      have := h.1
      unfold INT32_MIN at this
      omega
    rw [if_neg hnot]
    have hc : ClampToI32 0 = 0 := ClampToI32_of_isInt32 (by unfold IsInt32 INT32_MIN INT32_MAX; omega)
    rw [hc]
    exact congrArg Except.ok (schedule_eq rfl rfl h0.symm hl.symm rfl)
  · exact init_of_started cfg s now h0

/-- Once the window contains `now`, normalisation changes nothing and reports
`false`, whatever the fuel. -/
theorem update_noop (cfg : GameTimeSettings) (s : DispatchSchedule) (now : Int)
    (hd : 0 < s.scheduled_dispatch_duration)
    (hlo : s.scheduled_dispatch_start_tick ≤ now)
    (hhi : now < s.scheduled_dispatch_start_tick + s.scheduled_dispatch_duration)
    (hi : s.scheduled_dispatch_start_tick ≠ 0 ∨ s.scheduled_dispatch_last_dispatch = 0)
    (fuel : Nat) :
    UpdateScheduledDispatchToDate cfg fuel s now = .ok (s, false) := by
  rw [update_of_init (init_noop cfg s now hd hlo hhi hi) fuel,
    backward_stops now fuel s false hlo]
  exact forward_stops now fuel s false hhi

/-! ## Claims about the slot list and window containment -/

/-- C1, window containment: for every schedule with a positive duration,
initialised or not, and every tick `now`, `UpdateScheduledDispatchToDate(now)`
returns and leaves `window_start <= now < window_start + duration`. -/
theorem window_containment (cfg : GameTimeSettings) (s : DispatchSchedule) (now : Int)
    (hd : 0 < s.scheduled_dispatch_duration) (ht : 0 < cfg.ticks_per_minute) :
    ∃ r b, Returns (fun fuel => UpdateScheduledDispatchToDate cfg fuel s now) (r, b) ∧
      r.scheduled_dispatch_duration = s.scheduled_dispatch_duration ∧
      r.GetScheduledDispatchStartTick ≤ now ∧
      now < r.GetScheduledDispatchStartTick + r.GetScheduledDispatchDuration := by
  obtain ⟨r, b, hret, hdur, _, _, hlo, hhi⟩ := update_returns cfg s now hd ht
  exact ⟨r, b, hret, hdur, hlo, hhi⟩

/-- Witness of C1: a window that starts ahead of `now`, at duration 100. -/
theorem window_containment_witness :
    0 < (DispatchSchedule.mk [10, 20] 100 700 0 0).scheduled_dispatch_duration ∧
    0 < (GameTimeSettings.mk false 74).ticks_per_minute ∧
    ∃ r b, Returns (fun fuel => UpdateScheduledDispatchToDate (GameTimeSettings.mk false 74)
        fuel (DispatchSchedule.mk [10, 20] 100 700 0 0) 459) (r, b) ∧
      r.scheduled_dispatch_duration
        = (DispatchSchedule.mk [10, 20] 100 700 0 0).scheduled_dispatch_duration ∧
      r.GetScheduledDispatchStartTick ≤ 459 ∧
      459 < r.GetScheduledDispatchStartTick + r.GetScheduledDispatchDuration :=
  ⟨by decide, by decide,
    window_containment (GameTimeSettings.mk false 74) (DispatchSchedule.mk [10, 20] 100 700 0 0)
      459 (by decide) (by decide)⟩

/-- C2, sortedness invariant: starting from an empty slot list, after every
finite sequence of `AddScheduledDispatch` / `RemoveScheduledDispatch` calls the
slot list is strictly ascending; with a positive duration the sequence returns. -/
theorem slots_stay_sorted (cfg : GameTimeSettings) (calls : List SlotCall)
    (s : DispatchSchedule) (h0 : s.scheduled_dispatch = []) :
    (∀ fuel r, runSlotCalls cfg fuel calls s = .ok r → StrictAsc r.scheduled_dispatch) ∧
    (0 < s.scheduled_dispatch_duration → 0 < cfg.ticks_per_minute →
      ∃ r, Returns (fun fuel => runSlotCalls cfg fuel calls s) r ∧
        StrictAsc r.scheduled_dispatch) := by
  have hs : StrictAsc s.scheduled_dispatch := by rw [h0]; exact List.Pairwise.nil
  refine ⟨fun fuel r h => runSlotCalls_strictAsc cfg fuel calls s r hs h, fun hd ht => ?_⟩
  obtain ⟨r, n, hn⟩ := runSlotCalls_returns cfg ht calls s hs hd
  exact ⟨r, ⟨n, hn⟩, runSlotCalls_strictAsc cfg n calls s r hs (hn n (le_refl _))⟩

/-- Witness of C2: adds out of order, a duplicate add and two removes. -/
theorem slots_stay_sorted_witness :
    (DispatchSchedule.mk [] 100 0 0 0).scheduled_dispatch = [] ∧
    ((∀ fuel r, runSlotCalls (GameTimeSettings.mk false 74) fuel
        [SlotCall.add 30 5, SlotCall.add 10 250, SlotCall.add 30 260, SlotCall.remove 99,
          SlotCall.add 4294967295 300, SlotCall.remove 10]
        (DispatchSchedule.mk [] 100 0 0 0) = .ok r → StrictAsc r.scheduled_dispatch) ∧
    (0 < (DispatchSchedule.mk [] 100 0 0 0).scheduled_dispatch_duration →
      0 < (GameTimeSettings.mk false 74).ticks_per_minute →
      ∃ r, Returns (fun fuel => runSlotCalls (GameTimeSettings.mk false 74) fuel
        [SlotCall.add 30 5, SlotCall.add 10 250, SlotCall.add 30 260, SlotCall.remove 99,
          SlotCall.add 4294967295 300, SlotCall.remove 10]
        (DispatchSchedule.mk [] 100 0 0 0)) r ∧ StrictAsc r.scheduled_dispatch)) :=
  ⟨rfl, slots_stay_sorted (GameTimeSettings.mk false 74) _ (DispatchSchedule.mk [] 100 0 0 0) rfl⟩

/-- C3, `AddScheduledDispatch` is sorted set-insertion: on a strictly ascending
slot list the call leaves a strictly ascending list whose values are the old
values plus the offset, and it returns when the duration is positive; adding
30, 10, 20 to an empty schedule gives `[10, 20, 30]`. -/
theorem add_is_sorted_set_insertion (cfg : GameTimeSettings) (t : Int)
    (s : DispatchSchedule) (x : Nat) (hs : StrictAsc s.scheduled_dispatch) :
    (∀ fuel r, AddScheduledDispatch cfg fuel t s x = .ok r →
      StrictAsc r.scheduled_dispatch ∧
      ∀ y, y ∈ r.scheduled_dispatch ↔ y ∈ s.scheduled_dispatch ∨ y = x) ∧
    (0 < s.scheduled_dispatch_duration → 0 < cfg.ticks_per_minute →
      ∃ r, Returns (fun fuel => AddScheduledDispatch cfg fuel t s x) r ∧
        StrictAsc r.scheduled_dispatch ∧
        ∀ y, y ∈ r.scheduled_dispatch ↔ y ∈ s.scheduled_dispatch ∨ y = x) ∧
    runSlotCalls (GameTimeSettings.mk false 74) 4
        [SlotCall.add 30 250, SlotCall.add 10 250, SlotCall.add 20 250]
        (DispatchSchedule.mk [] 100 0 0 0)
      = .ok (DispatchSchedule.mk [10, 20, 30] 100 200 (-200) 0) := by
  refine ⟨fun fuel r h => ⟨(add_slots hs h).1, (add_slots hs h).2.1⟩, fun hd ht => ?_, rfl⟩
  obtain ⟨r, n, hn⟩ := add_returns cfg t s x hd ht
  have h := add_slots hs (hn n (le_refl _))
  exact ⟨r, ⟨n, hn⟩, h.1, h.2.1⟩

/-- Witness of C3: inserting 20 between 10 and 30. -/
theorem add_is_sorted_set_insertion_witness :
    StrictAsc (DispatchSchedule.mk [10, 30] 100 200 (-200) 0).scheduled_dispatch ∧
    ∀ fuel r, AddScheduledDispatch (GameTimeSettings.mk false 74) fuel 250
        (DispatchSchedule.mk [10, 30] 100 200 (-200) 0) 20 = .ok r →
      StrictAsc r.scheduled_dispatch ∧
      ∀ y, y ∈ r.scheduled_dispatch ↔
        y ∈ (DispatchSchedule.mk [10, 30] 100 200 (-200) 0).scheduled_dispatch ∨ y = 20 :=
  ⟨by decide,
    (add_is_sorted_set_insertion (GameTimeSettings.mk false 74) 250
      (DispatchSchedule.mk [10, 30] 100 200 (-200) 0) 20 (by decide)).1⟩

/-- C4, idempotent add: on a strictly ascending slot list, a second
`AddScheduledDispatch(x)` right after the first changes nothing, so the slot
list after two calls is the slot list after one. -/
theorem add_idempotent (cfg : GameTimeSettings) (t : Int) (s : DispatchSchedule) (x : Nat)
    (hs : StrictAsc s.scheduled_dispatch) :
    (∀ fuel r, AddScheduledDispatch cfg fuel t s x = .ok r →
      ∀ cfg2 fuel2 t2, AddScheduledDispatch cfg2 fuel2 t2 r x = .ok r) ∧
    (0 < s.scheduled_dispatch_duration → 0 < cfg.ticks_per_minute →
      ∃ r, Returns (fun fuel => AddScheduledDispatch cfg fuel t s x) r ∧
        ∀ t2, Returns (fun fuel => AddScheduledDispatch cfg fuel t2 r x) r) := by
  have key : ∀ fuel r, AddScheduledDispatch cfg fuel t s x = .ok r →
      ∀ cfg2 fuel2 t2, AddScheduledDispatch cfg2 fuel2 t2 r x = .ok r := by
    intro fuel r h cfg2 fuel2 t2
    obtain ⟨hsr, hmem, _⟩ := add_slots hs h
    have hhit := lower_bound_hit_of_mem hsr ((hmem x).mpr (Or.inr rfl))
    unfold AddScheduledDispatch
    simp only [if_pos hhit]
  refine ⟨key, fun hd ht => ?_⟩
  obtain ⟨r, n, hn⟩ := add_returns cfg t s x hd ht
  exact ⟨r, ⟨n, hn⟩, fun t2 => ⟨0, fun fuel _ => key n r (hn n (le_refl _)) cfg fuel t2⟩⟩

/-- Witness of C4: adding 20 twice to `[10, 30]`. -/
theorem add_idempotent_witness :
    StrictAsc (DispatchSchedule.mk [10, 30] 100 200 (-200) 0).scheduled_dispatch ∧
    ∀ fuel r, AddScheduledDispatch (GameTimeSettings.mk false 74) fuel 250
        (DispatchSchedule.mk [10, 30] 100 200 (-200) 0) 20 = .ok r →
      ∀ cfg2 fuel2 t2, AddScheduledDispatch cfg2 fuel2 t2 r 20 = .ok r :=
  ⟨by decide,
    (add_idempotent (GameTimeSettings.mk false 74) 250
      (DispatchSchedule.mk [10, 30] 100 200 (-200) 0) 20 (by decide)).1⟩

/-- C5, `RemoveScheduledDispatch` removes exactly the given offset: on a
strictly ascending slot list the result is the old list without that value, the
very same schedule when the value was absent, and the start tick, last
dispatch, duration and maximum delay are never changed. -/
theorem remove_exactly_offset (s : DispatchSchedule) (x : Nat)
    (hs : StrictAsc s.scheduled_dispatch) :
    (RemoveScheduledDispatch s x).scheduled_dispatch
      = s.scheduled_dispatch.filter (fun y => decide (y ≠ x)) ∧
    x ∉ (RemoveScheduledDispatch s x).scheduled_dispatch ∧
    (∀ y, y ≠ x → (y ∈ (RemoveScheduledDispatch s x).scheduled_dispatch ↔
      y ∈ s.scheduled_dispatch)) ∧
    StrictAsc (RemoveScheduledDispatch s x).scheduled_dispatch ∧
    (x ∉ s.scheduled_dispatch → RemoveScheduledDispatch s x = s) ∧
    (RemoveScheduledDispatch s x).GetScheduledDispatchStartTick
      = s.GetScheduledDispatchStartTick ∧
    (RemoveScheduledDispatch s x).scheduled_dispatch_last_dispatch
      = s.scheduled_dispatch_last_dispatch ∧
    (RemoveScheduledDispatch s x).GetScheduledDispatchDuration
      = s.GetScheduledDispatchDuration ∧
    (RemoveScheduledDispatch s x).scheduled_dispatch_max_delay
      = s.scheduled_dispatch_max_delay := by
  obtain ⟨f1, f2, f3, f4⟩ := remove_frame s x
  have hsl := remove_slots s x hs
  refine ⟨hsl, ?_, ?_, remove_strictAsc s x hs, ?_, f2, f3, f1, f4⟩
  · rw [hsl]; simp
  · intro y hy
    rw [hsl]; simp [hy]
  · intro hx
    have hmiss : lower_bound s.scheduled_dispatch x = s.scheduled_dispatch.length ∨
        s.scheduled_dispatch.getD (lower_bound s.scheduled_dispatch x) 0 ≠ x := by
      by_contra hcon
      push_neg at hcon
      exact hx (mem_of_lower_bound_hit x hcon.1 (lower_bound_le_length hs x) hcon.2)
    unfold RemoveScheduledDispatch
    simp only [if_pos hmiss]

/-- Witness of C5: removing the absent offset 99 from `[10, 20, 30]`. -/
theorem remove_exactly_offset_witness :
    StrictAsc (DispatchSchedule.mk [10, 20, 30] 100 200 (-200) 7).scheduled_dispatch ∧
    RemoveScheduledDispatch (DispatchSchedule.mk [10, 20, 30] 100 200 (-200) 7) 99
      = DispatchSchedule.mk [10, 20, 30] 100 200 (-200) 7 :=
  ⟨by decide,
    (remove_exactly_offset (DispatchSchedule.mk [10, 20, 30] 100 200 (-200) 7) 99
      (by decide)).2.2.2.2.1 (by decide)⟩

/-! ## Claims about the normaliser -/

/-- C6 as stated fails: an uninitialised schedule (start tick 0) whose
last-dispatch counter is 5 is normalised at `now = 250` without any clamping,
and the sum of start tick and counter goes from 5 to 0. -/
theorem conservation_law_counterexample :
    0 < (DispatchSchedule.mk [] 100 0 5 0).scheduled_dispatch_duration ∧
    UpdateScheduledDispatchToDate_traced (GameTimeSettings.mk false 74) 0
        (DispatchSchedule.mk [] 100 0 5 0) 250
      = .ok (DispatchSchedule.mk [] 100 200 (-200) 0, false, false) ∧
    (DispatchSchedule.mk [] 100 200 (-200) 0).scheduled_dispatch_start_tick
        + (DispatchSchedule.mk [] 100 200 (-200) 0).scheduled_dispatch_last_dispatch
      ≠ (DispatchSchedule.mk [] 100 0 5 0).scheduled_dispatch_start_tick
        + (DispatchSchedule.mk [] 100 0 5 0).scheduled_dispatch_last_dispatch := by
  refine ⟨by decide, rfl, by decide⟩

/-- C6, amended (conservation law): for a schedule with
`duration <= INT32_MAX` that is initialised, or uninitialised with
last-dispatch counter 0, a normalisation during which no store into the
counter was saturated, clamped or day-advanced leaves the sum of start tick
and counter unchanged; with a positive duration the call returns. The bound
on the duration is needed: a duration of 3000000000 is narrowed to
-1294967296 when it is handed to the 32-bit counter, and one forward pass
then changes the sum from 1 to 4294967297 without any saturation. -/
theorem conservation_law (cfg : GameTimeSettings) (s : DispatchSchedule) (now : Int)
    (hi : s.scheduled_dispatch_start_tick ≠ 0 ∨ s.scheduled_dispatch_last_dispatch = 0)
    (hmax : (s.GetScheduledDispatchDuration : Int) ≤ INT32_MAX) :
    (∀ fuel r b, UpdateScheduledDispatchToDate_traced cfg fuel s now = .ok (r, b, false) →
      UpdateScheduledDispatchToDate cfg fuel s now = .ok (r, b) ∧
      r.GetScheduledDispatchStartTick + r.scheduled_dispatch_last_dispatch
        = s.GetScheduledDispatchStartTick + s.scheduled_dispatch_last_dispatch) ∧
    (0 < s.scheduled_dispatch_duration → 0 < cfg.ticks_per_minute →
      ∃ r b, Returns (fun fuel => UpdateScheduledDispatchToDate cfg fuel s now) (r, b) ∧
        ∃ n, ∀ fuel, n ≤ fuel →
          ∃ c, UpdateScheduledDispatchToDate_traced cfg fuel s now = .ok (r, b, c)) ∧
    (UpdateScheduledDispatchToDate_traced (GameTimeSettings.mk false 74) 1
        (DispatchSchedule.mk [] 3000000000 1 0 0) 3000000001
      = .ok (DispatchSchedule.mk [] 3000000000 3000000001 1294967296 0, true, false) ∧
      (3000000001 : Int) + 1294967296 ≠ 1 + 0) := by
  refine ⟨?_, ?_, rfl, by decide⟩
  · intro fuel r b h
    refine ⟨(update_traced_erase cfg fuel s now).1 r b false h, ?_⟩
    unfold UpdateScheduledDispatchToDate_traced at h
    cases hinit : UpdateScheduledDispatchToDate_init_traced cfg s now with
    | error e => rw [hinit] at h; cases h
    | ok p =>
      obtain ⟨s1, c1⟩ := p
      rw [hinit] at h
      dsimp only at h
      cases hb : UpdateScheduledDispatchToDate_backward_traced now fuel s1 false c1 with
      | error e => rw [hb] at h; cases h
      | ok q =>
        obtain ⟨s2, u, c2⟩ := q
        rw [hb] at h
        dsimp only at h
        have hd1 : s1.scheduled_dispatch_duration = s.scheduled_dispatch_duration := by
          unfold UpdateScheduledDispatchToDate_init_traced at hinit
          cases hi2 : UpdateScheduledDispatchToDate_init cfg s now with
          | error e => rw [hi2] at hinit; cases hinit
          | ok s3 =>
            rw [hi2] at hinit
            cases hinit
            exact (init_frame hi2).2.1
        have hd2 : s2.scheduled_dispatch_duration = s.scheduled_dispatch_duration := by
          rw [← hd1]
          exact (backward_frame now fuel s1 false s2 u
            ((backward_traced_erase now fuel s1 false c1).1 s2 u c2 hb)).2.1
        obtain ⟨hc2, hsum2⟩ := forward_traced_sum now fuel s2 u c2 r b
          (by rw [hd2]; exact hmax) h
        subst hc2
        obtain ⟨hc1, hsum1⟩ := backward_traced_sum now fuel s1 false c1 s2 u
          (by rw [hd1]; exact hmax) hb
        subst hc1
        have hsum0 := init_traced_sum hi hinit
        simp only [DispatchSchedule.GetScheduledDispatchStartTick]
        rw [hsum2, hsum1, hsum0]
  · intro hd ht
    obtain ⟨r, b, ⟨n, hn⟩, _⟩ := update_returns cfg s now hd ht
    exact ⟨r, b, ⟨n, hn⟩, n, fun fuel hf =>
      (update_traced_erase cfg fuel s now).2 r b (hn fuel hf)⟩

/-- Witness of C6: an initialised schedule moved two windows forward without
saturation keeps the sum `200 + 50 = 400 + (-150)`. -/
theorem conservation_law_witness :
    ((DispatchSchedule.mk [] 100 200 50 0).scheduled_dispatch_start_tick ≠ 0 ∨
      (DispatchSchedule.mk [] 100 200 50 0).scheduled_dispatch_last_dispatch = 0) ∧
    ((DispatchSchedule.mk [] 100 200 50 0).GetScheduledDispatchDuration : Int) ≤ INT32_MAX ∧
    UpdateScheduledDispatchToDate_traced (GameTimeSettings.mk false 74) 2
        (DispatchSchedule.mk [] 100 200 50 0) 459
      = .ok (DispatchSchedule.mk [] 100 400 (-150) 0, true, false) ∧
    (DispatchSchedule.mk [] 100 400 (-150) 0).GetScheduledDispatchStartTick
        + (DispatchSchedule.mk [] 100 400 (-150) 0).scheduled_dispatch_last_dispatch
      = (DispatchSchedule.mk [] 100 200 50 0).GetScheduledDispatchStartTick
        + (DispatchSchedule.mk [] 100 200 50 0).scheduled_dispatch_last_dispatch :=
  ⟨Or.inl (by decide), by decide, rfl,
    ((conservation_law (GameTimeSettings.mk false 74) (DispatchSchedule.mk [] 100 200 50 0) 459
      (Or.inl (by decide)) (by decide)).1 2 (DispatchSchedule.mk [] 100 400 (-150) 0) true
      (by rfl)).2⟩

/-- C7 as stated fails: the window `[0, 100)` of an uninitialised schedule
already contains `now = 50`, yet normalisation resets the last-dispatch counter
from 7 to 0. -/
theorem noop_once_contained_counterexample :
    0 < (DispatchSchedule.mk [] 100 0 7 0).scheduled_dispatch_duration ∧
    (DispatchSchedule.mk [] 100 0 7 0).GetScheduledDispatchStartTick ≤ 50 ∧
    (50 : Int) < (DispatchSchedule.mk [] 100 0 7 0).GetScheduledDispatchStartTick
      + (DispatchSchedule.mk [] 100 0 7 0).GetScheduledDispatchDuration ∧
    UpdateScheduledDispatchToDate (GameTimeSettings.mk false 74) 0
        (DispatchSchedule.mk [] 100 0 7 0) 50
      = .ok (DispatchSchedule.mk [] 100 0 0 0, false) ∧
    (DispatchSchedule.mk [] 100 0 0 0).scheduled_dispatch_last_dispatch
      ≠ (DispatchSchedule.mk [] 100 0 7 0).scheduled_dispatch_last_dispatch := by
  refine ⟨by decide, by decide, by decide, rfl, by decide⟩

/-- C7, amended (no-op once contained): when the window already contains `now`
and the schedule is initialised (or its last-dispatch counter is 0),
normalisation returns `false` and changes nothing; hence a second
normalisation at the same `now` changes nothing whenever the first one left an
initialised schedule (or a zero counter). -/
theorem noop_once_contained (cfg : GameTimeSettings) (s : DispatchSchedule) (now : Int)
    (hd : 0 < s.scheduled_dispatch_duration) (ht : 0 < cfg.ticks_per_minute) :
    (s.GetScheduledDispatchStartTick ≤ now →
      now < s.GetScheduledDispatchStartTick + s.GetScheduledDispatchDuration →
      (s.GetScheduledDispatchStartTick ≠ 0 ∨ s.scheduled_dispatch_last_dispatch = 0) →
      ∀ fuel, UpdateScheduledDispatchToDate cfg fuel s now = .ok (s, false)) ∧
    (∃ r b, Returns (fun fuel => UpdateScheduledDispatchToDate cfg fuel s now) (r, b) ∧
      ((r.GetScheduledDispatchStartTick ≠ 0 ∨ r.scheduled_dispatch_last_dispatch = 0) →
        ∀ fuel, UpdateScheduledDispatchToDate cfg fuel r now = .ok (r, false))) := by
  constructor
  · intro hlo hhi hi fuel
    exact update_noop cfg s now hd hlo hhi hi fuel
  · obtain ⟨r, b, hret, hdur, _, _, hlo, hhi⟩ := update_returns cfg s now hd ht
    exact ⟨r, b, hret, fun hi fuel =>
      update_noop cfg r now (by rw [hdur]; exact hd) hlo hhi hi fuel⟩

/-- Witness of C7: an initialised schedule whose window `[400, 500)` contains
`now = 459`. -/
theorem noop_once_contained_witness :
    0 < (DispatchSchedule.mk [10] 100 400 (-400) 0).scheduled_dispatch_duration ∧
    0 < (GameTimeSettings.mk false 74).ticks_per_minute ∧
    ∀ fuel, UpdateScheduledDispatchToDate (GameTimeSettings.mk false 74) fuel
        (DispatchSchedule.mk [10] 100 400 (-400) 0) 459
      = .ok (DispatchSchedule.mk [10] 100 400 (-400) 0, false) :=
  ⟨by decide, by decide,
    (noop_once_contained (GameTimeSettings.mk false 74)
      (DispatchSchedule.mk [10] 100 400 (-400) 0) 459 (by decide) (by decide)).1
      (by decide) (by decide) (Or.inl (by decide))⟩

/-- C8 as stated fails: at `now = -250` and duration 100 the first-run block
stores the start tick `-200`, which is above `now` and is not
`now - (now mod duration) = -300`. -/
theorem first_run_alignment_counterexample :
    (DispatchSchedule.mk [] 100 0 0 0).GetScheduledDispatchStartTick = 0 ∧
    0 < (DispatchSchedule.mk [] 100 0 0 0).GetScheduledDispatchDuration ∧
    UpdateScheduledDispatchToDate_init (GameTimeSettings.mk false 74)
        (DispatchSchedule.mk [] 100 0 0 0) (-250)
      = .ok (DispatchSchedule.mk [] 100 (-200) 200 0) ∧
    ¬ ((DispatchSchedule.mk [] 100 (-200) 200 0).GetScheduledDispatchStartTick ≤ -250) ∧
    (DispatchSchedule.mk [] 100 (-200) 200 0).GetScheduledDispatchStartTick
      ≠ -250 - (-250) % 100 := by
  refine ⟨rfl, by decide, rfl, by decide, by decide⟩

/-- C8, amended (first-run alignment): for an uninitialised schedule with a
positive duration the first-run block stores `now - (now % duration)` with the
C++ truncating remainder, a multiple of the duration; for `now >= 0` this is
the floored value, `<= now` and `> now - duration`; for `now < 0` it is
`>= now` and `< now + duration`, and the first loop then brings it to
`<= now`: it makes one pass, down by one duration, when the stored value is
above `now` and none otherwise, and the call returns that schedule. -/
theorem first_run_alignment (cfg : GameTimeSettings) (s : DispatchSchedule) (now : Int)
    (h0 : s.GetScheduledDispatchStartTick = 0) (hd : 0 < s.GetScheduledDispatchDuration)
    (ht : 0 < cfg.ticks_per_minute) :
    ∃ s1, UpdateScheduledDispatchToDate_init cfg s now = .ok s1 ∧
      s1.GetScheduledDispatchStartTick
        = now - Int.tmod now s.GetScheduledDispatchDuration ∧
      (s.GetScheduledDispatchDuration : Int) ∣ s1.GetScheduledDispatchStartTick ∧
      (0 ≤ now →
        s1.GetScheduledDispatchStartTick = now - now % (s.GetScheduledDispatchDuration : Int) ∧
        s1.GetScheduledDispatchStartTick ≤ now ∧
        now - s.GetScheduledDispatchDuration < s1.GetScheduledDispatchStartTick) ∧
      (now < 0 →
        now ≤ s1.GetScheduledDispatchStartTick ∧
        s1.GetScheduledDispatchStartTick < now + s.GetScheduledDispatchDuration ∧
        ∃ s2 u,
          (∀ fuel, 1 ≤ fuel →
            UpdateScheduledDispatchToDate_backward now fuel s1 false = .ok (s2, u)) ∧
          s2.GetScheduledDispatchStartTick ≤ now ∧
          now < s2.GetScheduledDispatchStartTick + s.GetScheduledDispatchDuration ∧
          s2.GetScheduledDispatchStartTick
            = (if now < s1.GetScheduledDispatchStartTick
               then s1.GetScheduledDispatchStartTick - s.GetScheduledDispatchDuration
               else s1.GetScheduledDispatchStartTick) ∧
          (u = true ↔ now < s1.GetScheduledDispatchStartTick) ∧
          ∀ fuel, 1 ≤ fuel → UpdateScheduledDispatchToDate cfg fuel s now = .ok (s2, u)) := by
  simp only [DispatchSchedule.GetScheduledDispatchStartTick,
    DispatchSchedule.GetScheduledDispatchDuration] at h0 hd ⊢
  obtain ⟨s1, hinit, hdur, _, _, hstart⟩ := init_ok cfg s now hd ht
  have hs := hstart h0
  have hdpos : (0 : Int) < s.scheduled_dispatch_duration := by exact_mod_cast hd
  refine ⟨s1, hinit, hs, ?_, ?_, ?_⟩
  · rw [hs]
    exact ⟨Int.tdiv now s.scheduled_dispatch_duration, by
      have := Int.tmod_add_tdiv now s.scheduled_dispatch_duration
      linarith⟩
  · intro hnow
    have hmod := tmod_nonneg_eq now s.scheduled_dispatch_duration hnow
    have h1 := Int.emod_nonneg now (ne_of_gt hdpos)
    have h2 := Int.emod_lt_of_pos now hdpos
    rw [hs, hmod]
    exact ⟨rfl, by omega, by omega⟩
  · intro hnow
    obtain ⟨h1, h2⟩ := tmod_negative_bounds now s.scheduled_dispatch_duration hd hnow
    have hlo : now ≤ s1.scheduled_dispatch_start_tick := by rw [hs]; omega
    have hhi : s1.scheduled_dispatch_start_tick < now + s.scheduled_dispatch_duration := by
      rw [hs]; omega
    refine ⟨hlo, hhi, ?_⟩
    by_cases hgt : now < s1.scheduled_dispatch_start_tick
    · have hback : ∀ fuel, 1 ≤ fuel →
          UpdateScheduledDispatchToDate_backward now fuel s1 false
            = .ok (backward_step s1, true) := by
        intro fuel hf
        have h := backward_runs now 1 s1 false fuel hf
          (by rw [hdur]; push_cast; omega) (Or.inr (by push_cast; omega))
        simpa using h
      have hs2 : (backward_step s1).scheduled_dispatch_start_tick
          = s1.scheduled_dispatch_start_tick - s.scheduled_dispatch_duration := by
        simp only [backward_step, DispatchSchedule.GetScheduledDispatchStartTick,
          DispatchSchedule.GetScheduledDispatchDuration, hdur]
      have hd2 : (backward_step s1).scheduled_dispatch_duration
          = s.scheduled_dispatch_duration := hdur
      refine ⟨backward_step s1, true, hback, by rw [hs2]; omega, by rw [hs2]; omega,
        by rw [hs2, if_pos hgt], by simp [hgt], fun fuel hf => ?_⟩
      rw [update_of_init hinit fuel, hback fuel hf]
      exact forward_stops now fuel _ true (by rw [hs2, hd2]; omega)
    · have hback : ∀ fuel, UpdateScheduledDispatchToDate_backward now fuel s1 false
            = .ok (s1, false) :=
        fun fuel => backward_stops now fuel s1 false (by omega)
      refine ⟨s1, false, fun fuel _ => hback fuel, by omega, by omega,
        by rw [if_neg hgt], by simp [hgt], fun fuel _ => ?_⟩
      rw [update_of_init hinit fuel, hback fuel]
      exact forward_stops now fuel _ false (by rw [hdur]; omega)

/-- Witness of C8: at duration 100 and `now = -250` the first-run block stores
the start tick -200 and the first loop moves it to -300. -/
theorem first_run_alignment_witness :
    (DispatchSchedule.mk [] 100 0 0 0).GetScheduledDispatchStartTick = 0 ∧
    0 < (DispatchSchedule.mk [] 100 0 0 0).GetScheduledDispatchDuration ∧
    0 < (GameTimeSettings.mk false 74).ticks_per_minute ∧
    UpdateScheduledDispatchToDate_init (GameTimeSettings.mk false 74)
        (DispatchSchedule.mk [] 100 0 0 0) 250
      = .ok (DispatchSchedule.mk [] 100 200 (-200) 0) ∧
    UpdateScheduledDispatchToDate_init (GameTimeSettings.mk false 74)
        (DispatchSchedule.mk [] 100 0 0 0) (-250)
      = .ok (DispatchSchedule.mk [] 100 (-200) 200 0) ∧
    UpdateScheduledDispatchToDate (GameTimeSettings.mk false 74) 1
        (DispatchSchedule.mk [] 100 0 0 0) (-250)
      = .ok (DispatchSchedule.mk [] 100 (-300) 300 0, true) ∧
    ∃ s1, UpdateScheduledDispatchToDate_init (GameTimeSettings.mk false 74)
        (DispatchSchedule.mk [] 100 0 0 0) (-250) = .ok s1 ∧
      s1.GetScheduledDispatchStartTick
        = -250 - Int.tmod (-250)
            (DispatchSchedule.mk [] 100 0 0 0).GetScheduledDispatchDuration ∧
      ((DispatchSchedule.mk [] 100 0 0 0).GetScheduledDispatchDuration : Int)
        ∣ s1.GetScheduledDispatchStartTick ∧
      ((0 : Int) ≤ -250 →
        s1.GetScheduledDispatchStartTick
          = -250 - (-250) % ((DispatchSchedule.mk [] 100 0 0 0).GetScheduledDispatchDuration : Int) ∧
        s1.GetScheduledDispatchStartTick ≤ -250 ∧
        -250 - ((DispatchSchedule.mk [] 100 0 0 0).GetScheduledDispatchDuration : Int)
          < s1.GetScheduledDispatchStartTick) ∧
      ((-250 : Int) < 0 →
        -250 ≤ s1.GetScheduledDispatchStartTick ∧
        s1.GetScheduledDispatchStartTick
          < -250 + ((DispatchSchedule.mk [] 100 0 0 0).GetScheduledDispatchDuration : Int) ∧
        ∃ s2 u,
          (∀ fuel, 1 ≤ fuel →
            UpdateScheduledDispatchToDate_backward (-250) fuel s1 false = .ok (s2, u)) ∧
          s2.GetScheduledDispatchStartTick ≤ -250 ∧
          -250 < s2.GetScheduledDispatchStartTick
            + ((DispatchSchedule.mk [] 100 0 0 0).GetScheduledDispatchDuration : Int) ∧
          s2.GetScheduledDispatchStartTick
            = (if -250 < s1.GetScheduledDispatchStartTick
               then s1.GetScheduledDispatchStartTick
                 - ((DispatchSchedule.mk [] 100 0 0 0).GetScheduledDispatchDuration : Int)
               else s1.GetScheduledDispatchStartTick) ∧
          (u = true ↔ -250 < s1.GetScheduledDispatchStartTick) ∧
          ∀ fuel, 1 ≤ fuel →
            UpdateScheduledDispatchToDate (GameTimeSettings.mk false 74) fuel
              (DispatchSchedule.mk [] 100 0 0 0) (-250) = .ok (s2, u)) :=
  ⟨rfl, by decide, by decide, rfl, rfl, rfl,
    first_run_alignment (GameTimeSettings.mk false 74) (DispatchSchedule.mk [] 100 0 0 0) (-250)
      rfl (by decide) (by decide)⟩

/-- C9, forward advancement: for an initialised schedule with
`0 < duration <= INT32_MAX` and `window_start + duration <= now`, normalisation
returns `true`, moves the start tick forward by `k` windows with
`k = floor((now - window_start) / duration) >= 1`, and stores
`max(INT32_MIN, last_dispatch - k * duration)` as last-dispatch counter. -/
theorem forward_advancement (cfg : GameTimeSettings) (s : DispatchSchedule) (now : Int)
    (hi : s.GetScheduledDispatchStartTick ≠ 0)
    (hd : 0 < s.GetScheduledDispatchDuration)
    (hd32 : (s.GetScheduledDispatchDuration : Int) ≤ INT32_MAX)
    (hl : IsInt32 s.scheduled_dispatch_last_dispatch)
    (hnow : s.GetScheduledDispatchStartTick + s.GetScheduledDispatchDuration ≤ now) :
    ∃ k : Nat, 1 ≤ k ∧
      (k : Int) = (now - s.GetScheduledDispatchStartTick) / (s.GetScheduledDispatchDuration : Int) ∧
      (k : Int) = ⌊((now - s.GetScheduledDispatchStartTick : Int) : ℚ)
        / ((s.GetScheduledDispatchDuration : Nat) : ℚ)⌋ ∧
      Returns (fun fuel => UpdateScheduledDispatchToDate cfg fuel s now)
        ({ s with
            scheduled_dispatch_start_tick :=
              s.GetScheduledDispatchStartTick + (k : Int) * s.GetScheduledDispatchDuration
            scheduled_dispatch_last_dispatch :=
              max INT32_MIN
                (s.scheduled_dispatch_last_dispatch - (k : Int) * s.GetScheduledDispatchDuration) },
          true) := by
  simp only [DispatchSchedule.GetScheduledDispatchStartTick,
    DispatchSchedule.GetScheduledDispatchDuration] at hi hd hd32 hnow ⊢
  have hdpos : (0 : Int) < s.scheduled_dispatch_duration := by exact_mod_cast hd
  have hdq : (0 : ℚ) < (s.scheduled_dispatch_duration : ℚ) := by exact_mod_cast hd
  have hle : s.scheduled_dispatch_start_tick ≤ now := by omega
  obtain ⟨k, hk⟩ : ∃ k : Nat, k = ((now - s.scheduled_dispatch_start_tick)
      / (s.scheduled_dispatch_duration : Int)).toNat := ⟨_, rfl⟩
  obtain ⟨hlo, hhi, hrun⟩ := normalise_forward_case s now hd hle k hk
  have hk1 : 1 ≤ k := by
    by_contra hcon
    have hk0 : k = 0 := by omega
    rw [hk0] at hhi
    simp only [Nat.cast_zero, zero_add, one_mul] at hhi
    omega
  refine ⟨k, hk1, ?_, ?_, k, fun fuel hf => ?_⟩
  · rw [hk]
    exact Int.toNat_of_nonneg (Int.ediv_nonneg (by omega) (le_of_lt hdpos))
  · symm
    rw [Int.floor_eq_iff]
    constructor
    · rw [le_div_iff₀ hdq]; exact_mod_cast hlo
    · rw [div_lt_iff₀ hdq]; exact_mod_cast hhi
  · show UpdateScheduledDispatchToDate cfg fuel s now = _
    rw [update_of_init (init_of_started cfg s now hi) fuel, (hrun fuel hf).1]
    dsimp only
    rw [(hrun fuel hf).2]
    obtain ⟨f1, f2, f3, f4⟩ := forward_iter_fields k s
    have hpos : 0 < k := hk1
    simp only [hpos, decide_True]
    exact congrArg (fun x => Except.ok (x, true))
      (schedule_eq f3 f2 f1 (forward_iter_last k s hd32 hl) f4)

/-- Witness of C9: duration 100, start tick 200, `now = 459` give start tick
400 after two passes and the result `true`. -/
theorem forward_advancement_witness :
    (DispatchSchedule.mk [10] 100 200 (-200) 0).GetScheduledDispatchStartTick ≠ 0 ∧
    0 < (DispatchSchedule.mk [10] 100 200 (-200) 0).GetScheduledDispatchDuration ∧
    ((DispatchSchedule.mk [10] 100 200 (-200) 0).GetScheduledDispatchDuration : Int)
      ≤ INT32_MAX ∧
    IsInt32 (DispatchSchedule.mk [10] 100 200 (-200) 0).scheduled_dispatch_last_dispatch ∧
    (DispatchSchedule.mk [10] 100 200 (-200) 0).GetScheduledDispatchStartTick
      + (DispatchSchedule.mk [10] 100 200 (-200) 0).GetScheduledDispatchDuration ≤ 459 ∧
    UpdateScheduledDispatchToDate (GameTimeSettings.mk false 74) 2
        (DispatchSchedule.mk [10] 100 200 (-200) 0) 459
      = .ok (DispatchSchedule.mk [10] 100 400 (-400) 0, true) ∧
    ∃ k : Nat, 1 ≤ k ∧
      (k : Int) = (459 - (DispatchSchedule.mk [10] 100 200 (-200) 0).GetScheduledDispatchStartTick)
        / ((DispatchSchedule.mk [10] 100 200 (-200) 0).GetScheduledDispatchDuration : Int) ∧
      (k : Int) = ⌊((459 - (DispatchSchedule.mk [10] 100 200 (-200) 0).GetScheduledDispatchStartTick
          : Int) : ℚ)
        / (((DispatchSchedule.mk [10] 100 200 (-200) 0).GetScheduledDispatchDuration : Nat) : ℚ)⌋ ∧
      Returns (fun fuel => UpdateScheduledDispatchToDate (GameTimeSettings.mk false 74) fuel
          (DispatchSchedule.mk [10] 100 200 (-200) 0) 459)
        ({ (DispatchSchedule.mk [10] 100 200 (-200) 0) with
            scheduled_dispatch_start_tick :=
              (DispatchSchedule.mk [10] 100 200 (-200) 0).GetScheduledDispatchStartTick
                + (k : Int) * (DispatchSchedule.mk [10] 100 200 (-200) 0).GetScheduledDispatchDuration
            scheduled_dispatch_last_dispatch :=
              max INT32_MIN
                ((DispatchSchedule.mk [10] 100 200 (-200) 0).scheduled_dispatch_last_dispatch
                  - (k : Int)
                    * (DispatchSchedule.mk [10] 100 200 (-200) 0).GetScheduledDispatchDuration) },
          true) :=
  ⟨by decide, by decide, by decide, by decide, by decide, rfl,
    forward_advancement (GameTimeSettings.mk false 74)
      (DispatchSchedule.mk [10] 100 200 (-200) 0) 459
      (by decide) (by decide) (by decide) (by decide) (by decide)⟩

/-- C10, backward correction: for an initialised schedule with
`0 < duration <= INT32_MAX` and `window_start > now`, normalisation returns
`true`, moves the start tick back by `k` windows with
`k = ceil((window_start - now) / duration) >= 1`, onto the window containing
`now`, stores `min(INT32_MAX, last_dispatch + k * duration)` as last-dispatch
counter, and the second loop then runs no pass. -/
theorem backward_correction (cfg : GameTimeSettings) (s : DispatchSchedule) (now : Int)
    (hi : s.GetScheduledDispatchStartTick ≠ 0)
    (hd : 0 < s.GetScheduledDispatchDuration)
    (hd32 : (s.GetScheduledDispatchDuration : Int) ≤ INT32_MAX)
    (hl : IsInt32 s.scheduled_dispatch_last_dispatch)
    (hnow : now < s.GetScheduledDispatchStartTick) :
    ∃ (k : Nat) (r : DispatchSchedule), 1 ≤ k ∧
      (k : Int) = ⌈((s.GetScheduledDispatchStartTick - now : Int) : ℚ)
        / ((s.GetScheduledDispatchDuration : Nat) : ℚ)⌉ ∧
      r = { s with
            scheduled_dispatch_start_tick :=
              s.GetScheduledDispatchStartTick - (k : Int) * s.GetScheduledDispatchDuration
            scheduled_dispatch_last_dispatch :=
              min INT32_MAX
                (s.scheduled_dispatch_last_dispatch + (k : Int) * s.GetScheduledDispatchDuration) } ∧
      Returns (fun fuel => UpdateScheduledDispatchToDate cfg fuel s now) (r, true) ∧
      r.GetScheduledDispatchStartTick ≤ now ∧
      now < r.GetScheduledDispatchStartTick + r.GetScheduledDispatchDuration ∧
      (∀ j : Nat,
        s.GetScheduledDispatchStartTick - (j : Int) * s.GetScheduledDispatchDuration ≤ now →
        s.GetScheduledDispatchStartTick - (j : Int) * s.GetScheduledDispatchDuration
          ≤ r.GetScheduledDispatchStartTick) ∧
      Returns (fun fuel => UpdateScheduledDispatchToDate_backward now fuel s false) (r, true) ∧
      ∀ fuel, UpdateScheduledDispatchToDate_forward now fuel r true = .ok (r, true) := by
  simp only [DispatchSchedule.GetScheduledDispatchStartTick,
    DispatchSchedule.GetScheduledDispatchDuration] at hi hd hd32 hnow ⊢
  have hdq : (0 : ℚ) < (s.scheduled_dispatch_duration : ℚ) := by exact_mod_cast hd
  obtain ⟨k, hk⟩ : ∃ k : Nat, k = ((s.scheduled_dispatch_start_tick - now
      + s.scheduled_dispatch_duration - 1) / (s.scheduled_dispatch_duration : Int)).toNat :=
    ⟨_, rfl⟩
  obtain ⟨hk1, hlo, hhi, hrun⟩ := normalise_backward_case s now hd hnow k hk
  obtain ⟨f1, f2, f3, f4⟩ := backward_iter_fields k s
  have hr : backward_step^[k] s = { s with
      scheduled_dispatch_start_tick :=
        s.scheduled_dispatch_start_tick - (k : Int) * s.scheduled_dispatch_duration
      scheduled_dispatch_last_dispatch :=
        min INT32_MAX
          (s.scheduled_dispatch_last_dispatch + (k : Int) * s.scheduled_dispatch_duration) } :=
    schedule_eq f3 f2 f1 (backward_iter_last k s hd32 hl) f4
  have hdpos : (0 : Int) < s.scheduled_dispatch_duration := by exact_mod_cast hd
  refine ⟨k, backward_step^[k] s, hk1, ?_, hr, ⟨k, fun fuel hf => ?_⟩, ?_, ?_, ?_,
    ⟨k, fun fuel hf => (hrun fuel hf).1⟩, fun fuel => (hrun k (le_refl _)).2 fuel⟩
  · symm
    rw [Int.ceil_eq_iff]
    constructor
    · rw [lt_div_iff₀ hdq]; exact_mod_cast hlo
    · rw [div_le_iff₀ hdq]; exact_mod_cast hhi
  · show UpdateScheduledDispatchToDate cfg fuel s now = _
    rw [update_of_init (init_of_started cfg s now hi) fuel, (hrun fuel hf).1]
    exact (hrun fuel hf).2 fuel
  · rw [f1]; linarith
  · rw [f1, f2]; linarith
  · intro j hj
    rw [f1]
    have h1 : ((k : Int) - 1) * s.scheduled_dispatch_duration
        < (j : Int) * s.scheduled_dispatch_duration := by linarith
    have h2 : (k : Int) - 1 < j := lt_of_mul_lt_mul_right h1 (le_of_lt hdpos)
    have h3 : (k : Int) ≤ j := by omega
    have h4 : (k : Int) * s.scheduled_dispatch_duration
        ≤ (j : Int) * s.scheduled_dispatch_duration :=
      mul_le_mul_of_nonneg_right h3 (le_of_lt hdpos)
    linarith

/-- Witness of C10: duration 100, start tick 700, `now = 459` give start tick
400 after three passes back. -/
theorem backward_correction_witness :
    (DispatchSchedule.mk [10] 100 700 0 0).GetScheduledDispatchStartTick ≠ 0 ∧
    0 < (DispatchSchedule.mk [10] 100 700 0 0).GetScheduledDispatchDuration ∧
    ((DispatchSchedule.mk [10] 100 700 0 0).GetScheduledDispatchDuration : Int) ≤ INT32_MAX ∧
    IsInt32 (DispatchSchedule.mk [10] 100 700 0 0).scheduled_dispatch_last_dispatch ∧
    459 < (DispatchSchedule.mk [10] 100 700 0 0).GetScheduledDispatchStartTick ∧
    UpdateScheduledDispatchToDate (GameTimeSettings.mk false 74) 3
        (DispatchSchedule.mk [10] 100 700 0 0) 459
      = .ok (DispatchSchedule.mk [10] 100 400 300 0, true) ∧
    ∃ (k : Nat) (r : DispatchSchedule), 1 ≤ k ∧
      (k : Int) = ⌈(((DispatchSchedule.mk [10] 100 700 0 0).GetScheduledDispatchStartTick - 459
          : Int) : ℚ)
        / (((DispatchSchedule.mk [10] 100 700 0 0).GetScheduledDispatchDuration : Nat) : ℚ)⌉ ∧
      r = { (DispatchSchedule.mk [10] 100 700 0 0) with
            scheduled_dispatch_start_tick :=
              (DispatchSchedule.mk [10] 100 700 0 0).GetScheduledDispatchStartTick
                - (k : Int) * (DispatchSchedule.mk [10] 100 700 0 0).GetScheduledDispatchDuration
            scheduled_dispatch_last_dispatch :=
              min INT32_MAX
                ((DispatchSchedule.mk [10] 100 700 0 0).scheduled_dispatch_last_dispatch
                  + (k : Int)
                    * (DispatchSchedule.mk [10] 100 700 0 0).GetScheduledDispatchDuration) } ∧
      Returns (fun fuel => UpdateScheduledDispatchToDate (GameTimeSettings.mk false 74) fuel
        (DispatchSchedule.mk [10] 100 700 0 0) 459) (r, true) ∧
      r.GetScheduledDispatchStartTick ≤ 459 ∧
      459 < r.GetScheduledDispatchStartTick + r.GetScheduledDispatchDuration ∧
      (∀ j : Nat,
        (DispatchSchedule.mk [10] 100 700 0 0).GetScheduledDispatchStartTick
          - (j : Int) * (DispatchSchedule.mk [10] 100 700 0 0).GetScheduledDispatchDuration
          ≤ 459 →
        (DispatchSchedule.mk [10] 100 700 0 0).GetScheduledDispatchStartTick
          - (j : Int) * (DispatchSchedule.mk [10] 100 700 0 0).GetScheduledDispatchDuration
          ≤ r.GetScheduledDispatchStartTick) ∧
      Returns (fun fuel => UpdateScheduledDispatchToDate_backward 459 fuel
        (DispatchSchedule.mk [10] 100 700 0 0) false) (r, true) ∧
      ∀ fuel, UpdateScheduledDispatchToDate_forward 459 fuel r true = .ok (r, true) :=
  ⟨by decide, by decide, by decide, by decide, by decide, rfl,
    backward_correction (GameTimeSettings.mk false 74)
      (DispatchSchedule.mk [10] 100 700 0 0) 459
      (by decide) (by decide) (by decide) (by decide) (by decide)⟩

/-! ## Pass counters -/

theorem backward_counted_erase (now : Int) : ∀ (fuel : Nat) (s : DispatchSchedule) (u : Bool)
    (n : Nat),
    (∀ r b m, UpdateScheduledDispatchToDate_backward_counted now fuel s u n = .ok (r, b, m) →
      UpdateScheduledDispatchToDate_backward now fuel s u = .ok (r, b)) ∧
    (∀ r b, UpdateScheduledDispatchToDate_backward now fuel s u = .ok (r, b) →
      ∃ m, UpdateScheduledDispatchToDate_backward_counted now fuel s u n = .ok (r, b, m)) := by
  intro fuel
  induction fuel with
  | zero =>
    intro s u n
    simp only [UpdateScheduledDispatchToDate_backward_counted,
      UpdateScheduledDispatchToDate_backward]
    split_ifs
    · exact ⟨fun r b m h => (by cases h), fun r b h => (by cases h)⟩
    · exact ⟨fun r b m h => (by cases h; rfl), fun r b h => (by cases h; exact ⟨n, rfl⟩)⟩
  | succ fuel ih =>
    intro s u n
    simp only [UpdateScheduledDispatchToDate_backward_counted,
      UpdateScheduledDispatchToDate_backward]
    split_ifs
    · exact ih _ _ _
    · exact ⟨fun r b m h => (by cases h; rfl), fun r b h => (by cases h; exact ⟨n, rfl⟩)⟩

theorem forward_counted_erase (now : Int) : ∀ (fuel : Nat) (s : DispatchSchedule) (u : Bool)
    (n : Nat),
    (∀ r b m, UpdateScheduledDispatchToDate_forward_counted now fuel s u n = .ok (r, b, m) →
      UpdateScheduledDispatchToDate_forward now fuel s u = .ok (r, b)) ∧
    (∀ r b, UpdateScheduledDispatchToDate_forward now fuel s u = .ok (r, b) →
      ∃ m, UpdateScheduledDispatchToDate_forward_counted now fuel s u n = .ok (r, b, m)) := by
  intro fuel
  induction fuel with
  | zero =>
    intro s u n
    simp only [UpdateScheduledDispatchToDate_forward_counted,
      UpdateScheduledDispatchToDate_forward]
    split_ifs
    · exact ⟨fun r b m h => (by cases h), fun r b h => (by cases h)⟩
    · exact ⟨fun r b m h => (by cases h; rfl), fun r b h => (by cases h; exact ⟨n, rfl⟩)⟩
  | succ fuel ih =>
    intro s u n
    simp only [UpdateScheduledDispatchToDate_forward_counted,
      UpdateScheduledDispatchToDate_forward]
    split_ifs
    · exact ih _ _ _
    · exact ⟨fun r b m h => (by cases h; rfl), fun r b h => (by cases h; exact ⟨n, rfl⟩)⟩

/-- The flag leaving the first loop is raised exactly when it came in raised
or a pass was counted. -/
theorem backward_counted_flag (now : Int) : ∀ (fuel : Nat) (s : DispatchSchedule) (u : Bool)
    (n : Nat) (r : DispatchSchedule) (b : Bool) (m : Nat),
    UpdateScheduledDispatchToDate_backward_counted now fuel s u n = .ok (r, b, m) →
    n ≤ m ∧ (b = true ↔ (u = true ∨ n < m)) := by
  intro fuel
  induction fuel with
  | zero =>
    intro s u n r b m h
    simp only [UpdateScheduledDispatchToDate_backward_counted] at h
    split_ifs at h
    cases h
    exact ⟨le_refl _, by simp⟩
  | succ fuel ih =>
    intro s u n r b m h
    simp only [UpdateScheduledDispatchToDate_backward_counted] at h
    split_ifs at h
    · obtain ⟨h1, h2⟩ := ih _ _ _ _ _ _ h
      refine ⟨by omega, ?_⟩
      rw [h2]
      simp only [true_or, true_iff]
      right; omega
    · cases h
      exact ⟨le_refl _, by simp⟩

/-- The flag leaving the second loop is raised exactly when it came in raised
or a pass was counted. -/
theorem forward_counted_flag (now : Int) : ∀ (fuel : Nat) (s : DispatchSchedule) (u : Bool)
    (n : Nat) (r : DispatchSchedule) (b : Bool) (m : Nat),
    UpdateScheduledDispatchToDate_forward_counted now fuel s u n = .ok (r, b, m) →
    n ≤ m ∧ (b = true ↔ (u = true ∨ n < m)) := by
  intro fuel
  induction fuel with
  | zero =>
    intro s u n r b m h
    simp only [UpdateScheduledDispatchToDate_forward_counted] at h
    split_ifs at h
    cases h
    exact ⟨le_refl _, by simp⟩
  | succ fuel ih =>
    intro s u n r b m h
    simp only [UpdateScheduledDispatchToDate_forward_counted] at h
    split_ifs at h
    · obtain ⟨h1, h2⟩ := ih _ _ _ _ _ _ h
      refine ⟨by omega, ?_⟩
      rw [h2]
      simp only [true_or, true_iff]
      right; omega
    · cases h
      exact ⟨le_refl _, by simp⟩

theorem backward_counted_mono (now : Int) : ∀ (fuel : Nat) (s : DispatchSchedule) (u : Bool)
    (n : Nat) (x : DispatchSchedule × Bool × Nat),
    UpdateScheduledDispatchToDate_backward_counted now fuel s u n = .ok x →
    UpdateScheduledDispatchToDate_backward_counted now (fuel + 1) s u n = .ok x := by
  intro fuel
  induction fuel with
  | zero =>
    intro s u n x h
    simp only [UpdateScheduledDispatchToDate_backward_counted] at h ⊢
    split_ifs at h ⊢
    exact h
  | succ fuel ih =>
    intro s u n x h
    rw [UpdateScheduledDispatchToDate_backward_counted] at h ⊢
    split_ifs at h ⊢
    · exact ih _ _ _ _ h
    · exact h

theorem forward_counted_mono (now : Int) : ∀ (fuel : Nat) (s : DispatchSchedule) (u : Bool)
    (n : Nat) (x : DispatchSchedule × Bool × Nat),
    UpdateScheduledDispatchToDate_forward_counted now fuel s u n = .ok x →
    UpdateScheduledDispatchToDate_forward_counted now (fuel + 1) s u n = .ok x := by
  intro fuel
  induction fuel with
  | zero =>
    intro s u n x h
    simp only [UpdateScheduledDispatchToDate_forward_counted] at h ⊢
    split_ifs at h ⊢
    exact h
  | succ fuel ih =>
    intro s u n x h
    rw [UpdateScheduledDispatchToDate_forward_counted] at h ⊢
    split_ifs at h ⊢
    · exact ih _ _ _ _ h
    · exact h

/-- A result of the counted normaliser stays the result with more fuel. -/
theorem update_counted_mono (cfg : GameTimeSettings) (s : DispatchSchedule) (now : Int)
    (x : DispatchSchedule × Bool × Nat × Nat) : ∀ (fuel k : Nat),
    UpdateScheduledDispatchToDate_counted cfg fuel s now = .ok x →
    UpdateScheduledDispatchToDate_counted cfg (fuel + k) s now = .ok x := by
  intro fuel k
  induction k with
  | zero => exact fun h => h
  | succ k ih =>
    intro h
    have h1 := ih h
    unfold UpdateScheduledDispatchToDate_counted at h1 ⊢
    cases hi : UpdateScheduledDispatchToDate_init cfg s now with
    | error e => rw [hi] at h1; cases h1
    | ok s1 =>
      rw [hi] at h1
      dsimp only at h1 ⊢
      cases hb : UpdateScheduledDispatchToDate_backward_counted now (fuel + k) s1 false 0 with
      | error e => rw [hb] at h1; cases h1
      | ok p =>
        obtain ⟨s2, u, nb⟩ := p
        rw [hb] at h1
        dsimp only at h1
        rw [show fuel + (k + 1) = fuel + k + 1 from rfl,
          backward_counted_mono now (fuel + k) s1 false 0 _ hb]
        dsimp only
        cases hf : UpdateScheduledDispatchToDate_forward_counted now (fuel + k) s2 u 0 with
        | error e => rw [hf] at h1; cases h1
        | ok q =>
          rw [hf] at h1
          rw [forward_counted_mono now (fuel + k) s2 u 0 _ hf]
          exact h1

/-- The counted normaliser returns exactly what the normaliser returns. -/
theorem update_counted_erase (cfg : GameTimeSettings) (fuel : Nat) (s : DispatchSchedule)
    (now : Int) :
    (∀ r b nb nf, UpdateScheduledDispatchToDate_counted cfg fuel s now = .ok (r, b, nb, nf) →
      UpdateScheduledDispatchToDate cfg fuel s now = .ok (r, b) ∧
      (b = true ↔ 0 < nb + nf)) ∧
    (∀ r b, UpdateScheduledDispatchToDate cfg fuel s now = .ok (r, b) →
      ∃ nb nf, UpdateScheduledDispatchToDate_counted cfg fuel s now = .ok (r, b, nb, nf)) := by
  unfold UpdateScheduledDispatchToDate_counted UpdateScheduledDispatchToDate
  cases hi : UpdateScheduledDispatchToDate_init cfg s now with
  | error e => exact ⟨fun r b nb nf h => (by cases h), fun r b h => (by cases h)⟩
  | ok s1 =>
    dsimp only
    constructor
    · intro r b nb nf h
      cases hb : UpdateScheduledDispatchToDate_backward_counted now fuel s1 false 0 with
      | error e => rw [hb] at h; cases h
      | ok p =>
        obtain ⟨s2, u, n1⟩ := p
        rw [hb] at h
        dsimp only at h
        cases hf : UpdateScheduledDispatchToDate_forward_counted now fuel s2 u 0 with
        | error e => rw [hf] at h; cases h
        | ok q =>
          obtain ⟨s3, u2, n2⟩ := q
          rw [hf] at h
          dsimp only at h
          cases h
          rw [(backward_counted_erase now fuel s1 false 0).1 s2 u nb hb]
          dsimp only
          refine ⟨(forward_counted_erase now fuel s2 u 0).1 r b nf hf, ?_⟩
          obtain ⟨_, hb2⟩ := backward_counted_flag now fuel s1 false 0 s2 u nb hb
          obtain ⟨_, hf2⟩ := forward_counted_flag now fuel s2 u 0 r b nf hf
          rw [hf2, hb2]
          simp only [Bool.false_eq_true, false_or]
          omega
    · intro r b h
      cases hb : UpdateScheduledDispatchToDate_backward now fuel s1 false with
      | error e => rw [hb] at h; cases h
      | ok p =>
        obtain ⟨s2, u⟩ := p
        rw [hb] at h
        dsimp only at h
        obtain ⟨n1, hn1⟩ := (backward_counted_erase now fuel s1 false 0).2 s2 u hb
        obtain ⟨n2, hn2⟩ := (forward_counted_erase now fuel s2 u 0).2 r b h
        exact ⟨n1, n2, by rw [hn1]; dsimp only; rw [hn2]⟩

/-- C11, return value: `UpdateScheduledDispatchToDate` returns `true` exactly
when the first or the second loop made at least one pass; a call that only
runs the first-run block, moving the start tick off the sentinel 0 without
entering a loop, returns `false`. -/
theorem return_value_iff_loop_ran (cfg : GameTimeSettings) (s : DispatchSchedule)
    (now : Int) :
    (∀ fuel r b nb nf,
      UpdateScheduledDispatchToDate_counted cfg fuel s now = .ok (r, b, nb, nf) →
      UpdateScheduledDispatchToDate cfg fuel s now = .ok (r, b) ∧
      (b = true ↔ 0 < nb + nf)) ∧
    (0 < s.scheduled_dispatch_duration → 0 < cfg.ticks_per_minute →
      ∃ r b nb nf,
        Returns (fun fuel => UpdateScheduledDispatchToDate_counted cfg fuel s now)
          (r, b, nb, nf) ∧
        Returns (fun fuel => UpdateScheduledDispatchToDate cfg fuel s now) (r, b) ∧
        (b = true ↔ 0 < nb + nf)) ∧
    UpdateScheduledDispatchToDate_counted (GameTimeSettings.mk false 74) 0
        (DispatchSchedule.mk [] 100 0 0 0) 250
      = .ok (DispatchSchedule.mk [] 100 200 (-200) 0, false, 0, 0) := by
  refine ⟨fun fuel r b nb nf h => (update_counted_erase cfg fuel s now).1 r b nb nf h,
    fun hd ht => ?_, rfl⟩
  obtain ⟨r, b, ⟨n, hn⟩, _⟩ := update_returns cfg s now hd ht
  obtain ⟨nb, nf, hc⟩ := (update_counted_erase cfg n s now).2 r b (hn n (le_refl _))
  refine ⟨r, b, nb, nf, ⟨n, fun fuel hf => ?_⟩, ⟨n, hn⟩,
    ((update_counted_erase cfg n s now).1 r b nb nf hc).2⟩
  obtain ⟨k, rfl⟩ : ∃ k, fuel = n + k := ⟨fuel - n, by omega⟩
  exact update_counted_mono cfg s now _ n k hc

/-- Witness of C11: two forward passes give `true`, and the counters say so. -/
theorem return_value_iff_loop_ran_witness :
    UpdateScheduledDispatchToDate_counted (GameTimeSettings.mk false 74) 2
        (DispatchSchedule.mk [] 100 200 (-200) 0) 459
      = .ok (DispatchSchedule.mk [] 100 400 (-400) 0, true, 0, 2) ∧
    UpdateScheduledDispatchToDate (GameTimeSettings.mk false 74) 2
        (DispatchSchedule.mk [] 100 200 (-200) 0) 459
      = .ok (DispatchSchedule.mk [] 100 400 (-400) 0, true) ∧
    (true = true ↔ 0 < 0 + 2) :=
  ⟨rfl,
    (return_value_iff_loop_ran (GameTimeSettings.mk false 74)
      (DispatchSchedule.mk [] 100 200 (-200) 0) 459).1 2
      (DispatchSchedule.mk [] 100 400 (-400) 0) true 0 2 (by rfl)⟩

/-! ## Normalisation on every new offset, and the first last-dispatch value -/

theorem lower_bound_miss_of_not_mem {xs : List Nat} (hs : StrictAsc xs) {val : Nat}
    (hx : val ∉ xs) :
    ¬ (lower_bound xs val ≠ xs.length ∧ xs.getD (lower_bound xs val) 0 = val) :=
  fun h => hx (mem_of_lower_bound_hit val h.1 (lower_bound_le_length hs val) h.2)

/-- A returning first loop leaves the start tick at or before `now`. -/
theorem backward_exit (now : Int) : ∀ (fuel : Nat) (s : DispatchSchedule) (u : Bool)
    (r : DispatchSchedule) (b : Bool),
    UpdateScheduledDispatchToDate_backward now fuel s u = .ok (r, b) →
    r.scheduled_dispatch_start_tick ≤ now := by
  intro fuel
  induction fuel with
  | zero =>
    intro s u r b h
    simp only [UpdateScheduledDispatchToDate_backward,
      DispatchSchedule.GetScheduledDispatchStartTick] at h
    split_ifs at h with hc
    cases h
    omega
  | succ fuel ih =>
    intro s u r b h
    simp only [UpdateScheduledDispatchToDate_backward,
      DispatchSchedule.GetScheduledDispatchStartTick] at h
    split_ifs at h with hc
    · exact ih _ _ _ _ h
    · cases h
      omega

/-- A returning second loop leaves `now` before the end of the window, and
keeps the start tick at or before `now` when it was so on entry. -/
theorem forward_exit (now : Int) : ∀ (fuel : Nat) (s : DispatchSchedule) (u : Bool)
    (r : DispatchSchedule) (b : Bool),
    UpdateScheduledDispatchToDate_forward now fuel s u = .ok (r, b) →
    now < r.scheduled_dispatch_start_tick + r.scheduled_dispatch_duration ∧
    (s.scheduled_dispatch_start_tick ≤ now → r.scheduled_dispatch_start_tick ≤ now) := by
  intro fuel
  induction fuel with
  | zero =>
    intro s u r b h
    simp only [UpdateScheduledDispatchToDate_forward,
      DispatchSchedule.GetScheduledDispatchStartTick,
      DispatchSchedule.GetScheduledDispatchDuration] at h
    split_ifs at h with hc
    cases h
    exact ⟨by omega, fun h => h⟩
  | succ fuel ih =>
    intro s u r b h
    simp only [UpdateScheduledDispatchToDate_forward,
      DispatchSchedule.GetScheduledDispatchStartTick,
      DispatchSchedule.GetScheduledDispatchDuration] at h
    split_ifs at h with hc
    · obtain ⟨h1, h2⟩ := ih _ _ _ _ h
      refine ⟨h1, fun _ => h2 ?_⟩
      simp only [forward_step, DispatchSchedule.GetScheduledDispatchStartTick,
        DispatchSchedule.GetScheduledDispatchDuration]
      exact hc
    · cases h
      exact ⟨by omega, fun h => h⟩

/-- Whatever the normaliser returns has `now` inside its window. -/
theorem update_exit {cfg : GameTimeSettings} {fuel : Nat} {s r : DispatchSchedule}
    {now : Int} {b : Bool}
    (h : UpdateScheduledDispatchToDate cfg fuel s now = .ok (r, b)) :
    r.scheduled_dispatch_start_tick ≤ now ∧
    now < r.scheduled_dispatch_start_tick + r.scheduled_dispatch_duration := by
  unfold UpdateScheduledDispatchToDate at h
  cases hinit : UpdateScheduledDispatchToDate_init cfg s now with
  | error e => rw [hinit] at h; cases h
  | ok s1 =>
    rw [hinit] at h
    dsimp only at h
    cases hb : UpdateScheduledDispatchToDate_backward now fuel s1 false with
    | error e => rw [hb] at h; cases h
    | ok q =>
      obtain ⟨s2, u⟩ := q
      rw [hb] at h
      dsimp only at h
      obtain ⟨h1, h2⟩ := forward_exit now fuel s2 u r b h
      exact ⟨h2 (backward_exit now fuel s1 false s2 u hb), h1⟩

/-- The first-run block overwrites the last-dispatch counter without reading
it. -/
theorem init_ignores_last (cfg : GameTimeSettings) (s : DispatchSchedule) (now : Int)
    (h0 : s.scheduled_dispatch_start_tick = 0) :
    UpdateScheduledDispatchToDate_init cfg s now
      = UpdateScheduledDispatchToDate_init cfg
          { s with scheduled_dispatch_last_dispatch := 0 } now := by
  unfold UpdateScheduledDispatchToDate_init
  simp only [DispatchSchedule.GetScheduledDispatchStartTick,
    DispatchSchedule.GetScheduledDispatchDuration, h0, if_true]

/-- C12 as stated fails: on an uninitialised schedule (start tick 0) with
slots `[10]`, adding the new offset 30 at `now = 250` also runs the
normaliser, which moves the start tick to 200 and the last-dispatch counter
to -200. -/
theorem add_normalises_when_initialised_counterexample :
    (DispatchSchedule.mk [10] 100 0 0 0).GetScheduledDispatchStartTick = 0 ∧
    30 ∉ (DispatchSchedule.mk [10] 100 0 0 0).scheduled_dispatch ∧
    AddScheduledDispatch (GameTimeSettings.mk false 74) 0 250
        (DispatchSchedule.mk [10] 100 0 0 0) 30
      = .ok (DispatchSchedule.mk [10, 30] 100 200 (-200) 0) ∧
    (DispatchSchedule.mk [10, 30] 100 200 (-200) 0).GetScheduledDispatchStartTick
      ≠ (DispatchSchedule.mk [10] 100 0 0 0).GetScheduledDispatchStartTick ∧
    (DispatchSchedule.mk [10, 30] 100 200 (-200) 0).scheduled_dispatch_last_dispatch
      ≠ (DispatchSchedule.mk [10] 100 0 0 0).scheduled_dispatch_last_dispatch := by
  refine ⟨rfl, by decide, rfl, by decide, by decide⟩

/-- C12, amended: `AddScheduledDispatch` runs the normaliser after inserting
every offset not yet present, whether or not the schedule was initialised: the
call is `UpdateScheduledDispatch` on the schedule with the offset inserted, so
with a positive duration the window contains the clock afterwards and only the
duration and the maximum delay are always kept; a returning call on an
uninitialised schedule keeps start tick and last-dispatch counter exactly when
the counter is 0 and the clock lies in `[0, duration)`, and in that case the
call returns for every fuel and changes the slot list only. -/
theorem add_normalises_when_initialised (cfg : GameTimeSettings) (t : Int)
    (s : DispatchSchedule) (x : Nat) (hs : StrictAsc s.scheduled_dispatch)
    (hx : x ∉ s.scheduled_dispatch) :
    (∀ fuel, AddScheduledDispatch cfg fuel t s x
      = UpdateScheduledDispatch cfg fuel t
          { s with scheduled_dispatch :=
              vector_insert s.scheduled_dispatch (lower_bound s.scheduled_dispatch x) x }) ∧
    (0 < s.scheduled_dispatch_duration → 0 < cfg.ticks_per_minute →
      ∃ r, Returns (fun fuel => AddScheduledDispatch cfg fuel t s x) r ∧
        r.GetScheduledDispatchStartTick ≤ t ∧
        t < r.GetScheduledDispatchStartTick + r.GetScheduledDispatchDuration ∧
        r.scheduled_dispatch_duration = s.scheduled_dispatch_duration ∧
        r.scheduled_dispatch_max_delay = s.scheduled_dispatch_max_delay) ∧
    (s.GetScheduledDispatchStartTick = 0 → s.scheduled_dispatch_last_dispatch = 0 →
      0 ≤ t → t < s.GetScheduledDispatchDuration →
      ∀ fuel, AddScheduledDispatch cfg fuel t s x
        = .ok { s with scheduled_dispatch :=
            vector_insert s.scheduled_dispatch (lower_bound s.scheduled_dispatch x) x }) ∧
    (s.GetScheduledDispatchStartTick = 0 →
      ∀ fuel r, AddScheduledDispatch cfg fuel t s x = .ok r →
        ((r.GetScheduledDispatchStartTick = s.GetScheduledDispatchStartTick ∧
            r.scheduled_dispatch_last_dispatch = s.scheduled_dispatch_last_dispatch) ↔
          (s.scheduled_dispatch_last_dispatch = 0 ∧ 0 ≤ t ∧
            t < s.GetScheduledDispatchDuration))) := by
  have hmiss := lower_bound_miss_of_not_mem hs hx
  have hadd : ∀ fuel, AddScheduledDispatch cfg fuel t s x
      = UpdateScheduledDispatch cfg fuel t
          { s with scheduled_dispatch :=
              vector_insert s.scheduled_dispatch (lower_bound s.scheduled_dispatch x) x } := by
    intro fuel
    unfold AddScheduledDispatch
    simp only [if_neg hmiss]
  have hkeep : s.GetScheduledDispatchStartTick = 0 → s.scheduled_dispatch_last_dispatch = 0 →
      0 ≤ t → t < s.GetScheduledDispatchDuration →
      ∀ fuel, AddScheduledDispatch cfg fuel t s x
        = .ok { s with scheduled_dispatch :=
            vector_insert s.scheduled_dispatch (lower_bound s.scheduled_dispatch x) x } := by
    intro h0 hl hlo hhi fuel
    simp only [DispatchSchedule.GetScheduledDispatchStartTick,
      DispatchSchedule.GetScheduledDispatchDuration] at h0 hhi
    have hd : 0 < s.scheduled_dispatch_duration := by omega
    rw [hadd fuel]
    unfold UpdateScheduledDispatch
    have h := update_noop cfg
      { s with scheduled_dispatch :=
          vector_insert s.scheduled_dispatch (lower_bound s.scheduled_dispatch x) x } t hd
      (by simp only [h0]; exact hlo) (by simp only [h0]; omega) (Or.inr hl) fuel
    rw [h]
  refine ⟨hadd, fun hd ht => ?_, hkeep, fun h0 fuel r hret => ⟨fun hsame => ?_, fun hc => ?_⟩⟩
  · obtain ⟨r, b, ⟨n, hn⟩, hdur, _, hdelay, hlo, hhi⟩ := update_returns cfg
      { s with scheduled_dispatch :=
          vector_insert s.scheduled_dispatch (lower_bound s.scheduled_dispatch x) x } t hd ht
    refine ⟨r, ⟨n, fun fuel hf => ?_⟩, hlo, hhi, hdur, hdelay⟩
    show AddScheduledDispatch cfg fuel t s x = _
    rw [hadd fuel]
    unfold UpdateScheduledDispatch
    have h := hn fuel hf
    dsimp only at h
    rw [h]
  · -- necessity: the result has the clock in its window, and the first-run
    -- block has stored the counter 0
    rw [hadd fuel] at hret
    unfold UpdateScheduledDispatch at hret
    cases hu : UpdateScheduledDispatchToDate cfg fuel
        { s with scheduled_dispatch :=
            vector_insert s.scheduled_dispatch (lower_bound s.scheduled_dispatch x) x } t with
    | error e => rw [hu] at hret; cases hret
    | ok q =>
      obtain ⟨r2, b⟩ := q
      rw [hu] at hret
      cases hret
      obtain ⟨hlo, hhi⟩ := update_exit hu
      have hdur : r.scheduled_dispatch_duration = s.scheduled_dispatch_duration :=
        (update_frame hu).2.1
      simp only [DispatchSchedule.GetScheduledDispatchStartTick,
        DispatchSchedule.GetScheduledDispatchDuration] at h0 hsame ⊢
      rw [hsame.1, h0] at hlo hhi
      rw [hdur] at hhi
      have hd : 0 < s.scheduled_dispatch_duration := by omega
      refine ⟨?_, hlo, by omega⟩
      have hu2 : UpdateScheduledDispatchToDate cfg fuel
          { s with
            scheduled_dispatch :=
              vector_insert s.scheduled_dispatch (lower_bound s.scheduled_dispatch x) x
            scheduled_dispatch_last_dispatch := 0 } t = .ok (r, b) := by
        rw [← hu]
        unfold UpdateScheduledDispatchToDate
        rw [init_ignores_last cfg
          { s with scheduled_dispatch :=
              vector_insert s.scheduled_dispatch (lower_bound s.scheduled_dispatch x) x } t h0]
      have hnoop := update_noop cfg
        { s with
          scheduled_dispatch :=
            vector_insert s.scheduled_dispatch (lower_bound s.scheduled_dispatch x) x
          scheduled_dispatch_last_dispatch := 0 } t hd
        (by simp only [h0]; exact hlo) (by simp only [h0]; omega) (Or.inr rfl) fuel
      rw [hnoop] at hu2
      cases hu2
      exact hsame.2.symm
  · rw [hkeep h0 hc.1 hc.2.1 hc.2.2 fuel] at hret
    cases hret
    exact ⟨rfl, rfl⟩

/-- Witness of C12: adding 30 to the initialised schedule `[10]`. -/
theorem add_normalises_when_initialised_witness :
    StrictAsc (DispatchSchedule.mk [10] 100 200 (-200) 0).scheduled_dispatch ∧
    30 ∉ (DispatchSchedule.mk [10] 100 200 (-200) 0).scheduled_dispatch ∧
    ∀ fuel, AddScheduledDispatch (GameTimeSettings.mk false 74) fuel 459
        (DispatchSchedule.mk [10] 100 200 (-200) 0) 30
      = UpdateScheduledDispatch (GameTimeSettings.mk false 74) fuel 459
          (DispatchSchedule.mk
            (vector_insert (DispatchSchedule.mk [10] 100 200 (-200) 0).scheduled_dispatch
              (lower_bound (DispatchSchedule.mk [10] 100 200 (-200) 0).scheduled_dispatch 30) 30)
            100 200 (-200) 0) :=
  ⟨by decide, by decide,
    (add_normalises_when_initialised (GameTimeSettings.mk false 74) 459
      (DispatchSchedule.mk [10] 100 200 (-200) 0) 30 (by decide) (by decide)).1⟩

/-- The rounded-up quotient covers the dividend with less than one step to spare. -/
theorem CeilDivT_bounds (a b : Int) (ha : 0 < a) (hb : 0 < b) :
    (CeilDivT a b - 1) * b < a ∧ a ≤ CeilDivT a b * b := by
  unfold CeilDivT
  rw [Int.tdiv_eq_ediv (by omega) (le_of_lt hb)]
  have h1 := Int.ediv_add_emod (a + b - 1) b
  have h2 := Int.emod_nonneg (a + b - 1) (ne_of_gt hb)
  have h3 := Int.emod_lt_of_pos (a + b - 1) hb
  constructor <;> nlinarith

theorem isInt32_of_window {v day : Int} (h1 : INT32_MIN ≤ v) (h2 : v < INT32_MIN + day)
    (h3 : day ≤ 4294967296) : IsInt32 v := by
  unfold INT32_MIN at h1 h2
  unfold IsInt32 INT32_MIN INT32_MAX
  omega

/-- The first-run block on the sentinel, spelled out. -/
theorem init_eval (cfg : GameTimeSettings) (s : DispatchSchedule) (now : Int)
    (h0 : s.scheduled_dispatch_start_tick = 0) (hd : 0 < s.scheduled_dispatch_duration) :
    UpdateScheduledDispatchToDate_init cfg s now =
      if -(now - Int.tmod now s.scheduled_dispatch_duration) < INT32_MIN ∧
          cfg.time_in_minutes = true then
        if (24 : Int) * 60 * cfg.ticks_per_minute = 0 then .error .divByZero
        else
          .ok { s with
            scheduled_dispatch_start_tick := now - Int.tmod now s.scheduled_dispatch_duration
            scheduled_dispatch_last_dispatch :=
              wrapI32 (-(now - Int.tmod now s.scheduled_dispatch_duration)
                + CeilDivT (INT32_MIN - -(now - Int.tmod now s.scheduled_dispatch_duration))
                    (24 * 60 * cfg.ticks_per_minute) * (24 * 60 * cfg.ticks_per_minute)) }
      else
        .ok { s with
          scheduled_dispatch_start_tick := now - Int.tmod now s.scheduled_dispatch_duration
          scheduled_dispatch_last_dispatch :=
            ClampToI32 (-(now - Int.tmod now s.scheduled_dispatch_duration)) } := by
  have hd0 : ¬ s.scheduled_dispatch_duration = 0 := Nat.pos_iff_ne_zero.mp hd
  unfold UpdateScheduledDispatchToDate_init
  simp only [DispatchSchedule.GetScheduledDispatchStartTick,
    DispatchSchedule.GetScheduledDispatchDuration, h0, if_true, if_neg hd0]

/-- For `now >= 0` the first-run block leaves a window that contains `now`, so
neither loop runs and the call returns `false`. -/
theorem update_of_init_nonneg {cfg : GameTimeSettings} {s s1 : DispatchSchedule} {now : Int}
    (hd : 0 < s.scheduled_dispatch_duration)
    (hinit : UpdateScheduledDispatchToDate_init cfg s now = .ok s1)
    (hdur : s1.scheduled_dispatch_duration = s.scheduled_dispatch_duration)
    (hstart : s1.scheduled_dispatch_start_tick
      = now - now % (s.scheduled_dispatch_duration : Int)) (fuel : Nat) :
    UpdateScheduledDispatchToDate cfg fuel s now = .ok (s1, false) := by
  have hdpos : (0 : Int) < s.scheduled_dispatch_duration := by exact_mod_cast hd
  have h1 := Int.emod_nonneg now (ne_of_gt hdpos)
  have h2 := Int.emod_lt_of_pos now hdpos
  rw [update_of_init hinit fuel, backward_stops now fuel s1 false (by rw [hstart]; omega)]
  exact forward_stops now fuel s1 false (by rw [hstart, hdur]; omega)

/-- C13, initial last-dispatch bridging: for an uninitialised schedule with a
positive duration and `now >= 0`, with `start = now - (now mod duration)`,
normalisation stores `-start` clamped to 32 bits when `-start >= INT32_MIN` or
the clock is not in time-in-minutes mode; otherwise, with
`day = 24 * 60 * ticks_per_minute > 0`, it stores the smallest `v >= INT32_MIN`
congruent to `-start` modulo `day`, and `v` fits in 32 bits. -/
theorem initial_last_dispatch_bridging (cfg : GameTimeSettings) (s : DispatchSchedule)
    (now : Int) (h0 : s.GetScheduledDispatchStartTick = 0)
    (hd : 0 < s.GetScheduledDispatchDuration) (hnow : 0 ≤ now)
    (hday32 : (24 : Int) * 60 * cfg.ticks_per_minute ≤ 4294967296) :
    (¬ (-(now - now % (s.GetScheduledDispatchDuration : Int)) < INT32_MIN ∧
          cfg.time_in_minutes = true) →
      ∀ fuel, UpdateScheduledDispatchToDate cfg fuel s now
        = .ok ({ s with
            scheduled_dispatch_start_tick := now - now % (s.GetScheduledDispatchDuration : Int)
            scheduled_dispatch_last_dispatch :=
              ClampToI32 (-(now - now % (s.GetScheduledDispatchDuration : Int))) }, false)) ∧
    (-(now - now % (s.GetScheduledDispatchDuration : Int)) < INT32_MIN →
      cfg.time_in_minutes = true → 0 < cfg.ticks_per_minute →
      ∃ v : Int,
        (∀ fuel, UpdateScheduledDispatchToDate cfg fuel s now
          = .ok ({ s with
              scheduled_dispatch_start_tick :=
                now - now % (s.GetScheduledDispatchDuration : Int)
              scheduled_dispatch_last_dispatch := v }, false)) ∧
        INT32_MIN ≤ v ∧
        ((24 : Int) * 60 * cfg.ticks_per_minute)
          ∣ (v - -(now - now % (s.GetScheduledDispatchDuration : Int))) ∧
        (∀ w : Int, INT32_MIN ≤ w →
          ((24 : Int) * 60 * cfg.ticks_per_minute)
            ∣ (w - -(now - now % (s.GetScheduledDispatchDuration : Int))) → v ≤ w) ∧
        IsInt32 v) := by
  simp only [DispatchSchedule.GetScheduledDispatchStartTick,
    DispatchSchedule.GetScheduledDispatchDuration] at h0 hd ⊢
  have hmod := tmod_nonneg_eq now s.scheduled_dispatch_duration hnow
  have hev := init_eval cfg s now h0 hd
  rw [hmod] at hev
  constructor
  · intro hbr fuel
    rw [if_neg hbr] at hev
    exact update_of_init_nonneg hd hev rfl rfl fuel
  · intro hlt htim ht
    have hdaypos : (0 : Int) < 24 * 60 * cfg.ticks_per_minute := by
      have : (0 : Int) < cfg.ticks_per_minute := by exact_mod_cast ht
      omega
    rw [if_pos ⟨hlt, htim⟩, if_neg (ne_of_gt hdaypos)] at hev
    generalize hld : -(now - now % (s.scheduled_dispatch_duration : Int)) = ld at hev hlt ⊢
    generalize hdayeq : (24 : Int) * 60 * cfg.ticks_per_minute = day at hev hdaypos hday32 ⊢
    obtain ⟨hb1, hb2⟩ := CeilDivT_bounds (INT32_MIN - ld) day (by omega) hdaypos
    have hv1 : INT32_MIN ≤ ld + CeilDivT (INT32_MIN - ld) day * day := by linarith
    have hv2 : ld + CeilDivT (INT32_MIN - ld) day * day < INT32_MIN + day := by linarith
    have hfit : IsInt32 (ld + CeilDivT (INT32_MIN - ld) day * day) :=
      isInt32_of_window hv1 hv2 hday32
    rw [wrapI32_of_isInt32 hfit] at hev
    refine ⟨ld + CeilDivT (INT32_MIN - ld) day * day, fun fuel => ?_, hv1, ?_, ?_, hfit⟩
    · exact update_of_init_nonneg hd hev rfl rfl fuel
    · exact ⟨CeilDivT (INT32_MIN - ld) day, by ring⟩
    · intro w hw hdiv
      obtain ⟨m, hm⟩ := hdiv
      have hwm : w = ld + day * m := by linarith
      have h1 : (CeilDivT (INT32_MIN - ld) day - 1) * day < m * day := by nlinarith
      have h2 : CeilDivT (INT32_MIN - ld) day - 1 < m :=
        lt_of_mul_lt_mul_right h1 (le_of_lt hdaypos)
      have h3 : CeilDivT (INT32_MIN - ld) day ≤ m := by omega
      have h4 : CeilDivT (INT32_MIN - ld) day * day ≤ m * day :=
        mul_le_mul_of_nonneg_right h3 (le_of_lt hdaypos)
      rw [hwm]
      linarith

/-- Witness of C13: at 74 ticks per minute and `now = 3000000000` the stored
counter is `-3000000000` advanced by 8001 days of 106560 ticks, `-2147413440`. -/
theorem initial_last_dispatch_bridging_witness :
    (DispatchSchedule.mk [] 100 0 0 0).GetScheduledDispatchStartTick = 0 ∧
    0 < (DispatchSchedule.mk [] 100 0 0 0).GetScheduledDispatchDuration ∧
    (0 : Int) ≤ 3000000000 ∧
    (24 : Int) * 60 * (GameTimeSettings.mk true 74).ticks_per_minute ≤ 4294967296 ∧
    UpdateScheduledDispatchToDate (GameTimeSettings.mk true 74) 0
        (DispatchSchedule.mk [] 100 0 0 0) 3000000000
      = .ok (DispatchSchedule.mk [] 100 3000000000 (-2147413440) 0, false) ∧
    (¬ (-((3000000000 : Int) - 3000000000
          % ((DispatchSchedule.mk [] 100 0 0 0).GetScheduledDispatchDuration : Int)) < INT32_MIN ∧
          (GameTimeSettings.mk false 74).time_in_minutes = true) →
      ∀ fuel, UpdateScheduledDispatchToDate (GameTimeSettings.mk false 74) fuel
          (DispatchSchedule.mk [] 100 0 0 0) 3000000000
        = .ok ({ (DispatchSchedule.mk [] 100 0 0 0) with
            scheduled_dispatch_start_tick := 3000000000 - 3000000000
              % ((DispatchSchedule.mk [] 100 0 0 0).GetScheduledDispatchDuration : Int)
            scheduled_dispatch_last_dispatch :=
              ClampToI32 (-((3000000000 : Int) - 3000000000
                % ((DispatchSchedule.mk [] 100 0 0 0).GetScheduledDispatchDuration : Int))) },
          false)) :=
  ⟨rfl, by decide, by decide, by decide, by rfl,
    (initial_last_dispatch_bridging (GameTimeSettings.mk false 74)
      (DispatchSchedule.mk [] 100 0 0 0) 3000000000 rfl (by decide) (by decide)
      (by decide)).1⟩

/-! ## Bulk replacement of the slot list -/

theorem is_sorted_cons_cons (a b : Nat) (rest : List Nat) :
    is_sorted (a :: b :: rest) = true ↔ a ≤ b ∧ is_sorted (b :: rest) = true := by
  simp only [is_sorted]
  split_ifs with h
  · simp only [Bool.false_eq_true, false_iff, not_and]
    intro h2
    omega
  · constructor
    · intro h2
      exact ⟨by omega, h2⟩
    · exact fun h2 => h2.2

/-- What `std::is_sorted` accepts: the lists in which no element is smaller
than an earlier one. -/
theorem is_sorted_iff_pairwise (l : List Nat) :
    is_sorted l = true ↔ l.Pairwise (fun a b => a ≤ b) := by
  induction l with
  | nil => simp [is_sorted]
  | cons a rest ih =>
    cases rest with
    | nil => simp [is_sorted]
    | cons b rest2 =>
      rw [is_sorted_cons_cons, ih, List.pairwise_cons, List.pairwise_cons, List.pairwise_cons]
      constructor
      · rintro ⟨hab, hb, hrest⟩
        refine ⟨?_, hb, hrest⟩
        intro x hx
        rcases List.mem_cons.mp hx with rfl | hx
        · exact hab
        · exact le_trans hab (hb x hx)
      · rintro ⟨ha, hb, hrest⟩
        exact ⟨ha b (List.mem_cons_self _ _), hb, hrest⟩

theorem strictAsc_iff_sorted_nodup (l : List Nat) :
    StrictAsc l ↔ l.Pairwise (fun a b => a ≤ b) ∧ l.Nodup := by
  unfold StrictAsc List.Nodup
  constructor
  · intro h
    exact ⟨h.imp (fun hab => le_of_lt hab), h.imp (fun hab => ne_of_lt hab)⟩
  · rintro ⟨h1, h2⟩
    exact (h1.and h2).imp (fun hab => lt_of_le_of_ne hab.1 hab.2)

/-- C17 as stated fails: `std::is_sorted` accepts the list `[10, 10]`, and
`SetScheduledDispatch` stores it with the duplicate. -/
theorem set_keeps_slot_invariant_counterexample :
    is_sorted [10, 10] = true ∧
    SetScheduledDispatch (fun s => decide (s.scheduled_dispatch_duration ≠ 0))
        (GameTimeSettings.mk false 74) 0 250 (DispatchSchedule.mk [5] 100 200 (-200) 0)
        [10, 10]
      = .ok (DispatchSchedule.mk [10, 10] 100 200 (-200) 0) ∧
    ¬ StrictAsc (DispatchSchedule.mk [10, 10] 100 200 (-200) 0).scheduled_dispatch := by
  refine ⟨rfl, rfl, by decide⟩

/-- C17, amended: for every list on which the sortedness assertion of
`SetScheduledDispatch` passes, the slot list afterwards is the passed list,
which is ascending (no element smaller than an earlier one) and may hold equal
neighbours; it is strictly ascending exactly when the passed list has no
duplicate value. -/
theorem set_keeps_slot_invariant (IsScheduledDispatchValid : DispatchSchedule → Bool)
    (cfg : GameTimeSettings) (t : Int) (s : DispatchSchedule) (l : List Nat)
    (hsorted : is_sorted l = true) :
    (∀ fuel r, SetScheduledDispatch IsScheduledDispatchValid cfg fuel t s l = .ok r →
      r.scheduled_dispatch = l ∧
      r.scheduled_dispatch.Pairwise (fun a b => a ≤ b) ∧
      (StrictAsc r.scheduled_dispatch ↔ l.Nodup)) ∧
    (0 < s.scheduled_dispatch_duration → 0 < cfg.ticks_per_minute →
      ∃ r, Returns (fun fuel => SetScheduledDispatch IsScheduledDispatchValid cfg fuel t s l) r) := by
  have hpw := (is_sorted_iff_pairwise l).mp hsorted
  have hne : ¬ (is_sorted l = false) := by simp [hsorted]
  constructor
  · intro fuel r h
    have hr : r.scheduled_dispatch = l := by
      unfold SetScheduledDispatch at h
      simp only [if_neg hne] at h
      split_ifs at h
      · exact (update_dispatch_frame h).1
      · cases h
        rfl
    refine ⟨hr, by rw [hr]; exact hpw, ?_⟩
    rw [hr, strictAsc_iff_sorted_nodup]
    exact ⟨fun h2 => h2.2, fun h2 => ⟨hpw, h2⟩⟩
  · intro hd ht
    by_cases hv : IsScheduledDispatchValid { s with scheduled_dispatch := l } = true
    · obtain ⟨r, n, hn⟩ := update_dispatch_returns cfg { s with scheduled_dispatch := l } t hd ht
      refine ⟨r, n, fun fuel hf => ?_⟩
      show SetScheduledDispatch IsScheduledDispatchValid cfg fuel t s l = _
      unfold SetScheduledDispatch
      simp only [if_neg hne, if_pos hv]
      exact hn fuel hf
    · refine ⟨{ s with scheduled_dispatch := l }, 0, fun fuel _ => ?_⟩
      show SetScheduledDispatch IsScheduledDispatchValid cfg fuel t s l = _
      unfold SetScheduledDispatch
      simp only [if_neg hne, if_neg hv]

/-- Witness of C17: storing `[10, 20, 30]`. -/
theorem set_keeps_slot_invariant_witness :
    is_sorted [10, 20, 30] = true ∧
    ∀ fuel r, SetScheduledDispatch (fun s => decide (s.scheduled_dispatch_duration ≠ 0))
        (GameTimeSettings.mk false 74) fuel 250 (DispatchSchedule.mk [5] 100 200 (-200) 0)
        [10, 20, 30] = .ok r →
      r.scheduled_dispatch = [10, 20, 30] ∧
      r.scheduled_dispatch.Pairwise (fun a b => a ≤ b) ∧
      (StrictAsc r.scheduled_dispatch ↔ [10, 20, 30].Nodup) :=
  ⟨rfl,
    (set_keeps_slot_invariant (fun s => decide (s.scheduled_dispatch_duration ≠ 0))
      (GameTimeSettings.mk false 74) 250 (DispatchSchedule.mk [5] 100 200 (-200) 0)
      [10, 20, 30] rfl).1⟩

/-! ## Commands change the game state only when committed and successful -/

theorem succeeded_not_failed : CommandCost.Succeeded.Failed = false := rfl

theorem CmdScheduledDispatch_frame (w : World) (flags p1 p2 : Nat) (cost : CommandCost)
    (w2 : World) (h : CmdScheduledDispatch w flags p1 p2 = (cost, w2))
    (hc : flags &&& DC_EXEC = 0 ∨ cost.Failed = true) : w2 = w := by
  unfold CmdScheduledDispatch at h
  dsimp only at h
  repeat' split at h
  all_goals cases h
  all_goals first
    | rfl
    | (simp only [succeeded_not_failed, Bool.false_eq_true, or_false] at hc
       exact absurd hc (by assumption))

theorem CmdScheduledDispatchRemove_frame (w : World) (flags p1 p2 : Nat) (cost : CommandCost)
    (w2 : World) (h : CmdScheduledDispatchRemove w flags p1 p2 = (cost, w2))
    (hc : flags &&& DC_EXEC = 0 ∨ cost.Failed = true) : w2 = w := by
  unfold CmdScheduledDispatchRemove at h
  dsimp only at h
  repeat' split at h
  all_goals cases h
  all_goals first
    | rfl
    | (simp only [succeeded_not_failed, Bool.false_eq_true, or_false] at hc
       exact absurd hc (by assumption))

theorem CmdScheduledDispatchSetDelay_frame (w : World) (flags p1 p2 : Nat) (cost : CommandCost)
    (w2 : World) (h : CmdScheduledDispatchSetDelay w flags p1 p2 = (cost, w2))
    (hc : flags &&& DC_EXEC = 0 ∨ cost.Failed = true) : w2 = w := by
  unfold CmdScheduledDispatchSetDelay at h
  dsimp only at h
  repeat' split at h
  all_goals cases h
  all_goals first
    | rfl
    | (simp only [succeeded_not_failed, Bool.false_eq_true, or_false] at hc
       exact absurd hc (by assumption))

theorem CmdScheduledDispatchResetLastDispatch_frame (w : World) (flags p1 : Nat) (cost : CommandCost)
    (w2 : World) (h : CmdScheduledDispatchResetLastDispatch w flags p1 = (cost, w2))
    (hc : flags &&& DC_EXEC = 0 ∨ cost.Failed = true) : w2 = w := by
  unfold CmdScheduledDispatchResetLastDispatch at h
  dsimp only at h
  repeat' split at h
  all_goals cases h
  all_goals first
    | rfl
    | (simp only [succeeded_not_failed, Bool.false_eq_true, or_false] at hc
       exact absurd hc (by assumption))

theorem CmdScheduledDispatchClear_frame (w : World) (flags p1 : Nat) (cost : CommandCost)
    (w2 : World) (h : CmdScheduledDispatchClear w flags p1 = (cost, w2))
    (hc : flags &&& DC_EXEC = 0 ∨ cost.Failed = true) : w2 = w := by
  unfold CmdScheduledDispatchClear at h
  dsimp only at h
  repeat' split at h
  all_goals cases h
  all_goals first
    | rfl
    | (simp only [succeeded_not_failed, Bool.false_eq_true, or_false] at hc
       exact absurd hc (by assumption))

theorem CmdScheduledDispatchRemoveSchedule_frame (w : World) (flags p1 : Nat) (cost : CommandCost)
    (w2 : World) (h : CmdScheduledDispatchRemoveSchedule w flags p1 = (cost, w2))
    (hc : flags &&& DC_EXEC = 0 ∨ cost.Failed = true) : w2 = w := by
  unfold CmdScheduledDispatchRemoveSchedule at h
  dsimp only at h
  repeat' split at h
  all_goals cases h
  all_goals first
    | rfl
    | (simp only [succeeded_not_failed, Bool.false_eq_true, or_false] at hc
       exact absurd hc (by assumption))

theorem CmdScheduledDispatchAdd_frame (w : World) (fuel : Nat) (flags p1 p2 p3 : Nat)
    (cost : CommandCost) (w2 : World)
    (h : CmdScheduledDispatchAdd w fuel flags p1 p2 p3 = .ok (cost, w2))
    (hc : flags &&& DC_EXEC = 0 ∨ cost.Failed = true) : w2 = w := by
  unfold CmdScheduledDispatchAdd at h
  dsimp only at h
  repeat' split at h
  all_goals cases h
  all_goals first
    | rfl
    | (simp only [succeeded_not_failed, Bool.false_eq_true, or_false] at hc
       exact absurd hc (by assumption))

theorem CmdScheduledDispatchSetDuration_frame (w : World) (fuel : Nat) (flags p1 p2 : Nat)
    (cost : CommandCost) (w2 : World)
    (h : CmdScheduledDispatchSetDuration w fuel flags p1 p2 = .ok (cost, w2))
    (hc : flags &&& DC_EXEC = 0 ∨ cost.Failed = true) : w2 = w := by
  unfold CmdScheduledDispatchSetDuration at h
  dsimp only at h
  repeat' split at h
  all_goals cases h
  all_goals first
    | rfl
    | (simp only [succeeded_not_failed, Bool.false_eq_true, or_false] at hc
       exact absurd hc (by assumption))

theorem CmdScheduledDispatchSetStartDate_frame (toTick : Int → Nat → Int) (w : World) (fuel : Nat) (flags p1 p2 p3 : Nat)
    (cost : CommandCost) (w2 : World)
    (h : CmdScheduledDispatchSetStartDate toTick w fuel flags p1 p2 p3 = .ok (cost, w2))
    (hc : flags &&& DC_EXEC = 0 ∨ cost.Failed = true) : w2 = w := by
  unfold CmdScheduledDispatchSetStartDate at h
  dsimp only at h
  repeat' split at h
  all_goals cases h
  all_goals first
    | rfl
    | (simp only [succeeded_not_failed, Bool.false_eq_true, or_false] at hc
       exact absurd hc (by assumption))

theorem CmdScheduledDispatchAddNewSchedule_frame (toTick : Int → Nat → Int) (w : World) (fuel : Nat) (flags p1 p2 p3 : Nat)
    (cost : CommandCost) (w2 : World)
    (h : CmdScheduledDispatchAddNewSchedule toTick w fuel flags p1 p2 p3 = .ok (cost, w2))
    (hc : flags &&& DC_EXEC = 0 ∨ cost.Failed = true) : w2 = w := by
  unfold CmdScheduledDispatchAddNewSchedule at h
  dsimp only at h
  repeat' split at h
  all_goals cases h
  all_goals first
    | rfl
    | (simp only [succeeded_not_failed, Bool.false_eq_true, or_false] at hc
       exact absurd hc (by assumption))

theorem CmdScheduledDispatchAdd_test_returns (w : World) (fuel : Nat) (flags p1 p2 p3 : Nat)
    (hc : flags &&& DC_EXEC = 0) (e : Fault) :
    CmdScheduledDispatchAdd w fuel flags p1 p2 p3 ≠ .error e := by
  intro h
  unfold CmdScheduledDispatchAdd at h
  dsimp only at h
  repeat' split at h
  all_goals first
    | (cases h; done)
    | exact absurd hc (by assumption)

theorem CmdScheduledDispatchSetDuration_test_returns (w : World) (fuel : Nat) (flags p1 p2 : Nat)
    (hc : flags &&& DC_EXEC = 0) (e : Fault) :
    CmdScheduledDispatchSetDuration w fuel flags p1 p2 ≠ .error e := by
  intro h
  unfold CmdScheduledDispatchSetDuration at h
  dsimp only at h
  repeat' split at h
  all_goals first
    | (cases h; done)
    | exact absurd hc (by assumption)

theorem CmdScheduledDispatchSetStartDate_test_returns (toTick : Int → Nat → Int) (w : World) (fuel : Nat) (flags p1 p2 p3 : Nat)
    (hc : flags &&& DC_EXEC = 0) (e : Fault) :
    CmdScheduledDispatchSetStartDate toTick w fuel flags p1 p2 p3 ≠ .error e := by
  intro h
  unfold CmdScheduledDispatchSetStartDate at h
  dsimp only at h
  repeat' split at h
  all_goals first
    | (cases h; done)
    | exact absurd hc (by assumption)

theorem CmdScheduledDispatchAddNewSchedule_test_returns (toTick : Int → Nat → Int) (w : World) (fuel : Nat) (flags p1 p2 p3 : Nat)
    (hc : flags &&& DC_EXEC = 0) (e : Fault) :
    CmdScheduledDispatchAddNewSchedule toTick w fuel flags p1 p2 p3 ≠ .error e := by
  intro h
  unfold CmdScheduledDispatchAddNewSchedule at h
  dsimp only at h
  repeat' split at h
  all_goals first
    | (cases h; done)
    | exact absurd hc (by assumption)

/-- C14, mutation only on committed success: for each of the ten
scheduled-dispatch commands and every input, a call that returns without
`DC_EXEC` or with an error leaves the game state (vehicle flags, schedules,
schedule sets, orders) unchanged; without `DC_EXEC` the call always returns. -/
theorem mutation_only_on_committed_success (toTick : Int → Nat → Int) (w : World)
    (fuel : Nat) (c : SchdispatchCommand) (flags p1 p2 p3 : Nat) :
    (∀ cost w2, runCommand toTick w fuel c flags p1 p2 p3 = .ok (cost, w2) →
      (flags &&& DC_EXEC = 0 ∨ cost.Failed = true) → w2 = w) ∧
    (flags &&& DC_EXEC = 0 →
      ∃ cost, runCommand toTick w fuel c flags p1 p2 p3 = .ok (cost, w)) := by
  have key : ∀ cost w2, runCommand toTick w fuel c flags p1 p2 p3 = .ok (cost, w2) →
      (flags &&& DC_EXEC = 0 ∨ cost.Failed = true) → w2 = w := by
    intro cost w2 h hc
    cases c <;> simp only [runCommand, Except.ok.injEq] at h
    · exact CmdScheduledDispatch_frame w flags p1 p2 cost w2 h hc
    · exact CmdScheduledDispatchAdd_frame w fuel flags p1 p2 p3 cost w2 h hc
    · exact CmdScheduledDispatchRemove_frame w flags p1 p2 cost w2 h hc
    · exact CmdScheduledDispatchSetDuration_frame w fuel flags p1 p2 cost w2 h hc
    · exact CmdScheduledDispatchSetStartDate_frame toTick w fuel flags p1 p2 p3 cost w2 h hc
    · exact CmdScheduledDispatchSetDelay_frame w flags p1 p2 cost w2 h hc
    · exact CmdScheduledDispatchResetLastDispatch_frame w flags p1 cost w2 h hc
    · exact CmdScheduledDispatchClear_frame w flags p1 cost w2 h hc
    · exact CmdScheduledDispatchAddNewSchedule_frame toTick w fuel flags p1 p2 p3 cost w2 h hc
    · exact CmdScheduledDispatchRemoveSchedule_frame w flags p1 cost w2 h hc
  refine ⟨key, fun hc => ?_⟩
  cases hrun : runCommand toTick w fuel c flags p1 p2 p3 with
  | ok p =>
    obtain ⟨cost, w2⟩ := p
    have hw := key cost w2 hrun (Or.inl hc)
    subst hw
    exact ⟨cost, rfl⟩
  | error e =>
    exfalso
    cases c <;> simp only [runCommand] at hrun
    all_goals first
      | exact CmdScheduledDispatchAdd_test_returns w fuel flags p1 p2 p3 hc e hrun
      | exact CmdScheduledDispatchSetDuration_test_returns w fuel flags p1 p2 hc e hrun
      | exact CmdScheduledDispatchSetStartDate_test_returns toTick w fuel flags p1 p2 p3 hc e hrun
      | exact CmdScheduledDispatchAddNewSchedule_test_returns toTick w fuel flags p1 p2 p3 hc e
          hrun
      | cases hrun

/-- Witness of C14: a remove command that is only tested leaves the game state
alone. -/
theorem mutation_only_on_committed_success_witness :
    (0 &&& DC_EXEC = 0 →
      ∃ cost, runCommand (fun d f => d * 74 + f) (sampleWorld (DispatchSchedule.mk [10] 100 0 0 0))
          0 SchdispatchCommand.Remove 0 0 10 0
        = .ok (cost, sampleWorld (DispatchSchedule.mk [10] 100 0 0 0))) ∧
    runCommand (fun d f => d * 74 + f) (sampleWorld (DispatchSchedule.mk [10] 100 0 0 0))
        0 SchdispatchCommand.Remove DC_EXEC 0 10 0
      = .ok (CommandCost.Succeeded, sampleWorld (DispatchSchedule.mk [] 100 0 0 0)) :=
  ⟨(mutation_only_on_committed_success (fun d f => d * 74 + f)
      (sampleWorld (DispatchSchedule.mk [10] 100 0 0 0)) 0 SchdispatchCommand.Remove 0 0 10 0).2,
    rfl⟩

/-! ## Validation in the add command -/

theorem add_frame_duration {cfg : GameTimeSettings} {fuel : Nat} {t : Int}
    {s r : DispatchSchedule} {x : Nat} (h : AddScheduledDispatch cfg fuel t s x = .ok r) :
    r.scheduled_dispatch_duration = s.scheduled_dispatch_duration := by
  unfold AddScheduledDispatch at h
  dsimp only at h
  split_ifs at h
  · cases h
    rfl
  · exact (update_dispatch_frame h).2.1

theorem add_loop_returns (cfg : GameTimeSettings) (t : Int) (offset : Nat)
    (ht : 0 < cfg.ticks_per_minute) : ∀ (n p2 : Nat) (ds : DispatchSchedule),
    0 < ds.scheduled_dispatch_duration →
    ∃ r, Returns (fun fuel => CmdScheduledDispatchAdd_loop cfg fuel t offset n p2 ds) r := by
  intro n
  induction n with
  | zero =>
    intro p2 ds _
    exact ⟨ds, 0, fun fuel _ => rfl⟩
  | succ n ih =>
    intro p2 ds hd
    obtain ⟨ds1, n1, h1⟩ := add_returns cfg t ds ((p2 + offset) % 4294967296) hd ht
    have hd1 : 0 < ds1.scheduled_dispatch_duration := by
      rw [add_frame_duration (h1 n1 (le_refl _))]
      exact hd
    obtain ⟨r, n2, h2⟩ := ih ((p2 + offset) % 4294967296) ds1 hd1
    refine ⟨r, max n1 n2, fun fuel hf => ?_⟩
    show CmdScheduledDispatchAdd_loop cfg fuel t offset (n + 1) p2 ds = _
    simp only [CmdScheduledDispatchAdd_loop]
    have h := h1 fuel (le_trans (le_max_left _ _) hf)
    dsimp only at h
    rw [h]
    exact h2 fuel (le_trans (le_max_right _ _) hf)

theorem validation_failed_iff (p3 : Nat) :
    (CmdScheduledDispatchAdd_validation p3).Failed = true ↔
      (GB p3 32 16 > 512 ∨ (GB p3 32 16 > 0 ∧ GB p3 0 32 = 0)) := by
  unfold CmdScheduledDispatchAdd_validation
  split_ifs with h1 h2
  · simp [return_cmd_error, CommandCost.Failed, h1]
  · simp [CMD_ERROR, CommandCost.Failed, h2]
  · simp only [succeeded_not_failed, Bool.false_eq_true, false_iff, not_or]
    exact ⟨h1, h2⟩

/-- The add command after its vehicle, ownership, order list and schedule
index checks have passed. -/
theorem CmdScheduledDispatchAdd_checked (w : World) (v : Vehicle) (k : Nat) (ol : OrderList)
    (ds : DispatchSchedule) (fuel flags p1 p2 p3 : Nat)
    (hv : w.GetIfValid (GB p1 0 20) = some v) (hp : v.primary = true)
    (ho : v.owner = w.current_company) (hl : w.ordersList v = some (k, ol))
    (hs : ol.dispatch_schedules[GB p1 20 12]? = some ds) :
    CmdScheduledDispatchAdd w fuel flags p1 p2 p3 =
      if GB p3 32 16 > 512 then
        .ok (return_cmd_error .STR_ERROR_SCHDISPATCH_TRIED_TO_ADD_TOO_MANY_SLOTS, w)
      else if GB p3 32 16 > 0 ∧ GB p3 0 32 = 0 then .ok (CMD_ERROR, w)
      else if flags &&& DC_EXEC ≠ 0 then
        match AddScheduledDispatch w.game_time fuel w.scaled_date_ticks ds p2 with
        | .error e => .error e
        | .ok ds1 =>
          match CmdScheduledDispatchAdd_loop w.game_time fuel w.scaled_date_ticks (GB p3 0 32)
              (GB p3 32 16) p2 ds1 with
          | .error e => .error e
          | .ok ds2 => .ok (CommandCost.Succeeded, w.setSchedule k ol (GB p1 20 12) ds2)
      else .ok (CommandCost.Succeeded, w) := by
  have hown : (w.CheckOwnership v.owner).Failed = false := by
    simp [World.CheckOwnership, ho, succeeded_not_failed]
  unfold CmdScheduledDispatchAdd
  simp only [hv, hp, hown, hl, hs, Bool.true_eq_false, Bool.false_eq_true, if_false]

/-- C15, slot-count validation of `CmdScheduledDispatchAdd`: for a valid
primary vehicle owned by the caller, with an order list and a schedule index
below the schedule count, the command fails exactly when `extra_slots > 512`,
or `extra_slots > 0` and the step offset is 0; with `extra_slots > 512` the
error is the too-many-slots error; the cost does not depend on `DC_EXEC`. -/
theorem add_slot_count_validation (w : World) (v : Vehicle) (k : Nat) (ol : OrderList)
    (flags p1 p2 p3 : Nat)
    (hv : w.GetIfValid (GB p1 0 20) = some v) (hp : v.primary = true)
    (ho : v.owner = w.current_company) (hl : w.ordersList v = some (k, ol))
    (hs : GB p1 20 12 < ol.dispatch_schedules.length) :
    (∀ fuel cost w2, CmdScheduledDispatchAdd w fuel flags p1 p2 p3 = .ok (cost, w2) →
      cost = CmdScheduledDispatchAdd_validation p3) ∧
    ((CmdScheduledDispatchAdd_validation p3).Failed = true ↔
      (GB p3 32 16 > 512 ∨ (GB p3 32 16 > 0 ∧ GB p3 0 32 = 0))) ∧
    (GB p3 32 16 > 512 → CmdScheduledDispatchAdd_validation p3
      = return_cmd_error .STR_ERROR_SCHDISPATCH_TRIED_TO_ADD_TOO_MANY_SLOTS) ∧
    (((CmdScheduledDispatchAdd_validation p3).Failed = true ∨ flags &&& DC_EXEC = 0) →
      ∀ fuel, CmdScheduledDispatchAdd w fuel flags p1 p2 p3
        = .ok (CmdScheduledDispatchAdd_validation p3, w)) ∧
    ((0 < (ol.dispatch_schedules.getD (GB p1 20 12) DispatchSchedule.fresh).scheduled_dispatch_duration) →
      0 < w.game_time.ticks_per_minute →
      ∃ w2, Returns (fun fuel => CmdScheduledDispatchAdd w fuel flags p1 p2 p3)
        (CmdScheduledDispatchAdd_validation p3, w2)) := by
  obtain ⟨ds, hds⟩ : ∃ ds, ol.dispatch_schedules[GB p1 20 12]? = some ds :=
    ⟨_, List.getElem?_eq_getElem hs⟩
  have hchk := fun fuel =>
    CmdScheduledDispatchAdd_checked w v k ol ds fuel flags p1 p2 p3 hv hp ho hl hds
  have hquiet : ((CmdScheduledDispatchAdd_validation p3).Failed = true ∨ flags &&& DC_EXEC = 0) →
      ∀ fuel, CmdScheduledDispatchAdd w fuel flags p1 p2 p3
        = .ok (CmdScheduledDispatchAdd_validation p3, w) := by
    intro hc fuel
    rw [hchk fuel]
    rw [validation_failed_iff] at hc
    unfold CmdScheduledDispatchAdd_validation
    split_ifs with h1 h2 h3 <;> first
      | rfl
      | (exfalso; rcases hc with hc | hc
         · rcases hc with hc | hc
           · exact h1 hc
           · exact h2 hc
         · exact h3 hc)
  refine ⟨?_, validation_failed_iff p3, ?_, hquiet, ?_⟩
  · intro fuel cost w2 h
    rw [hchk fuel] at h
    unfold CmdScheduledDispatchAdd_validation
    split_ifs at h ⊢ with h1 h2 h3
    · cases h; rfl
    · cases h; rfl
    · split at h
      · cases h
      · split at h
        · cases h
        · cases h; rfl
    · cases h; rfl
  · intro h1
    unfold CmdScheduledDispatchAdd_validation
    rw [if_pos h1]
  · intro hd ht
    have hget : ol.dispatch_schedules.getD (GB p1 20 12) DispatchSchedule.fresh = ds := by
      rw [List.getD_eq_getElem?_getD, hds]
      rfl
    rw [hget] at hd
    by_cases hc : (CmdScheduledDispatchAdd_validation p3).Failed = true ∨ flags &&& DC_EXEC = 0
    · exact ⟨w, 0, fun fuel _ => hquiet hc fuel⟩
    · push_neg at hc
      obtain ⟨hnf, hexec⟩ := hc
      have hcond : ¬ (GB p3 32 16 > 512 ∨ (GB p3 32 16 > 0 ∧ GB p3 0 32 = 0)) :=
        fun h => hnf ((validation_failed_iff p3).mpr h)
      push_neg at hcond
      obtain ⟨ds1, n1, h1⟩ := add_returns w.game_time w.scaled_date_ticks ds p2 hd ht
      have hd1 : 0 < ds1.scheduled_dispatch_duration := by
        rw [add_frame_duration (h1 n1 (le_refl _))]
        exact hd
      obtain ⟨ds2, n2, h2⟩ := add_loop_returns w.game_time w.scaled_date_ticks (GB p3 0 32) ht
        (GB p3 32 16) p2 ds1 hd1
      refine ⟨w.setSchedule k ol (GB p1 20 12) ds2, max n1 n2, fun fuel hf => ?_⟩
      show CmdScheduledDispatchAdd w fuel flags p1 p2 p3 = _
      have e1 := h1 fuel (le_trans (le_max_left _ _) hf)
      have e2 := h2 fuel (le_trans (le_max_right _ _) hf)
      dsimp only at e1 e2
      rw [hchk fuel]
      unfold CmdScheduledDispatchAdd_validation
      rw [if_neg (by omega), if_neg (fun h => absurd h.2 (hcond.2 h.1)), if_pos hexec,
        if_neg (by omega), if_neg (fun h => absurd h.2 (hcond.2 h.1)), e1]
      dsimp only
      rw [e2]

/-- Witness of C15: 513 extra slots are refused with the too-many-slots error,
committed or not. -/
theorem add_slot_count_validation_witness :
    GB (513 * 4294967296 + 5) 32 16 > 512 ∧
    CmdScheduledDispatchAdd_validation (513 * 4294967296 + 5)
      = return_cmd_error .STR_ERROR_SCHDISPATCH_TRIED_TO_ADD_TOO_MANY_SLOTS ∧
    ∀ fuel, CmdScheduledDispatchAdd (sampleWorld (DispatchSchedule.mk [10] 100 200 (-200) 0))
        fuel DC_EXEC 0 10 (513 * 4294967296 + 5)
      = .ok (CmdScheduledDispatchAdd_validation (513 * 4294967296 + 5),
          sampleWorld (DispatchSchedule.mk [10] 100 200 (-200) 0)) :=
  ⟨by decide,
    (add_slot_count_validation (sampleWorld (DispatchSchedule.mk [10] 100 200 (-200) 0))
      { primary := true, owner := 1, VF_SCHEDULED_DISPATCH := false, orders_list := some 0 } 0
      { dispatch_schedules := [DispatchSchedule.mk [10] 100 200 (-200) 0],
        orders := [{ dispatch_schedule_index := 0 }] }
      DC_EXEC 0 10 (513 * 4294967296 + 5) rfl rfl rfl rfl (by decide)).2.2.1 (by decide),
    (add_slot_count_validation (sampleWorld (DispatchSchedule.mk [10] 100 200 (-200) 0))
      { primary := true, owner := 1, VF_SCHEDULED_DISPATCH := false, orders_list := some 0 } 0
      { dispatch_schedules := [DispatchSchedule.mk [10] 100 200 (-200) 0],
        orders := [{ dispatch_schedule_index := 0 }] }
      DC_EXEC 0 10 (513 * 4294967296 + 5) rfl rfl rfl rfl (by decide)).2.2.2.1
      (Or.inl (by decide))⟩

/-! ## A zero duration at the command boundary -/

/-- With duration 0 and a start tick that is not ahead of `now`, the second
loop never stops. -/
theorem forward_zero_duration_diverges (now : Int) : ∀ (fuel : Nat) (s : DispatchSchedule)
    (u : Bool), s.scheduled_dispatch_duration = 0 → s.scheduled_dispatch_start_tick ≤ now →
    UpdateScheduledDispatchToDate_forward now fuel s u = .error .outOfFuel := by
  intro fuel
  induction fuel with
  | zero =>
    intro s u hd hs
    have hle : s.GetScheduledDispatchStartTick + s.GetScheduledDispatchDuration ≤ now := by
      simp only [DispatchSchedule.GetScheduledDispatchStartTick,
        DispatchSchedule.GetScheduledDispatchDuration, hd]
      omega
    simp only [UpdateScheduledDispatchToDate_forward, if_pos hle]
  | succ fuel ih =>
    intro s u hd hs
    have hle : s.GetScheduledDispatchStartTick + s.GetScheduledDispatchDuration ≤ now := by
      simp only [DispatchSchedule.GetScheduledDispatchStartTick,
        DispatchSchedule.GetScheduledDispatchDuration, hd]
      omega
    simp only [UpdateScheduledDispatchToDate_forward, if_pos hle]
    apply ih
    · exact hd
    · simp only [forward_step, DispatchSchedule.GetScheduledDispatchStartTick,
        DispatchSchedule.GetScheduledDispatchDuration, hd]
      omega

/-- C16, the code at the failing input: a committed
`CmdScheduledDispatchSetDuration` or `CmdScheduledDispatchAddNewSchedule` with
`p2 = 0` is not rejected; it stores duration 0 and runs the normaliser, which
divides by zero on an uninitialised schedule and never leaves the second loop
on an initialised one; the test run of the same command reports success. -/
theorem zero_duration_reaches_normaliser :
    (∀ fuel, CmdScheduledDispatchSetDuration
        (sampleWorld (DispatchSchedule.mk [10] 100 0 0 0)) fuel DC_EXEC 0 0
      = .error .divByZero) ∧
    (∀ fuel, CmdScheduledDispatchAddNewSchedule (fun d f => d * 74 + f)
        (sampleWorld (DispatchSchedule.mk [10] 100 0 0 0)) fuel DC_EXEC 0 0 0
      = .error .divByZero) ∧
    (∀ fuel, CmdScheduledDispatchSetDuration
        (sampleWorld (DispatchSchedule.mk [10] 100 200 (-200) 0)) fuel DC_EXEC 0 0
      = .error .outOfFuel) ∧
    (∀ fuel, CmdScheduledDispatchSetDuration
        (sampleWorld (DispatchSchedule.mk [10] 100 0 0 0)) fuel 0 0 0
      = .ok (CommandCost.Succeeded, sampleWorld (DispatchSchedule.mk [10] 100 0 0 0))) := by
  refine ⟨fun fuel => rfl, fun fuel => rfl, fun fuel => ?_, fun fuel => rfl⟩
  have hb : UpdateScheduledDispatchToDate_backward 250 fuel
      (DispatchSchedule.mk [10] 0 200 (-200) 0) false
      = .ok (DispatchSchedule.mk [10] 0 200 (-200) 0, false) :=
    backward_stops 250 fuel _ false (by decide)
  have hf := forward_zero_duration_diverges 250 fuel
    (DispatchSchedule.mk [10] 0 200 (-200) 0) false rfl (by decide)
  have hu : UpdateScheduledDispatchToDate (GameTimeSettings.mk false 74) fuel
      (DispatchSchedule.mk [10] 0 200 (-200) 0) 250 = .error .outOfFuel := by
    rw [update_of_init (init_of_started _ _ 250 (by decide)) fuel, hb]
    exact hf
  have hud : UpdateScheduledDispatch (GameTimeSettings.mk false 74) fuel 250
      (DispatchSchedule.mk [10] 0 200 (-200) 0) = .error .outOfFuel := by
    unfold UpdateScheduledDispatch
    rw [hu]
  have hstep : CmdScheduledDispatchSetDuration
      (sampleWorld (DispatchSchedule.mk [10] 100 200 (-200) 0)) fuel DC_EXEC 0 0
      = (match UpdateScheduledDispatch (GameTimeSettings.mk false 74) fuel 250
          (DispatchSchedule.mk [10] 0 200 (-200) 0) with
        | Except.error e => Except.error e
        | Except.ok ds1 =>
          Except.ok (CommandCost.Succeeded,
            (sampleWorld (DispatchSchedule.mk [10] 100 200 (-200) 0)).setSchedule 0
              { dispatch_schedules := [DispatchSchedule.mk [10] 100 200 (-200) 0],
                orders := [{ dispatch_schedule_index := 0 }] } 0 ds1)) := rfl
  rw [hstep, hud]

/-! ## The number of loop passes -/

/-- A returning first loop has applied its body once per counted pass. -/
theorem backward_counted_iter (now : Int) : ∀ (fuel : Nat) (s : DispatchSchedule) (u : Bool)
    (n : Nat) (r : DispatchSchedule) (b : Bool) (m : Nat),
    UpdateScheduledDispatchToDate_backward_counted now fuel s u n = .ok (r, b, m) →
    ∃ k, m = n + k ∧ r = backward_step^[k] s := by
  intro fuel
  induction fuel with
  | zero =>
    intro s u n r b m h
    simp only [UpdateScheduledDispatchToDate_backward_counted] at h
    split_ifs at h
    cases h
    exact ⟨0, rfl, rfl⟩
  | succ fuel ih =>
    intro s u n r b m h
    simp only [UpdateScheduledDispatchToDate_backward_counted] at h
    split_ifs at h
    · obtain ⟨k, hm, hr⟩ := ih _ _ _ _ _ _ h
      exact ⟨k + 1, by omega, by rw [hr, Function.iterate_succ_apply]⟩
    · cases h
      exact ⟨0, rfl, rfl⟩

/-- A returning second loop has applied its body once per counted pass. -/
theorem forward_counted_iter (now : Int) : ∀ (fuel : Nat) (s : DispatchSchedule) (u : Bool)
    (n : Nat) (r : DispatchSchedule) (b : Bool) (m : Nat),
    UpdateScheduledDispatchToDate_forward_counted now fuel s u n = .ok (r, b, m) →
    ∃ k, m = n + k ∧ r = forward_step^[k] s := by
  intro fuel
  induction fuel with
  | zero =>
    intro s u n r b m h
    simp only [UpdateScheduledDispatchToDate_forward_counted] at h
    split_ifs at h
    cases h
    exact ⟨0, rfl, rfl⟩
  | succ fuel ih =>
    intro s u n r b m h
    simp only [UpdateScheduledDispatchToDate_forward_counted] at h
    split_ifs at h
    · obtain ⟨k, hm, hr⟩ := ih _ _ _ _ _ _ h
      exact ⟨k + 1, by omega, by rw [hr, Function.iterate_succ_apply]⟩
    · cases h
      exact ⟨0, rfl, rfl⟩

/-- The three stages of a returning counted call. -/
theorem update_counted_parts {cfg : GameTimeSettings} {fuel : Nat} {s r : DispatchSchedule}
    {now : Int} {b : Bool} {nb nf : Nat}
    (h : UpdateScheduledDispatchToDate_counted cfg fuel s now = .ok (r, b, nb, nf)) :
    ∃ s1 s2 u, UpdateScheduledDispatchToDate_init cfg s now = .ok s1 ∧
      UpdateScheduledDispatchToDate_backward_counted now fuel s1 false 0 = .ok (s2, u, nb) ∧
      UpdateScheduledDispatchToDate_forward_counted now fuel s2 u 0 = .ok (r, b, nf) := by
  unfold UpdateScheduledDispatchToDate_counted at h
  split at h
  · cases h
  · rename_i s1 hinit
    split at h
    · cases h
    · rename_i s2 u nb2 hb
      split at h
      · cases h
      · rename_i s3 u2 nf2 hf
        cases h
        exact ⟨s1, s2, u, hinit, hb, hf⟩

/-- A first loop that made a pass leaves `now` inside the window. -/
theorem backward_counted_exit (now : Int) : ∀ (fuel : Nat) (s : DispatchSchedule) (u : Bool)
    (n : Nat) (r : DispatchSchedule) (b : Bool) (m : Nat),
    UpdateScheduledDispatchToDate_backward_counted now fuel s u n = .ok (r, b, m) →
    n < m → now < r.scheduled_dispatch_start_tick + r.scheduled_dispatch_duration := by
  intro fuel
  induction fuel with
  | zero =>
    intro s u n r b m h hnm
    simp only [UpdateScheduledDispatchToDate_backward_counted] at h
    split_ifs at h
    cases h
    omega
  | succ fuel ih =>
    intro s u n r b m h hnm
    simp only [UpdateScheduledDispatchToDate_backward_counted] at h
    split_ifs at h with hc
    · by_cases h1 : n + 1 < m
      · exact ih _ _ _ _ _ _ h h1
      · obtain ⟨k, hk, hr⟩ := backward_counted_iter now fuel _ _ _ _ _ _ h
        have hk0 : k = 0 := by omega
        subst hk0
        rw [hr]
        simp only [Function.iterate_zero, id_eq, backward_step,
          DispatchSchedule.GetScheduledDispatchStartTick,
          DispatchSchedule.GetScheduledDispatchDuration] at hc ⊢
        omega
    · cases h
      omega

/-- A second loop that made a pass was entered with `now` at or past the end
of the window. -/
theorem forward_counted_entry (now : Int) (fuel : Nat) (s : DispatchSchedule) (u : Bool)
    (n : Nat) (r : DispatchSchedule) (b : Bool) (m : Nat)
    (h : UpdateScheduledDispatchToDate_forward_counted now fuel s u n = .ok (r, b, m))
    (hnm : n < m) :
    s.scheduled_dispatch_start_tick + s.scheduled_dispatch_duration ≤ now := by
  cases fuel with
  | zero =>
    simp only [UpdateScheduledDispatchToDate_forward_counted] at h
    split_ifs at h
    cases h
    omega
  | succ fuel =>
    simp only [UpdateScheduledDispatchToDate_forward_counted] at h
    split_ifs at h with hc
    · exact hc
    · cases h
      omega

/-- C21, normalisation terminates: for a schedule with a positive duration and
every `now`, `UpdateScheduledDispatchToDate(now)` returns with the window
around `now`; at most one of the two loops runs, and the total number of
passes is the distance between the start tick after the first-run block and
the final start tick, divided by the duration. -/
theorem normalisation_terminates (cfg : GameTimeSettings) (s : DispatchSchedule) (now : Int)
    (hd : 0 < s.scheduled_dispatch_duration) (ht : 0 < cfg.ticks_per_minute) :
    ∃ s1 r b nb nf,
      UpdateScheduledDispatchToDate_init cfg s now = .ok s1 ∧
      Returns (fun fuel => UpdateScheduledDispatchToDate_counted cfg fuel s now)
        (r, b, nb, nf) ∧
      Returns (fun fuel => UpdateScheduledDispatchToDate cfg fuel s now) (r, b) ∧
      r.GetScheduledDispatchStartTick ≤ now ∧
      now < r.GetScheduledDispatchStartTick + r.GetScheduledDispatchDuration ∧
      (nb = 0 ∨ nf = 0) ∧
      ((nb + nf : Nat) : Int) * s.GetScheduledDispatchDuration
        = |r.GetScheduledDispatchStartTick - s1.GetScheduledDispatchStartTick| ∧
      nb + nf = Int.natAbs (r.GetScheduledDispatchStartTick - s1.GetScheduledDispatchStartTick)
        / s.GetScheduledDispatchDuration := by
  obtain ⟨r, b, ⟨n, hn⟩, hdur, _, _, hlo, hhi⟩ := update_returns cfg s now hd ht
  obtain ⟨nb, nf, hc⟩ := (update_counted_erase cfg n s now).2 r b (hn n (le_refl _))
  obtain ⟨s1, s2, u, hinit, hb, hf⟩ := update_counted_parts hc
  have hd1 : s1.scheduled_dispatch_duration = s.scheduled_dispatch_duration :=
    (init_frame hinit).2.1
  obtain ⟨k1, hk1, hs2⟩ := backward_counted_iter now n s1 false 0 s2 u nb hb
  obtain ⟨k2, hk2, hr⟩ := forward_counted_iter now n s2 u 0 r b nf hf
  have e1 : k1 = nb := by omega
  have e2 : k2 = nf := by omega
  subst e1 e2
  obtain ⟨f1, f2, _, _⟩ := backward_iter_fields k1 s1
  obtain ⟨g1, g2, _, _⟩ := forward_iter_fields k2 s2
  rw [← hs2] at f1 f2
  rw [← hr] at g1 g2
  rw [hd1] at f1 f2
  rw [f2] at g1
  have hone : k1 = 0 ∨ k2 = 0 := by
    by_contra hcon
    have h1 := backward_counted_exit now n s1 false 0 s2 u k1 hb (by omega)
    have h2 := forward_counted_entry now n s2 u 0 r b k2 hf (by omega)
    omega
  have hdpos : (0 : Int) < (s.scheduled_dispatch_duration : Int) := by exact_mod_cast hd
  have hdiff : r.scheduled_dispatch_start_tick - s1.scheduled_dispatch_start_tick
      = ((k2 : Int) - k1) * s.scheduled_dispatch_duration := by
    rw [g1, f1]; ring
  have habs : |r.scheduled_dispatch_start_tick - s1.scheduled_dispatch_start_tick|
      = ((k1 + k2 : Nat) : Int) * s.scheduled_dispatch_duration := by
    rw [hdiff, abs_mul, abs_of_pos hdpos]
    congr 1
    rcases hone with h0 | h0
    · subst h0; simp
    · subst h0; simp
  refine ⟨s1, r, b, k1, k2, hinit, ⟨n, fun fuel hf2 => ?_⟩, ⟨n, hn⟩, hlo, hhi, hone,
    habs.symm, ?_⟩
  · obtain ⟨j, rfl⟩ : ∃ j, fuel = n + j := ⟨fuel - n, by omega⟩
    exact update_counted_mono cfg s now _ n j hc
  · show k1 + k2 = Int.natAbs (r.scheduled_dispatch_start_tick
        - s1.scheduled_dispatch_start_tick) / s.scheduled_dispatch_duration
    have hnat : Int.natAbs (r.scheduled_dispatch_start_tick - s1.scheduled_dispatch_start_tick)
        = (k1 + k2) * s.scheduled_dispatch_duration := by
      have h3 := habs
      rw [Int.abs_eq_natAbs] at h3
      exact_mod_cast h3
    rw [hnat, Nat.mul_div_cancel _ hd]

/-- Witness of C21: from start 200 with duration 100, `now = 459` takes two
forward passes to the window that starts at 400. -/
theorem normalisation_terminates_witness :
    UpdateScheduledDispatchToDate_counted (GameTimeSettings.mk false 74) 2
        (DispatchSchedule.mk [] 100 200 (-200) 0) 459
      = .ok (DispatchSchedule.mk [] 100 400 (-400) 0, true, 0, 2) ∧
    ∃ s1 r b nb nf,
      UpdateScheduledDispatchToDate_init (GameTimeSettings.mk false 74)
        (DispatchSchedule.mk [] 100 200 (-200) 0) 459 = .ok s1 ∧
      Returns (fun fuel => UpdateScheduledDispatchToDate_counted (GameTimeSettings.mk false 74)
        fuel (DispatchSchedule.mk [] 100 200 (-200) 0) 459) (r, b, nb, nf) ∧
      Returns (fun fuel => UpdateScheduledDispatchToDate (GameTimeSettings.mk false 74) fuel
        (DispatchSchedule.mk [] 100 200 (-200) 0) 459) (r, b) ∧
      r.GetScheduledDispatchStartTick ≤ 459 ∧
      459 < r.GetScheduledDispatchStartTick + r.GetScheduledDispatchDuration ∧
      (nb = 0 ∨ nf = 0) ∧
      ((nb + nf : Nat) : Int)
          * (DispatchSchedule.mk [] 100 200 (-200) 0).GetScheduledDispatchDuration
        = |r.GetScheduledDispatchStartTick - s1.GetScheduledDispatchStartTick| ∧
      nb + nf = Int.natAbs (r.GetScheduledDispatchStartTick - s1.GetScheduledDispatchStartTick)
        / (DispatchSchedule.mk [] 100 200 (-200) 0).GetScheduledDispatchDuration :=
  ⟨rfl, normalisation_terminates (GameTimeSettings.mk false 74)
    (DispatchSchedule.mk [] 100 200 (-200) 0) 459 (by decide) (by decide)⟩

/-! ## The slots a bulk add leaves behind -/

theorem ordersList_spec {w : World} {v : Vehicle} {k : Nat} {ol : OrderList}
    (hl : w.ordersList v = some (k, ol)) :
    v.orders_list = some k ∧ w.order_lists[k]? = some ol := by
  unfold World.ordersList at hl
  split at hl
  · cases hl
  · rename_i k2 hk
    split at hl
    · cases hl
    · rename_i ol2 hol
      cases hl
      exact ⟨hk, hol⟩

/-- After the order list of a vehicle is written back, the vehicle reads the
written list. -/
theorem ordersList_setOrderList {w : World} {v : Vehicle} {k : Nat} {ol : OrderList}
    (hl : w.ordersList v = some (k, ol)) (ol2 : OrderList) :
    (w.setOrderList k ol2).ordersList v = some (k, ol2) := by
  obtain ⟨hk, hol⟩ := ordersList_spec hl
  have hlt : k < w.order_lists.length := by
    by_contra hcon
    rw [List.getElem?_eq_none (by omega)] at hol
    cases hol
  unfold World.ordersList World.setOrderList
  rw [hk]
  simp only [List.getElem?_set_self hlt]

theorem vector_insert_length (xs : List Nat) (pos val : Nat) :
    (vector_insert xs pos val).length = xs.length + 1 := by
  unfold vector_insert
  simp only [List.length_append, List.length_take, List.length_cons, List.length_drop]
  omega

/-- One `AddScheduledDispatch` call makes the slot list at most one longer. -/
theorem add_length {cfg : GameTimeSettings} {fuel : Nat} {t : Int} {s r : DispatchSchedule}
    {x : Nat} (h : AddScheduledDispatch cfg fuel t s x = .ok r) :
    r.scheduled_dispatch.length ≤ s.scheduled_dispatch.length + 1 := by
  unfold AddScheduledDispatch at h
  simp only at h
  split_ifs at h
  · cases h
    omega
  · obtain ⟨f1, _, _⟩ := update_dispatch_frame h
    simp only at f1
    rw [f1, vector_insert_length]

/-- The `for` loop of the bulk add inserts the offsets
`(p2 + i * offset) mod 2^32` for `i = 1 .. extra_slots`. -/
theorem add_loop_slots (cfg : GameTimeSettings) (fuel : Nat) (t : Int) (offset : Nat) :
    ∀ (n p2 : Nat) (ds r : DispatchSchedule), StrictAsc ds.scheduled_dispatch →
    CmdScheduledDispatchAdd_loop cfg fuel t offset n p2 ds = .ok r →
    StrictAsc r.scheduled_dispatch ∧
    (∀ y, y ∈ r.scheduled_dispatch ↔ y ∈ ds.scheduled_dispatch ∨
      ∃ i, 1 ≤ i ∧ i ≤ n ∧ y = (p2 + i * offset) % 4294967296) ∧
    r.scheduled_dispatch.length ≤ ds.scheduled_dispatch.length + n := by
  intro n
  induction n with
  | zero =>
    intro p2 ds r hs h
    simp only [CmdScheduledDispatchAdd_loop] at h
    cases h
    refine ⟨hs, fun y => ⟨fun hy => Or.inl hy, fun hy => ?_⟩, le_refl _⟩
    rcases hy with hy | ⟨i, h1, h2, _⟩
    · exact hy
    · omega
  | succ n ih =>
    intro p2 ds r hs h
    simp only [CmdScheduledDispatchAdd_loop] at h
    split at h
    · cases h
    · rename_i ds1 hadd
      obtain ⟨hs1, hm1, _⟩ := add_slots hs hadd
      have hl1 := add_length hadd
      obtain ⟨hs2, hm2, hl2⟩ := ih _ ds1 r hs1 h
      refine ⟨hs2, fun y => ?_, by omega⟩
      rw [hm2, hm1]
      constructor
      · rintro ((hy | hy) | ⟨i, h1, h2, hy⟩)
        · exact Or.inl hy
        · exact Or.inr ⟨1, le_refl _, by omega, by rw [hy, one_mul]⟩
        · refine Or.inr ⟨i + 1, by omega, by omega, ?_⟩
          rw [hy, Nat.mod_add_mod]
          congr 1
          ring
      · rintro (hy | ⟨i, h1, h2, hy⟩)
        · exact Or.inl (Or.inl hy)
        · by_cases hi : i = 1
          · subst hi
            exact Or.inl (Or.inr (by rw [hy, one_mul]))
          · refine Or.inr ⟨i - 1, by omega, by omega, ?_⟩
            rw [hy, Nat.mod_add_mod]
            congr 1
            obtain ⟨j, rfl⟩ : ∃ j, i = j + 1 := ⟨i - 1, by omega⟩
            simp only [Nat.add_sub_cancel]
            ring

/-! ## The slot invariant across commands -/

theorem slotsOk_setOrderList {w : World} (hc : w.SlotsOk) (k : Nat) (ol2 : OrderList)
    (h2 : ∀ ds ∈ ol2.dispatch_schedules, StrictAsc ds.scheduled_dispatch) :
    (w.setOrderList k ol2).SlotsOk := by
  intro ol hol
  unfold World.setOrderList at hol
  rcases List.mem_or_eq_of_mem_set hol with h | h
  · exact hc ol h
  · rw [h]; exact h2

theorem slotsOk_of_ordersList {w : World} (hc : w.SlotsOk) {v : Vehicle} {k : Nat}
    {ol : OrderList} (hl : w.ordersList v = some (k, ol)) :
    ∀ ds ∈ ol.dispatch_schedules, StrictAsc ds.scheduled_dispatch :=
  hc ol (List.mem_iff_getElem?.mpr ⟨k, (ordersList_spec hl).2⟩)

theorem slotsOk_of_getElem {w : World} (hc : w.SlotsOk) {v : Vehicle} {k : Nat}
    {ol : OrderList} (hl : w.ordersList v = some (k, ol)) {i : Nat} {ds : DispatchSchedule}
    (hds : ol.dispatch_schedules[i]? = some ds) : StrictAsc ds.scheduled_dispatch :=
  slotsOk_of_ordersList hc hl ds (List.mem_iff_getElem?.mpr ⟨i, hds⟩)

theorem slotsOk_setSchedule {w : World} (hc : w.SlotsOk) {v : Vehicle} {k : Nat}
    {ol : OrderList} (hl : w.ordersList v = some (k, ol)) (i : Nat) {ds : DispatchSchedule}
    (hds : StrictAsc ds.scheduled_dispatch) : (w.setSchedule k ol i ds).SlotsOk := by
  unfold World.setSchedule
  apply slotsOk_setOrderList hc
  intro ds2 h2
  rcases List.mem_or_eq_of_mem_set h2 with h | h
  · exact slotsOk_of_ordersList hc hl ds2 h
  · rw [h]; exact hds

theorem slotsOk_setSharedDispatchFlag {w : World} (hc : w.SlotsOk) (veh : Nat) (v : Vehicle)
    (e : Bool) : (w.setSharedDispatchFlag veh v e).SlotsOk := by
  unfold World.setSharedDispatchFlag
  split <;> exact hc

/-- Every command keeps every slot list strictly ascending. -/
theorem runCommand_slotsOk (toTick : Int → Nat → Int) (w : World) (fuel : Nat)
    (c : SchdispatchCommand) (flags p1 p2 p3 : Nat) (cost : CommandCost) (w2 : World)
    (h : runCommand toTick w fuel c flags p1 p2 p3 = .ok (cost, w2)) (hc : w.SlotsOk) :
    w2.SlotsOk := by
  cases c <;> simp only [runCommand, Except.ok.injEq] at h
  · unfold CmdScheduledDispatch at h
    dsimp only at h
    repeat' split at h
    all_goals cases h
    all_goals first
      | exact hc
      | exact slotsOk_setSharedDispatchFlag hc _ _ _
  · unfold CmdScheduledDispatchAdd at h
    dsimp only at h
    repeat' split at h
    all_goals cases h
    all_goals first
      | exact hc
      | exact slotsOk_setSchedule hc (by assumption) _
          (add_loop_slots _ _ _ _ _ _ _ _
            (add_slots (slotsOk_of_getElem hc (by assumption) (by assumption))
              (by assumption)).1 (by assumption)).1
  · unfold CmdScheduledDispatchRemove at h
    dsimp only at h
    repeat' split at h
    all_goals cases h
    all_goals first
      | exact hc
      | exact slotsOk_setSchedule hc (by assumption) _
          (remove_strictAsc _ _ (slotsOk_of_getElem hc (by assumption) (by assumption)))
  · unfold CmdScheduledDispatchSetDuration at h
    dsimp only at h
    repeat' split at h
    all_goals cases h
    all_goals first
      | exact hc
      | (have hds : StrictAsc _ := slotsOk_of_getElem hc (by assumption) (by assumption)
         apply slotsOk_setSchedule hc (by assumption)
         rw [(update_dispatch_frame (by assumption)).1]
         exact hds)
  · unfold CmdScheduledDispatchSetStartDate at h
    dsimp only at h
    repeat' split at h
    all_goals cases h
    all_goals first
      | exact hc
      | (have hds : StrictAsc _ := slotsOk_of_getElem hc (by assumption) (by assumption)
         apply slotsOk_setSchedule hc (by assumption)
         rw [(update_dispatch_frame (by assumption)).1]
         exact hds)
  · unfold CmdScheduledDispatchSetDelay at h
    dsimp only at h
    repeat' split at h
    all_goals cases h
    all_goals first
      | exact hc
      | (have hds : StrictAsc _ := slotsOk_of_getElem hc (by assumption) (by assumption)
         exact slotsOk_setSchedule hc (by assumption) _ hds)
  · unfold CmdScheduledDispatchResetLastDispatch at h
    dsimp only at h
    repeat' split at h
    all_goals cases h
    all_goals first
      | exact hc
      | (have hds : StrictAsc _ := slotsOk_of_getElem hc (by assumption) (by assumption)
         exact slotsOk_setSchedule hc (by assumption) _ hds)
  · unfold CmdScheduledDispatchClear at h
    dsimp only at h
    repeat' split at h
    all_goals cases h
    all_goals first
      | exact hc
      | exact slotsOk_setSchedule hc (by assumption) _ List.Pairwise.nil
  · unfold CmdScheduledDispatchAddNewSchedule at h
    dsimp only at h
    repeat' split at h
    all_goals cases h
    all_goals first
      | exact hc
      | (apply slotsOk_setOrderList hc
         intro ds2 h2
         rcases List.mem_append.mp h2 with h3 | h3
         · exact slotsOk_of_ordersList hc (by assumption) ds2 h3
         · rw [List.mem_singleton.mp h3, StrictAsc, (update_dispatch_frame (by assumption)).1]
           exact List.Pairwise.nil)
  · unfold CmdScheduledDispatchRemoveSchedule at h
    dsimp only at h
    repeat' split at h
    all_goals cases h
    all_goals first
      | exact hc
      | (apply slotsOk_setOrderList hc
         intro ds2 h2
         exact slotsOk_of_ordersList hc (by assumption) ds2 (List.mem_of_mem_eraseIdx h2))

/-- Every sequence of commands keeps every slot list strictly ascending. -/
theorem runCommands_slotsOk (toTick : Int → Nat → Int) (fuel : Nat) :
    ∀ (cs : List SchdispatchCall) (w w2 : World), w.SlotsOk →
    runCommands toTick fuel cs w = .ok w2 → w2.SlotsOk := by
  intro cs
  induction cs with
  | nil =>
    intro w w2 hc h
    simp only [runCommands] at h
    cases h
    exact hc
  | cons c rest ih =>
    intro w w2 hc h
    simp only [runCommands] at h
    split at h
    · cases h
    · rename_i cost w1 h1
      exact ih w1 w2 (runCommand_slotsOk toTick w fuel _ _ _ _ _ cost w1 h1 hc) h

/-! ## What a successful command has checked -/

theorem checkOwnership_ok {w : World} {o : Nat}
    (h : ¬ ((w.CheckOwnership o).Failed = true)) : o = w.current_company := by
  unfold World.CheckOwnership at h
  by_contra hne
  rw [if_neg hne] at h
  exact h rfl

/-- A `CmdScheduledDispatchAdd` that succeeds was given a valid primary vehicle
of the current company with an order list and an existing schedule index. -/
theorem CmdScheduledDispatchAdd_succeeds {w : World} {fuel flags p1 p2 p3 : Nat}
    {cost : CommandCost} {w2 : World}
    (h : CmdScheduledDispatchAdd w fuel flags p1 p2 p3 = .ok (cost, w2))
    (hok : cost.Failed = false) :
    ∃ v k ol ds, w.GetIfValid (GB p1 0 20) = some v ∧ v.primary = true ∧
      v.owner = w.current_company ∧ w.ordersList v = some (k, ol) ∧
      ol.dispatch_schedules[GB p1 20 12]? = some ds := by
  unfold CmdScheduledDispatchAdd at h
  dsimp only at h
  repeat' split at h
  all_goals cases h
  all_goals first
    | (exfalso; revert hok; decide)
    | (refine ⟨_, _, _, _, by assumption, ?_, checkOwnership_ok (by assumption),
        by assumption, by assumption⟩
       simp_all)
    | (exfalso; simp_all)

/-- A `CmdScheduledDispatchRemoveSchedule` that succeeds was given a valid
primary vehicle of the current company with an order list and an existing
schedule index. -/
theorem CmdScheduledDispatchRemoveSchedule_succeeds {w : World} {flags p1 : Nat}
    {cost : CommandCost} {w2 : World}
    (h : CmdScheduledDispatchRemoveSchedule w flags p1 = (cost, w2))
    (hok : cost.Failed = false) :
    ∃ v k ol, w.GetIfValid (GB p1 0 20) = some v ∧ v.primary = true ∧
      v.owner = w.current_company ∧ w.ordersList v = some (k, ol) ∧
      GB p1 20 12 < ol.dispatch_schedules.length := by
  unfold CmdScheduledDispatchRemoveSchedule at h
  dsimp only at h
  repeat' split at h
  all_goals cases h
  all_goals first
    | (exfalso; revert hok; decide)
    | (refine ⟨_, _, _, by assumption, ?_, checkOwnership_ok (by assumption),
        by assumption, by omega⟩
       simp_all)
    | (exfalso; simp_all)

/-- C22, the bulk add is an arithmetic progression: when a committed
`CmdScheduledDispatchAdd` succeeds on a schedule whose slot list is strictly
ascending, the slot list of that schedule afterwards is strictly ascending,
its values are the old values together with `(p2 + i * offset) mod 2^32` for
`0 <= i <= extra_slots`, and it is at most 513 slots longer; with a positive
duration the command returns; and every sequence of commands keeps every slot
list strictly ascending, so the condition on the old list holds in every game
state the commands reach from one where it holds. -/
theorem bulk_add_arithmetic_progression :
    (∀ (w : World) (fuel flags p1 p2 p3 : Nat) (cost : CommandCost) (w2 : World),
      flags &&& DC_EXEC ≠ 0 → p2 < 4294967296 →
      CmdScheduledDispatchAdd w fuel flags p1 p2 p3 = .ok (cost, w2) → cost.Failed = false →
      ∃ v k ol ds, w.GetIfValid (GB p1 0 20) = some v ∧ w.ordersList v = some (k, ol) ∧
        ol.dispatch_schedules[GB p1 20 12]? = some ds ∧
        (StrictAsc ds.scheduled_dispatch →
          ∃ ds2 ol2, w2 = w.setSchedule k ol (GB p1 20 12) ds2 ∧
            w2.ordersList v = some (k, ol2) ∧
            ol2.dispatch_schedules[GB p1 20 12]? = some ds2 ∧
            StrictAsc ds2.scheduled_dispatch ∧
            (∀ x, x ∈ ds2.scheduled_dispatch ↔ x ∈ ds.scheduled_dispatch ∨
              ∃ i, i ≤ GB p3 32 16 ∧ x = (p2 + i * GB p3 0 32) % 4294967296) ∧
            ds2.scheduled_dispatch.length ≤ ds.scheduled_dispatch.length + 513)) ∧
    (∀ (w : World) (v : Vehicle) (k : Nat) (ol : OrderList) (ds : DispatchSchedule)
        (flags p1 p2 p3 : Nat),
      w.GetIfValid (GB p1 0 20) = some v → v.primary = true → v.owner = w.current_company →
      w.ordersList v = some (k, ol) → ol.dispatch_schedules[GB p1 20 12]? = some ds →
      flags &&& DC_EXEC ≠ 0 → (CmdScheduledDispatchAdd_validation p3).Failed = false →
      0 < ds.scheduled_dispatch_duration → 0 < w.game_time.ticks_per_minute →
      ∃ w2, Returns (fun fuel => CmdScheduledDispatchAdd w fuel flags p1 p2 p3)
        (CommandCost.Succeeded, w2)) ∧
    (∀ (toTick : Int → Nat → Int) (fuel : Nat) (cs : List SchdispatchCall) (w w2 : World),
      w.SlotsOk → runCommands toTick fuel cs w = .ok w2 → w2.SlotsOk) := by
  refine ⟨?_, ?_, fun toTick fuel cs w w2 hc h => runCommands_slotsOk toTick fuel cs w w2 hc h⟩
  · intro w fuel flags p1 p2 p3 cost w2 hexec hp2 h hok
    obtain ⟨v, k, ol, ds, hv, hp, ho, hl, hds⟩ := CmdScheduledDispatchAdd_succeeds h hok
    refine ⟨v, k, ol, ds, hv, hl, hds, fun hsorted => ?_⟩
    have hidx : GB p1 20 12 < ol.dispatch_schedules.length := by
      by_contra hcon
      rw [List.getElem?_eq_none (by omega)] at hds
      cases hds
    rw [CmdScheduledDispatchAdd_checked w v k ol ds fuel flags p1 p2 p3 hv hp ho hl hds] at h
    split_ifs at h with h1 h2
    · cases h; cases hok
    · cases h; cases hok
    · split at h
      · cases h
      · rename_i ds1 hadd
        split at h
        · cases h
        · rename_i ds2 hloop
          cases h
          obtain ⟨hs1, hm1, _⟩ := add_slots hsorted hadd
          have hl1 := add_length hadd
          obtain ⟨hs2, hm2, hl2⟩ := add_loop_slots _ _ _ _ _ _ _ _ hs1 hloop
          refine ⟨ds2, { ol with dispatch_schedules :=
              ol.dispatch_schedules.set (GB p1 20 12) ds2 }, rfl,
            ordersList_setOrderList hl _, ?_, hs2, fun x => ?_, by omega⟩
          · simp only [List.getElem?_set_self hidx]
          · rw [hm2, hm1]
            constructor
            · rintro ((hx | hx) | ⟨i, _, h4, hx⟩)
              · exact Or.inl hx
              · exact Or.inr ⟨0, Nat.zero_le _, by
                  rw [hx, Nat.zero_mul, Nat.add_zero, Nat.mod_eq_of_lt hp2]⟩
              · exact Or.inr ⟨i, h4, hx⟩
            · rintro (hx | ⟨i, h4, hx⟩)
              · exact Or.inl (Or.inl hx)
              · by_cases hi : i = 0
                · subst hi
                  rw [Nat.zero_mul, Nat.add_zero, Nat.mod_eq_of_lt hp2] at hx
                  exact Or.inl (Or.inr hx)
                · exact Or.inr ⟨i, by omega, h4, hx⟩
  · intro w v k ol ds flags p1 p2 p3 hv hp ho hl hds hexec hnf hd ht
    have hcond : ¬ (GB p3 32 16 > 512 ∨ (GB p3 32 16 > 0 ∧ GB p3 0 32 = 0)) := by
      intro hc
      rw [(validation_failed_iff p3).mpr hc] at hnf
      cases hnf
    push_neg at hcond
    obtain ⟨ds1, n1, h1⟩ := add_returns w.game_time w.scaled_date_ticks ds p2 hd ht
    have hd1 : 0 < ds1.scheduled_dispatch_duration := by
      rw [add_frame_duration (h1 n1 (le_refl _))]
      exact hd
    obtain ⟨ds2, n2, h2⟩ := add_loop_returns w.game_time w.scaled_date_ticks (GB p3 0 32) ht
      (GB p3 32 16) p2 ds1 hd1
    refine ⟨w.setSchedule k ol (GB p1 20 12) ds2, max n1 n2, fun fuel hf => ?_⟩
    show CmdScheduledDispatchAdd w fuel flags p1 p2 p3 = _
    have e1 := h1 fuel (le_trans (le_max_left _ _) hf)
    have e2 := h2 fuel (le_trans (le_max_right _ _) hf)
    dsimp only at e1 e2
    rw [CmdScheduledDispatchAdd_checked w v k ol ds fuel flags p1 p2 p3 hv hp ho hl hds,
      if_neg (by omega), if_neg (fun h => absurd h.2 (hcond.2 h.1)), if_pos hexec, e1]
    dsimp only
    rw [e2]

/-- Witness of C22: adding 20 with two extra slots 15 apart to `[10]` gives
`[10, 20, 35, 50]`. -/
theorem bulk_add_arithmetic_progression_witness :
    CmdScheduledDispatchAdd (sampleWorld (DispatchSchedule.mk [10] 100 200 (-200) 0))
        0 DC_EXEC 0 20 (2 * 4294967296 + 15)
      = .ok (CommandCost.Succeeded,
          sampleWorld (DispatchSchedule.mk [10, 20, 35, 50] 100 200 (-200) 0)) ∧
    ∃ v k ol ds,
      (sampleWorld (DispatchSchedule.mk [10] 100 200 (-200) 0)).GetIfValid (GB 0 0 20)
        = some v ∧
      (sampleWorld (DispatchSchedule.mk [10] 100 200 (-200) 0)).ordersList v = some (k, ol) ∧
      ol.dispatch_schedules[GB 0 20 12]? = some ds ∧
      (StrictAsc ds.scheduled_dispatch →
        ∃ ds2 ol2,
          sampleWorld (DispatchSchedule.mk [10, 20, 35, 50] 100 200 (-200) 0)
            = (sampleWorld (DispatchSchedule.mk [10] 100 200 (-200) 0)).setSchedule k ol
                (GB 0 20 12) ds2 ∧
          (sampleWorld (DispatchSchedule.mk [10, 20, 35, 50] 100 200 (-200) 0)).ordersList v
            = some (k, ol2) ∧
          ol2.dispatch_schedules[GB 0 20 12]? = some ds2 ∧
          StrictAsc ds2.scheduled_dispatch ∧
          (∀ x, x ∈ ds2.scheduled_dispatch ↔ x ∈ ds.scheduled_dispatch ∨
            ∃ i, i ≤ GB (2 * 4294967296 + 15) 32 16 ∧
              x = (20 + i * GB (2 * 4294967296 + 15) 0 32) % 4294967296) ∧
          ds2.scheduled_dispatch.length ≤ ds.scheduled_dispatch.length + 513) :=
  ⟨rfl,
    bulk_add_arithmetic_progression.1
      (sampleWorld (DispatchSchedule.mk [10] 100 200 (-200) 0)) 0 DC_EXEC 0 20
      (2 * 4294967296 + 15) CommandCost.Succeeded
      (sampleWorld (DispatchSchedule.mk [10, 20, 35, 50] 100 200 (-200) 0))
      (by decide) (by decide) rfl rfl⟩

/-! ## Removing a schedule renumbers the orders -/

theorem getElem?_eraseIdx_lt {α : Type} (l : List α) (i j : Nat) (h : j < i) :
    (l.eraseIdx i)[j]? = l[j]? := by
  rw [List.getElem?_eraseIdx]
  simp [h]

theorem getElem?_eraseIdx_ge {α : Type} (l : List α) (i j : Nat) (h : i ≤ j) :
    (l.eraseIdx i)[j]? = l[j + 1]? := by
  rw [List.getElem?_eraseIdx]
  simp [Nat.not_lt.mpr h]

/-- The command `CmdScheduledDispatchRemoveSchedule` once the vehicle, its
ownership, its order list and the schedule index have passed their checks. -/
theorem CmdScheduledDispatchRemoveSchedule_checked (w : World) (v : Vehicle) (k : Nat)
    (ol : OrderList) (flags p1 : Nat)
    (hv : w.GetIfValid (GB p1 0 20) = some v) (hp : v.primary = true)
    (ho : v.owner = w.current_company) (hl : w.ordersList v = some (k, ol))
    (hidx : GB p1 20 12 < ol.dispatch_schedules.length) :
    CmdScheduledDispatchRemoveSchedule w flags p1 =
      if flags &&& DC_EXEC ≠ 0 then
        (CommandCost.Succeeded,
          w.setOrderList k
            { dispatch_schedules := ol.dispatch_schedules.eraseIdx (GB p1 20 12)
              orders := ol.orders.map (RemoveSchedule_fixOrder (GB p1 20 12)) })
      else (CommandCost.Succeeded, w) := by
  have hown : (w.CheckOwnership v.owner).Failed = false := by
    simp [World.CheckOwnership, ho, succeeded_not_failed]
  have hge : ¬ (GB p1 20 12 ≥ ol.dispatch_schedules.length) := by omega
  unfold CmdScheduledDispatchRemoveSchedule
  simp only [hv, hp, hown, hl, hge, Bool.true_eq_false, Bool.false_eq_true, if_false]

/-- C23, removing a schedule keeps the order references consistent: a
committed `CmdScheduledDispatchRemoveSchedule` for schedule index `k` that
succeeds leaves the schedule list without element `k`, sets to `-1` every
order index that was `k`, lowers by one every index above `k` and keeps every
index below `k`; an order that referred to another schedule still refers to
that same schedule, and indices that were `-1` or below the old count are `-1`
or below the new count. The command succeeds for every valid primary vehicle
of the current company with an order list and an existing schedule index. -/
theorem remove_schedule_renumbers_orders :
    (∀ (w : World) (flags p1 : Nat) (cost : CommandCost) (w2 : World),
      flags &&& DC_EXEC ≠ 0 → CmdScheduledDispatchRemoveSchedule w flags p1 = (cost, w2) →
      cost.Failed = false →
      ∃ v k ol ol2, w.GetIfValid (GB p1 0 20) = some v ∧ w.ordersList v = some (k, ol) ∧
        GB p1 20 12 < ol.dispatch_schedules.length ∧
        w2 = w.setOrderList k ol2 ∧ w2.ordersList v = some (k, ol2) ∧
        ol2.dispatch_schedules
          = ol.dispatch_schedules.take (GB p1 20 12)
            ++ ol.dispatch_schedules.drop (GB p1 20 12 + 1) ∧
        ol2.dispatch_schedules.length + 1 = ol.dispatch_schedules.length ∧
        ol2.orders.length = ol.orders.length ∧
        ∀ (j : Nat) (o : Order), ol.orders[j]? = some o →
          ∃ o2 : Order, ol2.orders[j]? = some o2 ∧
          (o.dispatch_schedule_index = (GB p1 20 12 : Int) →
            o2.dispatch_schedule_index = -1) ∧
          (o.dispatch_schedule_index > (GB p1 20 12 : Int) →
            o2.dispatch_schedule_index = o.dispatch_schedule_index - 1) ∧
          (o.dispatch_schedule_index < (GB p1 20 12 : Int) → o2 = o) ∧
          (0 ≤ o.dispatch_schedule_index → o.dispatch_schedule_index ≠ (GB p1 20 12 : Int) →
            0 ≤ o2.dispatch_schedule_index ∧
            ol2.dispatch_schedules[o2.dispatch_schedule_index.toNat]?
              = ol.dispatch_schedules[o.dispatch_schedule_index.toNat]?) ∧
          ((o.dispatch_schedule_index = -1 ∨ (0 ≤ o.dispatch_schedule_index ∧
              o.dispatch_schedule_index < (ol.dispatch_schedules.length : Int))) →
            (o2.dispatch_schedule_index = -1 ∨ (0 ≤ o2.dispatch_schedule_index ∧
              o2.dispatch_schedule_index < (ol2.dispatch_schedules.length : Int))))) ∧
    (∀ (w : World) (v : Vehicle) (k : Nat) (ol : OrderList) (flags p1 : Nat),
      w.GetIfValid (GB p1 0 20) = some v → v.primary = true → v.owner = w.current_company →
      w.ordersList v = some (k, ol) → GB p1 20 12 < ol.dispatch_schedules.length →
      (CmdScheduledDispatchRemoveSchedule w flags p1).1 = CommandCost.Succeeded) := by
  constructor
  swap
  · intro w v k ol flags p1 hv hp ho hl hidx
    rw [CmdScheduledDispatchRemoveSchedule_checked w v k ol flags p1 hv hp ho hl hidx]
    split_ifs <;> rfl
  intro w flags p1 cost w2 hexec h hok
  obtain ⟨v, k, ol, hv, hp, ho, hl, hidx⟩ := CmdScheduledDispatchRemoveSchedule_succeeds h hok
  rw [CmdScheduledDispatchRemoveSchedule_checked w v k ol flags p1 hv hp ho hl hidx,
    if_pos hexec] at h
  cases h
  have hlen : (ol.dispatch_schedules.eraseIdx (GB p1 20 12)).length + 1
      = ol.dispatch_schedules.length := by
    rw [List.length_eraseIdx, if_pos hidx]
    omega
  refine ⟨v, k, ol,
    { dispatch_schedules := ol.dispatch_schedules.eraseIdx (GB p1 20 12),
      orders := ol.orders.map (RemoveSchedule_fixOrder (GB p1 20 12)) },
    hv, hl, hidx, rfl, ordersList_setOrderList hl _, ?_, hlen, ?_, ?_⟩
  · exact List.eraseIdx_eq_take_drop_succ _ _
  · simp only [List.length_map]
  · intro j o hj
    refine ⟨RemoveSchedule_fixOrder (GB p1 20 12) o, ?_, ?_, ?_, ?_, ?_, ?_⟩
    · simp only [List.getElem?_map, hj, Option.map_some']
    · intro h
      simp only [RemoveSchedule_fixOrder, h, if_true]
    · intro h
      have hne : ¬ (o.dispatch_schedule_index = (GB p1 20 12 : Int)) := by omega
      simp only [RemoveSchedule_fixOrder, hne, if_false, h, if_true]
    · intro h
      have hne : ¬ (o.dispatch_schedule_index = (GB p1 20 12 : Int)) := by omega
      have hng : ¬ (o.dispatch_schedule_index > (GB p1 20 12 : Int)) := by omega
      simp only [RemoveSchedule_fixOrder, hne, hng, if_false]
    · intro h0 hne
      by_cases hgt : o.dispatch_schedule_index > (GB p1 20 12 : Int)
      · simp only [RemoveSchedule_fixOrder, hne, if_false, hgt, if_true]
        refine ⟨by omega, ?_⟩
        rw [getElem?_eraseIdx_ge _ _ _ (by omega)]
        congr 1
        omega
      · simp only [RemoveSchedule_fixOrder, hne, hgt, if_false]
        refine ⟨h0, ?_⟩
        rw [getElem?_eraseIdx_lt _ _ _ (by omega)]
    · intro hb
      show _ ∨ (_ ∧ _ < ((ol.dispatch_schedules.eraseIdx (GB p1 20 12)).length : Int))
      by_cases heq : o.dispatch_schedule_index = (GB p1 20 12 : Int)
      · left
        simp only [RemoveSchedule_fixOrder, heq, if_true]
      · by_cases hgt : o.dispatch_schedule_index > (GB p1 20 12 : Int)
        · simp only [RemoveSchedule_fixOrder, heq, if_false, hgt, if_true]
          omega
        · simp only [RemoveSchedule_fixOrder, heq, hgt, if_false]
          omega

/-- Witness of C23: with three schedules and orders that refer to schedules
0, 1, 2 and none, removing schedule 1 leaves orders that refer to 0, none, 1
and none. -/
theorem remove_schedule_renumbers_orders_witness :
    CmdScheduledDispatchRemoveSchedule
        (sampleWorldWith
          [DispatchSchedule.mk [1] 100 200 0 0, DispatchSchedule.mk [2] 100 200 0 0,
            DispatchSchedule.mk [3] 100 200 0 0]
          [⟨0⟩, ⟨1⟩, ⟨2⟩, ⟨-1⟩]) DC_EXEC (1 * 1048576)
      = (CommandCost.Succeeded,
          sampleWorldWith
            [DispatchSchedule.mk [1] 100 200 0 0, DispatchSchedule.mk [3] 100 200 0 0]
            [⟨0⟩, ⟨-1⟩, ⟨1⟩, ⟨-1⟩]) ∧
    ∃ v k ol ol2,
      (sampleWorldWith
        [DispatchSchedule.mk [1] 100 200 0 0, DispatchSchedule.mk [2] 100 200 0 0,
          DispatchSchedule.mk [3] 100 200 0 0]
        [⟨0⟩, ⟨1⟩, ⟨2⟩, ⟨-1⟩]).ordersList v = some (k, ol) ∧
      sampleWorldWith
          [DispatchSchedule.mk [1] 100 200 0 0, DispatchSchedule.mk [3] 100 200 0 0]
          [⟨0⟩, ⟨-1⟩, ⟨1⟩, ⟨-1⟩]
        = (sampleWorldWith
            [DispatchSchedule.mk [1] 100 200 0 0, DispatchSchedule.mk [2] 100 200 0 0,
              DispatchSchedule.mk [3] 100 200 0 0]
            [⟨0⟩, ⟨1⟩, ⟨2⟩, ⟨-1⟩]).setOrderList k ol2 ∧
      ol2.dispatch_schedules.length + 1 = ol.dispatch_schedules.length ∧
      ol2.orders.length = ol.orders.length :=
  ⟨rfl, by
    obtain ⟨v, k, ol, ol2, _, h2, _, h4, _, _, h7, h8, _⟩ :=
      remove_schedule_renumbers_orders.1
        (sampleWorldWith
          [DispatchSchedule.mk [1] 100 200 0 0, DispatchSchedule.mk [2] 100 200 0 0,
            DispatchSchedule.mk [3] 100 200 0 0]
          [⟨0⟩, ⟨1⟩, ⟨2⟩, ⟨-1⟩])
        DC_EXEC (1 * 1048576) CommandCost.Succeeded
        (sampleWorldWith
          [DispatchSchedule.mk [1] 100 200 0 0, DispatchSchedule.mk [3] 100 200 0 0]
          [⟨0⟩, ⟨-1⟩, ⟨1⟩, ⟨-1⟩])
        (by decide) rfl rfl
    exact ⟨v, k, ol, ol2, h2, h4, h7, h8⟩⟩

/-! ## The schedule count stays within 4096 -/

theorem countsOk_setOrderList {w : World} (hc : w.CountsOk) (k : Nat) (ol2 : OrderList)
    (h2 : ol2.dispatch_schedules.length ≤ 4096) : (w.setOrderList k ol2).CountsOk := by
  intro ol hol
  unfold World.setOrderList at hol
  rcases List.mem_or_eq_of_mem_set hol with h | h
  · exact hc ol h
  · rw [h]; exact h2

theorem countsOk_of_ordersList {w : World} (hc : w.CountsOk) {v : Vehicle} {k : Nat}
    {ol : OrderList} (hl : w.ordersList v = some (k, ol)) :
    ol.dispatch_schedules.length ≤ 4096 :=
  hc ol (List.mem_iff_getElem?.mpr ⟨k, (ordersList_spec hl).2⟩)

theorem countsOk_setSchedule {w : World} (hc : w.CountsOk) {v : Vehicle} {k : Nat}
    {ol : OrderList} (hl : w.ordersList v = some (k, ol)) (i : Nat) (ds : DispatchSchedule) :
    (w.setSchedule k ol i ds).CountsOk := by
  unfold World.setSchedule
  apply countsOk_setOrderList hc
  simp only [List.length_set]
  exact countsOk_of_ordersList hc hl

theorem countsOk_setSharedDispatchFlag {w : World} (hc : w.CountsOk) (veh : Nat) (v : Vehicle)
    (e : Bool) : (w.setSharedDispatchFlag veh v e).CountsOk := by
  unfold World.setSharedDispatchFlag
  split <;> exact hc

/-- Every command keeps the schedule counts within the limit. -/
theorem runCommand_countsOk (toTick : Int → Nat → Int) (w : World) (fuel : Nat)
    (c : SchdispatchCommand) (flags p1 p2 p3 : Nat) (cost : CommandCost) (w2 : World)
    (h : runCommand toTick w fuel c flags p1 p2 p3 = .ok (cost, w2)) (hc : w.CountsOk) :
    w2.CountsOk := by
  cases c <;> simp only [runCommand, Except.ok.injEq] at h
  · unfold CmdScheduledDispatch at h
    dsimp only at h
    repeat' split at h
    all_goals cases h
    all_goals first
      | exact hc
      | exact countsOk_setSharedDispatchFlag hc _ _ _
  · unfold CmdScheduledDispatchAdd at h
    dsimp only at h
    repeat' split at h
    all_goals cases h
    all_goals first
      | exact hc
      | exact countsOk_setSchedule hc (by assumption) _ _
  · unfold CmdScheduledDispatchRemove at h
    dsimp only at h
    repeat' split at h
    all_goals cases h
    all_goals first
      | exact hc
      | exact countsOk_setSchedule hc (by assumption) _ _
  · unfold CmdScheduledDispatchSetDuration at h
    dsimp only at h
    repeat' split at h
    all_goals cases h
    all_goals first
      | exact hc
      | exact countsOk_setSchedule hc (by assumption) _ _
  · unfold CmdScheduledDispatchSetStartDate at h
    dsimp only at h
    repeat' split at h
    all_goals cases h
    all_goals first
      | exact hc
      | exact countsOk_setSchedule hc (by assumption) _ _
  · unfold CmdScheduledDispatchSetDelay at h
    dsimp only at h
    repeat' split at h
    all_goals cases h
    all_goals first
      | exact hc
      | exact countsOk_setSchedule hc (by assumption) _ _
  · unfold CmdScheduledDispatchResetLastDispatch at h
    dsimp only at h
    repeat' split at h
    all_goals cases h
    all_goals first
      | exact hc
      | exact countsOk_setSchedule hc (by assumption) _ _
  · unfold CmdScheduledDispatchClear at h
    dsimp only at h
    repeat' split at h
    all_goals cases h
    all_goals first
      | exact hc
      | exact countsOk_setSchedule hc (by assumption) _ _
  · unfold CmdScheduledDispatchAddNewSchedule at h
    dsimp only at h
    repeat' split at h
    all_goals cases h
    all_goals first
      | exact hc
      | (apply countsOk_setOrderList hc
         simp only [List.length_append, List.length_singleton]
         omega)
  · unfold CmdScheduledDispatchRemoveSchedule at h
    dsimp only at h
    repeat' split at h
    all_goals cases h
    all_goals first
      | exact hc
      | (apply countsOk_setOrderList hc
         have := countsOk_of_ordersList hc (by assumption)
         simp only [List.length_eraseIdx]
         split <;> omega)

/-- Every sequence of commands keeps the schedule counts within the limit. -/
theorem runCommands_countsOk (toTick : Int → Nat → Int) (fuel : Nat) :
    ∀ (cs : List SchdispatchCall) (w w2 : World), w.CountsOk →
    runCommands toTick fuel cs w = .ok w2 → w2.CountsOk := by
  intro cs
  induction cs with
  | nil =>
    intro w w2 hc h
    simp only [runCommands] at h
    cases h
    exact hc
  | cons c rest ih =>
    intro w w2 hc h
    simp only [runCommands] at h
    split at h
    · cases h
    · rename_i cost w1 h1
      exact ih w1 w2 (runCommand_countsOk toTick w fuel _ _ _ _ _ cost w1 h1 hc) h

/-- The command `CmdScheduledDispatchAddNewSchedule` once the vehicle, its
ownership and its order list have passed their checks. -/
theorem CmdScheduledDispatchAddNewSchedule_checked (toTick : Int → Nat → Int) (w : World)
    (v : Vehicle) (k : Nat) (ol : OrderList) (fuel flags p1 p2 p3 : Nat)
    (hv : w.GetIfValid (GB p1 0 20) = some v) (hp : v.primary = true)
    (ho : v.owner = w.current_company) (hl : w.ordersList v = some (k, ol)) :
    CmdScheduledDispatchAddNewSchedule toTick w fuel flags p1 p2 p3 =
      if ol.dispatch_schedules.length ≥ 4096 then .ok (CMD_ERROR, w)
      else if flags &&& DC_EXEC ≠ 0 then
        match UpdateScheduledDispatch w.game_time fuel w.scaled_date_ticks
            { DispatchSchedule.fresh with
              scheduled_dispatch_duration := p2
              scheduled_dispatch_start_tick := toTick (wrapI32 (GB p3 0 32)) (GB p3 32 16) } with
        | .error e => .error e
        | .ok ds1 =>
          .ok (CommandCost.Succeeded,
            w.setOrderList k { ol with dispatch_schedules := ol.dispatch_schedules ++ [ds1] })
      else .ok (CommandCost.Succeeded, w) := by
  have hown : (w.CheckOwnership v.owner).Failed = false := by
    simp [World.CheckOwnership, ho, succeeded_not_failed]
  unfold CmdScheduledDispatchAddNewSchedule
  simp only [hv, hp, hown, hl, Bool.true_eq_false, Bool.false_eq_true, if_false]

end SchDispatch

namespace SortList

open SchDispatch (Fault Returns)

/-! ## Flag arithmetic -/

theorem land_setbits_self (x y : Nat) : SETBITS x y &&& y = y := by
  unfold SETBITS
  apply Nat.eq_of_testBit_eq
  intro i
  simp only [Nat.testBit_and, Nat.testBit_or]
  cases x.testBit i <;> cases y.testBit i <;> rfl

theorem land_clrbits_self (x y : Nat) : CLRBITS x y &&& y = 0 := by
  unfold CLRBITS
  apply Nat.eq_of_testBit_eq
  intro i
  simp only [Nat.testBit_and, Nat.testBit_xor, Nat.zero_testBit]
  cases x.testBit i <;> cases y.testBit i <;> rfl

theorem testBit_disjoint {z y : Nat} (h : z &&& y = 0) (i : Nat) :
    (z.testBit i && y.testBit i) = false := by
  have h2 := congrArg (fun n => n.testBit i) h
  simpa [Nat.testBit_and] using h2

theorem land_setbits_disjoint (x : Nat) {z y : Nat} (h : z &&& y = 0) :
    SETBITS x z &&& y = x &&& y := by
  unfold SETBITS
  apply Nat.eq_of_testBit_eq
  intro i
  have hd := testBit_disjoint h i
  simp only [Nat.testBit_and, Nat.testBit_or]
  revert hd
  cases x.testBit i <;> cases y.testBit i <;> cases z.testBit i <;> simp

theorem land_clrbits_disjoint (x : Nat) {z y : Nat} (h : z &&& y = 0) :
    CLRBITS x z &&& y = x &&& y := by
  unfold CLRBITS
  apply Nat.eq_of_testBit_eq
  intro i
  have hd := testBit_disjoint h i
  simp only [Nat.testBit_and, Nat.testBit_xor]
  revert hd
  cases x.testBit i <;> cases y.testBit i <;> cases z.testBit i <;> simp

theorem hasbits_setbits_self (x y : Nat) : HASBITS (SETBITS x y) y = true := by
  unfold HASBITS
  rw [land_setbits_self]
  simp

theorem hasbits_clrbits_self (x : Nat) {y : Nat} (hy : y ≠ 0) :
    HASBITS (CLRBITS x y) y = false := by
  unfold HASBITS
  rw [land_clrbits_self]
  simp only [decide_eq_false_iff_not]
  exact fun h => hy h.symm

theorem hasbits_setbits_disjoint (x : Nat) {z y : Nat} (h : z &&& y = 0) :
    HASBITS (SETBITS x z) y = HASBITS x y := by
  unfold HASBITS
  rw [land_setbits_disjoint x h]

theorem hasbits_clrbits_disjoint (x : Nat) {z y : Nat} (h : z &&& y = 0) :
    HASBITS (CLRBITS x z) y = HASBITS x y := by
  unfold HASBITS
  rw [land_clrbits_disjoint x h]

/-! ## The resort bit and the sort conditions -/

/-- C19, the code at the failing input: after `ForceResort()` has set
`VL_RESORT` on a list whose timer is 5, `NeedResort()` returns `false` although
the bit is set when the call returns; the documented direction that does hold
is that a `true` result comes with the bit set. -/
theorem need_resort_misses_forced_bit :
    (GUIList.mk [3, 1, 2] 0 0 5).ForceResort = GUIList.mk [3, 1, 2] 2 0 5 ∧
    (GUIList.mk [3, 1, 2] 2 0 5).NeedResort = (GUIList.mk [3, 1, 2] 2 0 4, false) ∧
    HASBITS (GUIList.mk [3, 1, 2] 2 0 4).flags VL_RESORT = true ∧
    (∀ (l : GUIList Nat), l.NeedResort.2 = true →
      HASBITS l.NeedResort.1.flags VL_RESORT = true) := by
  refine ⟨rfl, rfl, rfl, ?_⟩
  intro l h
  unfold GUIList.NeedResort at h ⊢
  dsimp only at h ⊢
  split_ifs at h ⊢ with h1
  exact hasbits_setbits_self _ _

/-- C20, sort-condition round trip: `GetListing()` after `SetListing(l)`
returns the order and the criteria of `l`, and `SetListing(GetListing())`
leaves `sort_type` and the `VL_DESC` bit as they were. -/
theorem listing_round_trip {α : Type} (g : GUIList α) (l : Listing) :
    (g.SetListing l).GetListing = l ∧
    (g.SetListing l).GetListing.order = l.order ∧
    (g.SetListing l).GetListing.criteria = l.criteria ∧
    (g.SetListing g.GetListing).sort_type = g.sort_type ∧
    HASBITS (g.SetListing g.GetListing).flags VL_DESC = HASBITS g.flags VL_DESC := by
  have h81 : VL_FIRST_SORT &&& VL_DESC = 0 := by decide
  have h1 : VL_DESC ≠ 0 := by decide
  have horder : ∀ (f : Nat) (o : Bool),
      HASBITS (SETBITS (if o = true then SETBITS f VL_DESC else CLRBITS f VL_DESC)
        VL_FIRST_SORT) VL_DESC = o := by
    intro f o
    rw [hasbits_setbits_disjoint _ h81]
    cases o
    · simp only [Bool.false_eq_true, if_false]
      exact hasbits_clrbits_self f h1
    · simp only [if_true]
      exact hasbits_setbits_self f VL_DESC
  have hget : (g.SetListing l).GetListing = l := by
    cases l with
    | mk order criteria =>
      simp only [GUIList.SetListing, GUIList.GetListing, Listing.mk.injEq, and_true]
      exact horder g.flags order
  refine ⟨hget, by rw [hget], by rw [hget], rfl, ?_⟩
  simp only [GUIList.SetListing, GUIList.GetListing]
  exact horder g.flags (HASBITS g.flags VL_DESC)

/-! ## The gnome sort loop -/

theorem inOrder_of_not_inOrder {α : Type} {compare : α → α → Int}
    (hanti : ∀ x y, Int.sign (compare x y) = -Int.sign (compare y x)) (desc : Bool) {x y : α}
    (h : ¬ InOrder compare desc x y) : InOrder compare desc y x := by
  have hs := hanti x y
  unfold InOrder at h ⊢
  cases desc with
  | false =>
    left
    refine ⟨rfl, ?_⟩
    have hpos : 0 < compare x y := by
      by_contra hc
      exact h (Or.inl ⟨rfl, by omega⟩)
    rw [Int.sign_eq_one_iff_pos.mpr hpos] at hs
    have hneg : Int.sign (compare y x) = -1 := by omega
    have := Int.sign_eq_neg_one_iff_neg.mp hneg
    omega
  | true =>
    right
    refine ⟨rfl, ?_⟩
    have hneg : compare x y < 0 := by
      by_contra hc
      exact h (Or.inr ⟨rfl, by omega⟩)
    rw [Int.sign_eq_neg_one_iff_neg.mpr hneg] at hs
    have hpos : Int.sign (compare y x) = 1 := by omega
    have := Int.sign_eq_one_iff_pos.mp hpos
    omega

theorem relAt_of_reads {α : Type} (compare : α → α → Int) (desc : Bool) {data : List α}
    {i j : Nat} {x y : α} (hi : data[i]? = some x) (hj : data[j]? = some y) :
    RelAt compare desc data i j ↔ InOrder compare desc x y := by
  unfold RelAt
  rw [hi, hj]

theorem relAt_congr {α : Type} (compare : α → α → Int) (desc : Bool) {d1 d2 : List α}
    {i1 j1 i2 j2 : Nat} (hi : d1[i1]? = d2[i2]?) (hj : d1[j1]? = d2[j2]?) :
    RelAt compare desc d1 i1 j1 ↔ RelAt compare desc d2 i2 j2 := by
  unfold RelAt
  rw [hi, hj]

theorem swap_length {α : Type} (data : List α) (a b : Nat) (x y : α) :
    (Swap data a b x y).length = data.length := by
  unfold Swap
  rw [List.length_set, List.length_set]

theorem swap_get {α : Type} (data : List α) (a : Nat) (x y : α) (ha : a + 1 < data.length)
    (j : Nat) :
    (Swap data a (a + 1) x y)[j]? =
      if j = a then some y else if j = a + 1 then some x else data[j]? := by
  unfold Swap
  rw [List.getElem?_set, List.getElem?_set, List.length_set]
  by_cases h1 : j = a + 1
  · subst h1
    simp [ha]
  · by_cases h2 : j = a
    · subst h2
      have : j < data.length := by omega
      simp [this]
    · have h3 : ¬ a + 1 = j := fun h => h1 h.symm
      have h4 : ¬ a = j := fun h => h2 h.symm
      simp [h1, h2, h3, h4]

theorem swap_perm {α : Type} : ∀ (data : List α) (a : Nat) (x y : α),
    data[a]? = some x → data[a + 1]? = some y → (Swap data a (a + 1) x y).Perm data := by
  intro data
  induction data with
  | nil =>
    intro a x y hx _
    simp at hx
  | cons h t ih =>
    intro a x y hx hy
    cases a with
    | zero =>
      cases t with
      | nil => simp at hy
      | cons h2 t2 =>
        simp only [List.getElem?_cons_zero, Option.some.injEq] at hx
        simp only [zero_add, List.getElem?_cons_succ, List.getElem?_cons_zero,
          Option.some.injEq] at hy
        subst hx hy
        simp only [Swap, List.set_cons_zero, zero_add, List.set_cons_succ]
        exact List.Perm.swap _ _ _
    | succ a2 =>
      simp only [List.getElem?_cons_succ] at hx hy
      have := ih a2 x y hx hy
      simp only [Swap, List.set_cons_succ] at this ⊢
      exact List.Perm.cons h this

theorem chain_of_relAt {α : Type} (compare : α → α → Int) (desc : Bool) (data : List α)
    (h : ∀ i, i + 1 < data.length → RelAt compare desc data i (i + 1)) :
    List.Chain' (InOrder compare desc) data := by
  rw [List.chain'_iff_get]
  intro i hi
  have h1 : i + 1 < data.length := by omega
  have h2 := h i h1
  rw [relAt_of_reads compare desc (List.getElem?_eq_getElem (by omega))
    (List.getElem?_eq_getElem h1)] at h2
  exact h2

theorem measure_tail_le {α : Type} (compare : α → α → Int) (desc : Bool) (data : List α)
    (a offset : Nat) :
    (if offset = 0 then (if RelAt compare desc data a (a + 1) then 0 else 2 * a + 3)
     else 2 * a + 3 + (if RelAt compare desc data a (a + 1) then 0 else 1)) ≤ 2 * a + 4 := by
  split_ifs <;> omega

theorem sort_loop_step {α : Type} (compare : α → α → Int) (desc : Bool) (data : List α)
    (a length offset : Nat) (x y : α) (hl : length > 1) (hx : data[a]? = some x)
    (hy : data[a + 1]? = some y) (fuel : Nat) :
    Sort_loop compare desc (fuel + 1) data a (a + 1) length offset =
      if InOrder compare desc x y then
        if offset ≠ 0 then
          Sort_loop compare desc fuel data (a + offset) (a + 1 + offset) length 0
        else Sort_loop compare desc fuel data (a + 1) (a + 1 + 1) (length - 1) offset
      else
        if a ≠ 0 then
          Sort_loop compare desc fuel (Swap data a (a + 1) x y) (a - 1) (a + 1 - 1) length
            (offset + 1)
        else Sort_loop compare desc fuel (Swap data a (a + 1) x y) a (a + 1) length offset := by
  rw [Sort_loop]
  simp only [if_pos hl, hx, hy]

theorem sort_loop_done {α : Type} (compare : α → α → Int) (desc : Bool) (data : List α)
    (a b length offset : Nat) (hl : ¬ length > 1) (fuel : Nat) :
    Sort_loop compare desc fuel data a b length offset = .ok data := by
  cases fuel <;> simp only [Sort_loop, if_neg hl]

/-- From every state that satisfies the invariant the gnome sort loop returns,
within the measure, a permutation whose neighbours are all in order. -/
theorem sort_loop_correct {α : Type} (compare : α → α → Int) (desc : Bool)
    (hanti : ∀ x y, Int.sign (compare x y) = -Int.sign (compare y x)) :
    ∀ (m : Nat) (data : List α) (a b length offset : Nat),
      GnomeInv compare desc data a b length offset →
      gnomeMeasure compare desc data a length offset ≤ m →
      ∃ d, d.Perm data ∧ List.Chain' (InOrder compare desc) d ∧
        ∀ fuel, m ≤ fuel → Sort_loop compare desc fuel data a b length offset = .ok d := by
  intro m
  induction m with
  | zero =>
    intro data a b length offset hinv hm
    exfalso
    obtain ⟨_, _, hlen, _⟩ := hinv
    unfold gnomeMeasure at hm
    have h1 : 1 * (2 * data.length + 5) ≤ length * (2 * data.length + 5) :=
      Nat.mul_le_mul_right _ hlen
    omega
  | succ m ih =>
    intro data a b length offset hinv hm
    obtain ⟨hb, hsum, hlen, hmode, hpre, hseg, hskip⟩ := hinv
    subst hb
    by_cases hl : length > 1
    · have ha1 : a + 1 < data.length := by omega
      obtain ⟨x, hx⟩ : ∃ x, data[a]? = some x := ⟨_, List.getElem?_eq_getElem (by omega)⟩
      obtain ⟨y, hy⟩ : ∃ y, data[a + 1]? = some y := ⟨_, List.getElem?_eq_getElem ha1⟩
      have hrel := relAt_of_reads compare desc hx hy
      have hstep := sort_loop_step compare desc data a length offset x y hl hx hy
      obtain ⟨L, rfl⟩ : ∃ L, length = L + 1 := ⟨length - 1, by omega⟩
      have hmul : (L + 1) * (2 * data.length + 5) = L * (2 * data.length + 5)
          + (2 * data.length + 5) := by ring
      unfold gnomeMeasure at hm
      rw [hmul] at hm
      by_cases hio : InOrder compare desc x y
      · have hr : RelAt compare desc data a (a + 1) := hrel.mpr hio
        simp only [hr, if_true] at hm
        by_cases hoff : offset = 0
        · -- in order, no jump pending: step forward
          subst hoff
          simp only [if_true, add_zero] at hm
          have hinv2 : GnomeInv compare desc data (a + 1) (a + 1 + 1) (L + 1 - 1) 0 := by
            refine ⟨rfl, by simp only [Nat.add_sub_cancel]; omega, by
              simp only [Nat.add_sub_cancel]; omega, Or.inr rfl, ?_, ?_, ?_⟩
            · intro i hi
              by_cases hia : i = a
              · subst hia; exact hr
              · exact hpre i (by omega)
            · intro i h1 h2
              omega
            · intro h
              omega
          have hm2 : gnomeMeasure compare desc data (a + 1) (L + 1 - 1) 0 ≤ m := by
            unfold gnomeMeasure
            simp only [Nat.add_sub_cancel]
            split_ifs <;> omega
          obtain ⟨d, hperm, hchain, hrun⟩ := ih data (a + 1) (a + 1 + 1) (L + 1 - 1) 0 hinv2 hm2
          refine ⟨d, hperm, hchain, fun fuel hf => ?_⟩
          obtain ⟨f, rfl⟩ : ∃ f, fuel = f + 1 := ⟨fuel - 1, by omega⟩
          rw [hstep f, if_pos hio, if_neg (by simp)]
          exact hrun f (by omega)
        · -- in order after walking back: jump to where the walk began
          simp only [if_neg hoff] at hm
          have hinv2 : GnomeInv compare desc data (a + offset) (a + 1 + offset) (L + 1) 0 := by
            refine ⟨by omega, by omega, by omega, Or.inr rfl, ?_, ?_, ?_⟩
            · intro i hi
              by_cases hia : i = a
              · subst hia; exact hr
              · by_cases hlt : i < a
                · exact hpre i hlt
                · exact hseg i (by omega) (by omega)
            · intro i h1 h2
              omega
            · intro h
              omega
          have hm2 : gnomeMeasure compare desc data (a + offset) (L + 1) 0 ≤ m := by
            unfold gnomeMeasure
            have hr2 : RelAt compare desc data (a + offset) (a + offset + 1) :=
              hseg (a + offset) (by omega) (le_refl _)
            simp only [hr2, if_true]
            rw [hmul]
            omega
          obtain ⟨d, hperm, hchain, hrun⟩ :=
            ih data (a + offset) (a + 1 + offset) (L + 1) 0 hinv2 hm2
          refine ⟨d, hperm, hchain, fun fuel hf => ?_⟩
          obtain ⟨f, rfl⟩ : ∃ f, fuel = f + 1 := ⟨fuel - 1, by omega⟩
          rw [hstep f, if_pos hio, if_pos hoff]
          exact hrun f (by omega)
      · have hr : ¬ RelAt compare desc data a (a + 1) := fun h => hio (hrel.mp h)
        simp only [hr, if_false] at hm
        have hyx : InOrder compare desc y x := inOrder_of_not_inOrder hanti desc hio
        have hg := swap_get data a x y ha1
        have hga : (Swap data a (a + 1) x y)[a]? = some y := by
          rw [hg a]; simp
        have hgb : (Swap data a (a + 1) x y)[a + 1]? = some x := by
          rw [hg (a + 1)]; simp
        have hfar : ∀ j, j ≠ a → j ≠ a + 1 → (Swap data a (a + 1) x y)[j]? = data[j]? := by
          intro j h1 h2
          rw [hg j]; simp [h1, h2]
        have hlen2 := swap_length data a (a + 1) x y
        have hperm2 := swap_perm data a x y hx hy
        have hr2 : RelAt compare desc (Swap data a (a + 1) x y) a (a + 1) :=
          (relAt_of_reads compare desc hga hgb).mpr hyx
        by_cases ha0 : a = 0
        · -- out of order at the front: swap and stay
          subst ha0
          have hinv2 : GnomeInv compare desc (Swap data 0 (0 + 1) x y) 0 (0 + 1) (L + 1)
              offset := by
            refine ⟨rfl, by rw [hlen2]; omega, by omega, hmode, ?_, ?_, ?_⟩
            · intro i hi
              omega
            · intro i h1 h2
              by_cases hi1 : i = 1
              · subst hi1
                have hsk := hskip (by omega)
                exact (relAt_congr compare desc (by rw [hgb, hx])
                  (hfar 2 (by omega) (by omega))).mpr hsk
              · exact (relAt_congr compare desc (hfar i (by omega) (by omega))
                  (hfar (i + 1) (by omega) (by omega))).mpr (hseg i h1 h2)
            · intro hpos
              have h1 := hseg 1 (by omega) (by omega)
              exact (relAt_congr compare desc (by rw [hga, hy])
                (hfar 2 (by omega) (by omega))).mpr h1
          have hm2 : gnomeMeasure compare desc (Swap data 0 (0 + 1) x y) 0 (L + 1) offset
              ≤ m := by
            unfold gnomeMeasure
            simp only [hr2, if_true]
            rw [hlen2, hmul]
            split_ifs at hm ⊢ <;> omega
          obtain ⟨d, hperm, hchain, hrun⟩ :=
            ih (Swap data 0 (0 + 1) x y) 0 (0 + 1) (L + 1) offset hinv2 hm2
          refine ⟨d, hperm.trans hperm2, hchain, fun fuel hf => ?_⟩
          obtain ⟨f, rfl⟩ : ∃ f, fuel = f + 1 := ⟨fuel - 1, by omega⟩
          rw [hstep f, if_neg hio, if_neg (by simp)]
          exact hrun f (by omega)
        · -- out of order further on: swap and walk back
          have hinv2 : GnomeInv compare desc (Swap data a (a + 1) x y) (a - 1) (a + 1 - 1)
              (L + 1) (offset + 1) := by
            refine ⟨by omega, by rw [hlen2]; omega, by omega, Or.inl (by omega), ?_, ?_, ?_⟩
            · intro i hi
              exact (relAt_congr compare desc (hfar i (by omega) (by omega))
                (hfar (i + 1) (by omega) (by omega))).mpr (hpre i (by omega))
            · intro i h1 h2
              by_cases hia : i = a
              · subst hia; exact hr2
              · by_cases hia1 : i = a + 1
                · subst hia1
                  have hsk := hskip (by omega)
                  exact (relAt_congr compare desc (by rw [hgb, hx])
                    (hfar (a + 1 + 1) (by omega) (by omega))).mpr hsk
                · exact (relAt_congr compare desc (hfar i (by omega) (by omega))
                    (hfar (i + 1) (by omega) (by omega))).mpr (hseg i (by omega) (by omega))
            · intro _
              have h1 := hpre (a - 1) (by omega)
              have e1 : a - 1 + 1 = a := by omega
              have e2 : a - 1 + 2 = a + 1 := by omega
              rw [e1] at h1
              rw [e2]
              exact (relAt_congr compare desc (hfar (a - 1) (by omega) (by omega))
                (by rw [hgb, hx])).mpr h1
          have hm2 : gnomeMeasure compare desc (Swap data a (a + 1) x y) (a - 1) (L + 1)
              (offset + 1) ≤ m := by
            unfold gnomeMeasure
            have := measure_tail_le compare desc (Swap data a (a + 1) x y) (a - 1) (offset + 1)
            rw [hlen2, hmul]
            split_ifs at hm <;> omega
          obtain ⟨d, hperm, hchain, hrun⟩ :=
            ih (Swap data a (a + 1) x y) (a - 1) (a + 1 - 1) (L + 1) (offset + 1) hinv2 hm2
          refine ⟨d, hperm.trans hperm2, hchain, fun fuel hf => ?_⟩
          obtain ⟨f, rfl⟩ : ∃ f, fuel = f + 1 := ⟨fuel - 1, by omega⟩
          rw [hstep f, if_neg hio, if_pos ha0]
          exact hrun f (by omega)
    · -- the loop is over: everything up to the end is in order
      have hoff : offset = 0 := by
        rcases hmode with h | h
        · omega
        · exact h
      refine ⟨data, List.Perm.refl _, ?_, fun fuel _ =>
        sort_loop_done compare desc data a (a + 1) length offset hl fuel⟩
      apply chain_of_relAt
      intro i hi
      exact hpre i (by omega)

theorem compareNat_anti (x y : Nat) :
    Int.sign (compareNat x y) = -Int.sign (compareNat y x) := by
  unfold compareNat
  rw [← Int.sign_neg]
  congr 1
  ring

/-- C18, the gnome sort of `GUIList::Sort` is a correct sort: for a list of at
least 2 items with `VL_RESORT` set and `VL_FIRST_SORT` clear, and a comparison
whose sign flips when its arguments are swapped, `Sort(compare)` returns
without reading outside the list and leaves a permutation of the items in
which every neighbouring pair `(x, y)` has `compare(x, y) <= 0` when `VL_DESC`
is clear and `compare(x, y) >= 0` when it is set. -/
theorem gnome_sort_correct {α : Type} (qsort : (α → α → Int) → List α → List α)
    (compare : α → α → Int) (l : GUIList α) (hlen : 2 ≤ l.data.length)
    (hres : HASBITS l.flags VL_RESORT = true) (hfirst : HASBITS l.flags VL_FIRST_SORT = false)
    (hanti : ∀ x y, Int.sign (compare x y) = -Int.sign (compare y x)) :
    ∃ d, Returns (fun fuel => l.Sort qsort compare fuel)
        { l with flags := CLRBITS l.flags VL_RESORT, resort_timer := DAY_TICKS * 10, data := d } ∧
      d.Perm l.data ∧
      List.Chain' (fun x y =>
        if HASBITS l.flags VL_DESC = true then compare x y ≥ 0 else compare x y ≤ 0) d := by
  have hdesc : HASBITS (CLRBITS l.flags VL_RESORT) VL_DESC = HASBITS l.flags VL_DESC :=
    hasbits_clrbits_disjoint l.flags (by decide)
  have hfs : HASBITS (CLRBITS l.flags VL_RESORT) VL_FIRST_SORT = false := by
    rw [hasbits_clrbits_disjoint l.flags (by decide)]
    exact hfirst
  have hinv : GnomeInv compare (HASBITS l.flags VL_DESC) l.data 0 1 l.data.length 0 := by
    refine ⟨rfl, by omega, by omega, Or.inr rfl, ?_, ?_, ?_⟩
    · intro i hi
      omega
    · intro i h1 h2
      omega
    · intro h
      omega
  obtain ⟨d, hperm, hchain, hrun⟩ := sort_loop_correct compare (HASBITS l.flags VL_DESC) hanti
    (gnomeMeasure compare (HASBITS l.flags VL_DESC) l.data 0 l.data.length 0)
    l.data 0 1 l.data.length 0 hinv (le_refl _)
  refine ⟨d, ⟨gnomeMeasure compare (HASBITS l.flags VL_DESC) l.data 0 l.data.length 0,
    fun fuel hf => ?_⟩, hperm, ?_⟩
  · show l.Sort qsort compare fuel = _
    have hsortable : decide (l.data.length ≥ 2) = true := by simp [hlen]
    unfold GUIList.Sort
    simp only [hres, Bool.true_eq_false, if_false, GUIList.ResetResortTimer, GUIList.IsSortable,
      hsortable, hfs, Bool.false_eq_true, hdesc]
    rw [hrun fuel hf]
  · refine hchain.imp ?_
    intro x y h
    unfold InOrder at h
    rcases h with ⟨h1, h2⟩ | ⟨h1, h2⟩
    · rw [h1]; simpa using h2
    · rw [h1]; simpa using h2

/-- Witness of C18: `[3, 1, 2]` sorted ascending by the difference. -/
theorem gnome_sort_correct_witness :
    2 ≤ sampleList.data.length ∧
    HASBITS sampleList.flags VL_RESORT = true ∧
    HASBITS sampleList.flags VL_FIRST_SORT = false ∧
    sampleList.Sort (fun _ d => d) compareNat 7
      = .ok { data := [1, 2, 3], flags := 0, sort_type := 0, resort_timer := 740 } ∧
    ∃ d, Returns (fun fuel => sampleList.Sort (fun _ d => d) compareNat fuel)
        { sampleList with
          flags := CLRBITS sampleList.flags VL_RESORT
          resort_timer := DAY_TICKS * 10
          data := d } ∧
      d.Perm sampleList.data ∧
      List.Chain' (fun x y =>
        if HASBITS sampleList.flags VL_DESC = true then compareNat x y ≥ 0
        else compareNat x y ≤ 0) d :=
  ⟨by decide, by decide, by decide, by rfl,
    gnome_sort_correct (fun _ d => d) compareNat sampleList (by decide) (by decide) (by decide)
      compareNat_anti⟩

/-! ## The resort bit gates the sort -/

/-- The loop of `Reverse()` returns within one pass per two items. -/
theorem reverse_loop_returns {α : Type} : ∀ (fuel : Nat) (data : List α) (a b : Nat),
    a ≤ b → b < data.length → b - a < 2 * fuel →
    ∃ d, Reverse_loop fuel data a b = .ok d ∧ d.length = data.length := by
  intro fuel
  induction fuel with
  | zero =>
    intro data a b _ _ h
    omega
  | succ fuel ih =>
    intro data a b hab hb hf
    obtain ⟨x, hx⟩ : ∃ x, data[a]? = some x := ⟨_, List.getElem?_eq_getElem (by omega)⟩
    obtain ⟨y, hy⟩ : ∃ y, data[b]? = some y := ⟨_, List.getElem?_eq_getElem hb⟩
    simp only [Reverse_loop, hx, hy]
    split_ifs with hc
    · obtain ⟨d, hd, hl⟩ := ih (Swap data a b x y) (a + 1) (b - 1) (by omega)
        (by rw [swap_length]; omega) (by omega)
      exact ⟨d, hd, by rw [hl, swap_length]⟩
    · exact ⟨_, rfl, swap_length _ _ _ _ _⟩

/-- The method `Reverse()` returns on a sortable list and touches the items only. -/
theorem reverse_returns {α : Type} (l : GUIList α) (h : 2 ≤ l.data.length) :
    ∃ d, l.Reverse = .ok { l with data := d } := by
  obtain ⟨d, hd, _⟩ := reverse_loop_returns l.data.length l.data 0 (l.data.length - 1)
    (by omega) (by omega) (by omega)
  refine ⟨d, ?_⟩
  have hs : ¬ (decide (l.data.length ≥ 2) = false) := by simp [h]
  unfold GUIList.Reverse GUIList.IsSortable
  rw [if_neg hs, hd]

/-- Whatever `Sort` returns on a list whose resort bit is set has the bit
cleared and the timer reset; the sort criteria is untouched. -/
theorem sort_result_flags {α : Type} (qsort : (α → α → Int) → List α → List α)
    (compare : α → α → Int) (l : GUIList α) (hres : HASBITS l.flags VL_RESORT = true)
    (fuel : Nat) (r : GUIList α) (h : l.Sort qsort compare fuel = .ok r) :
    r.flags = CLRBITS l.flags VL_RESORT ∧ r.resort_timer = DAY_TICKS * 10 ∧
    r.sort_type = l.sort_type := by
  unfold GUIList.Sort at h
  simp only [hres, Bool.true_eq_false, if_false, GUIList.ResetResortTimer] at h
  split_ifs at h with h1 h2 h3
  · cases h
    exact ⟨rfl, rfl, rfl⟩
  · unfold GUIList.Reverse at h
    split_ifs at h
    · split at h
      · cases h
      · cases h
        exact ⟨rfl, rfl, rfl⟩
  · cases h
    exact ⟨rfl, rfl, rfl⟩
  · split at h
    · cases h
    · cases h
      exact ⟨rfl, rfl, rfl⟩

/-- C26, `Sort` is gated by the resort bit: without `VL_RESORT` the call
returns the list as it was (items, flags, timer); with `VL_RESORT` every result
has the bit cleared and `resort_timer = DAY_TICKS * 10`, a list of fewer than 2
items returns just that, and the call returns whenever the comparison flips
its sign under a swap of its arguments and `qsort` keeps the item count. -/
theorem sort_gated_by_resort_bit {α : Type} (qsort : (α → α → Int) → List α → List α)
    (compare : α → α → Int) (l : GUIList α) :
    (HASBITS l.flags VL_RESORT = false → ∀ fuel, l.Sort qsort compare fuel = .ok l) ∧
    (HASBITS l.flags VL_RESORT = true →
      (∀ fuel r, l.Sort qsort compare fuel = .ok r →
        r.flags = CLRBITS l.flags VL_RESORT ∧ HASBITS r.flags VL_RESORT = false ∧
        r.resort_timer = DAY_TICKS * 10 ∧ r.sort_type = l.sort_type) ∧
      (l.data.length < 2 → ∀ fuel, l.Sort qsort compare fuel
        = .ok { l with flags := CLRBITS l.flags VL_RESORT, resort_timer := DAY_TICKS * 10 }) ∧
      ((∀ x y, Int.sign (compare x y) = -Int.sign (compare y x)) →
        (∀ d, (qsort compare d).length = d.length) →
        ∃ r, Returns (fun fuel => l.Sort qsort compare fuel) r)) := by
  refine ⟨fun h fuel => ?_, fun hres => ⟨fun fuel r h => ?_, fun hlen fuel => ?_,
    fun hanti hq => ?_⟩⟩
  · unfold GUIList.Sort
    rw [if_pos h]
  · obtain ⟨h1, h2, h3⟩ := sort_result_flags qsort compare l hres fuel r h
    refine ⟨h1, ?_, h2, h3⟩
    rw [h1]
    exact hasbits_clrbits_self _ (by decide)
  · have hs : decide (l.data.length ≥ 2) = false := by simp; omega
    unfold GUIList.Sort
    simp only [hres, Bool.true_eq_false, if_false, GUIList.ResetResortTimer,
      GUIList.IsSortable, hs, if_true]
  · by_cases hlen : l.data.length < 2
    · have hs : decide (l.data.length ≥ 2) = false := by simp; omega
      refine ⟨{ l with flags := CLRBITS l.flags VL_RESORT, resort_timer := DAY_TICKS * 10 },
        0, fun fuel _ => ?_⟩
      show l.Sort qsort compare fuel = _
      unfold GUIList.Sort
      simp only [hres, Bool.true_eq_false, if_false, GUIList.ResetResortTimer,
        GUIList.IsSortable, hs, if_true]
    · have hs : decide (l.data.length ≥ 2) = true := by simp; omega
      by_cases hfirst : HASBITS (CLRBITS l.flags VL_RESORT) VL_FIRST_SORT = true
      · by_cases hdesc : HASBITS (CLRBITS l.flags VL_RESORT) VL_DESC = true
        · obtain ⟨d, hd⟩ := reverse_returns
            { l with flags := CLRBITS l.flags VL_RESORT, resort_timer := DAY_TICKS * 10,
                     data := qsort compare l.data } (by
                show 2 ≤ (qsort compare l.data).length
                rw [hq]; omega)
          refine ⟨{ l with flags := CLRBITS l.flags VL_RESORT, resort_timer := DAY_TICKS * 10,
                           data := d }, 0, fun fuel _ => ?_⟩
          show l.Sort qsort compare fuel = _
          unfold GUIList.Sort
          simp only [hres, Bool.true_eq_false, if_false, GUIList.ResetResortTimer,
            GUIList.IsSortable, hs, hfirst, hdesc, if_true]
          exact hd
        · rw [Bool.not_eq_true] at hdesc
          refine ⟨{ l with flags := CLRBITS l.flags VL_RESORT, resort_timer := DAY_TICKS * 10,
                           data := qsort compare l.data }, 0, fun fuel _ => ?_⟩
          show l.Sort qsort compare fuel = _
          unfold GUIList.Sort
          simp only [hres, Bool.true_eq_false, if_false, GUIList.ResetResortTimer,
            GUIList.IsSortable, hs, hfirst, hdesc, if_true, Bool.false_eq_true]
      · rw [Bool.not_eq_true] at hfirst
        have hinv : GnomeInv compare (HASBITS (CLRBITS l.flags VL_RESORT) VL_DESC)
            l.data 0 1 l.data.length 0 := by
          refine ⟨rfl, by omega, by omega, Or.inr rfl, ?_, ?_, ?_⟩
          · intro i hi
            omega
          · intro i h1 h2
            omega
          · intro h
            omega
        obtain ⟨d, _, _, hrun⟩ := sort_loop_correct compare
          (HASBITS (CLRBITS l.flags VL_RESORT) VL_DESC) hanti
          (gnomeMeasure compare (HASBITS (CLRBITS l.flags VL_RESORT) VL_DESC) l.data 0
            l.data.length 0)
          l.data 0 1 l.data.length 0 hinv (le_refl _)
        refine ⟨{ l with flags := CLRBITS l.flags VL_RESORT, resort_timer := DAY_TICKS * 10,
                         data := d },
          gnomeMeasure compare (HASBITS (CLRBITS l.flags VL_RESORT) VL_DESC) l.data 0
            l.data.length 0, fun fuel hf => ?_⟩
        show l.Sort qsort compare fuel = _
        unfold GUIList.Sort
        simp only [hres, Bool.true_eq_false, if_false, GUIList.ResetResortTimer,
          GUIList.IsSortable, hs, hfirst, Bool.false_eq_true]
        rw [hrun fuel hf]

/-- Witness of C26: the sample list with its resort bit set comes back sorted
with the bit cleared and the timer at 740. -/
theorem sort_gated_by_resort_bit_witness :
    HASBITS sampleList.flags VL_RESORT = true ∧
    sampleList.Sort (fun _ d => d) compareNat 7
      = .ok { data := [1, 2, 3], flags := 0, sort_type := 0, resort_timer := 740 } ∧
    (GUIList.mk [1, 2, 3] 0 0 740).flags = CLRBITS sampleList.flags VL_RESORT ∧
    HASBITS (GUIList.mk [1, 2, 3] 0 0 740).flags VL_RESORT = false ∧
    (GUIList.mk [1, 2, 3] 0 0 740).resort_timer = DAY_TICKS * 10 ∧
    (GUIList.mk [1, 2, 3] 0 0 740).sort_type = sampleList.sort_type :=
  ⟨by decide, by rfl,
    ((sort_gated_by_resort_bit (fun _ d => d) compareNat sampleList).2 (by decide)).1 7
      (GUIList.mk [1, 2, 3] 0 0 740) (by rfl)⟩

end SortList

namespace Script

/-! ## The newest-version list -/

/-- Names that compare as the same name find the same entry. -/
theorem find_congr {same : String → String → Bool}
    (hsame : Equivalence (fun a b => same a b = true)) (l : ScriptInfoList) {a b : String}
    (hab : same a b = true) : l.find same a = l.find same b := by
  induction l with
  | nil => rfl
  | cons p rest ih =>
    obtain ⟨k, v⟩ := p
    simp only [ScriptInfoList.find]
    by_cases h1 : same k a = true
    · rw [if_pos h1, if_pos (hsame.trans h1 hab)]
    · have h2 : ¬ (same k b = true) := fun h => h1 (hsame.trans h (hsame.symm hab))
      rw [if_neg h1, if_neg h2, ih]

/-- After the assignment `list[key] = info`, `key` and the names that compare
as the same find `info`, every other name finds what it found before. -/
theorem find_set {same : String → String → Bool}
    (hsame : Equivalence (fun a b => same a b = true)) (l : ScriptInfoList)
    (key : String) (info : ScriptInfo) (q : String) :
    (l.set same key info).find same q
      = if same key q = true then some info else l.find same q := by
  induction l with
  | nil => simp only [ScriptInfoList.set, ScriptInfoList.find]
  | cons p rest ih =>
    obtain ⟨k, v⟩ := p
    simp only [ScriptInfoList.set]
    by_cases h1 : same k key = true
    · rw [if_pos h1]
      simp only [ScriptInfoList.find]
      by_cases h2 : same key q = true
      · rw [if_pos (hsame.trans h1 h2), if_pos h2]
      · have h3 : ¬ (same k q = true) := fun h => h2 (hsame.trans (hsame.symm h1) h)
        rw [if_neg h3, if_neg h2, if_neg h3]
    · rw [if_neg h1]
      simp only [ScriptInfoList.find]
      by_cases h3 : same k q = true
      · have h2 : ¬ (same key q = true) := fun h => h1 (hsame.trans h3 (hsame.symm h))
        rw [if_pos h3, if_neg h2, if_pos h3]
      · rw [if_neg h3, ih, if_neg h3]

/-- One `RegisterScript` call keeps the invariant of the two lists. -/
theorem registerScript_inv {same : String → String → Bool}
    (hsame : Equivalence (fun a b => same a b = true)) (GetScriptName : ScriptInfo → String)
    (dev : Bool) (s : ScriptScanner) (info : ScriptInfo)
    (hinv : NewestInv same GetScriptName dev s) :
    NewestInv same GetScriptName dev (s.RegisterScript same GetScriptName dev info) := by
  obtain ⟨J1, J3⟩ := hinv
  unfold ScriptScanner.RegisterScript
  dsimp only
  by_cases hshort : info.short_name.utf8ByteSize ≠ 4
  · rw [if_pos hshort]
    exact ⟨J1, J3⟩
  · rw [if_neg hshort]
    cases hnone : s.info_list.find same (GetScriptName info ++ "." ++ toString info.version) with
    | some registered =>
      simp only [ite_self]
      exact ⟨J1, J3⟩
    | none =>
      simp only []
      -- visibility in the extended list of registered scripts
      have hfind1 : ∀ key, (s.info_list.set same
            (GetScriptName info ++ "." ++ toString info.version) info).find same key
          = if same (GetScriptName info ++ "." ++ toString info.version) key = true
            then some info else s.info_list.find same key :=
        fun key => find_set hsame _ _ _ _
      have hold : ∀ key e, s.info_list.find same key = some e →
          (s.info_list.set same (GetScriptName info ++ "." ++ toString info.version)
            info).find same key = some e := by
        intro key e h
        rw [hfind1, if_neg]
        · exact h
        · intro hk
          rw [find_congr hsame _ hk, h] at hnone
          cases hnone
      have hnew : ∀ key e, (s.info_list.set same
            (GetScriptName info ++ "." ++ toString info.version) info).find same key = some e →
          e = info ∨ s.info_list.find same key = some e := by
        intro key e h
        rw [hfind1] at h
        split_ifs at h
        · left
          cases h
          rfl
        · right
          exact h
      have hself : (s.info_list.set same
            (GetScriptName info ++ "." ++ toString info.version) info).find same
            (GetScriptName info ++ "." ++ toString info.version) = some info := by
        rw [hfind1, if_pos (hsame.refl _)]
      -- the newest-version list after `info` is stored under its name
      have hstore : (∀ it, s.info_single_list.find same (GetScriptName info) = some it →
            it.version < info.version) →
          Eligible dev info = true →
          NewestInv same GetScriptName dev
            { info_list := s.info_list.set same
                (GetScriptName info ++ "." ++ toString info.version) info
              info_single_list := s.info_single_list.set same (GetScriptName info) info } := by
        intro hlt helig
        refine ⟨fun n e h => ?_, fun key e2 h helig2 => ?_⟩
        · dsimp only at h ⊢
          rw [find_set hsame] at h
          split_ifs at h with hn
          · cases h
            refine ⟨⟨_, hself⟩, helig, hn, fun key e2 h2 helig2 hs2 => ?_⟩
            rcases hnew key e2 h2 with rfl | hold2
            · exact le_refl _
            · have hsome := J3 key e2 hold2 helig2
              rw [find_congr hsame _ (hsame.trans hs2 (hsame.symm hn))] at hsome
              cases hit : s.info_single_list.find same (GetScriptName info) with
              | none => rw [hit] at hsome; cases hsome
              | some it =>
                have h4 := (J1 _ it hit).2.2.2 key e2 hold2 helig2
                  (hsame.trans hs2 (hsame.symm hn))
                have h5 := hlt it hit
                omega
          · obtain ⟨⟨k0, hk0⟩, he, hname, hmax⟩ := J1 n e h
            refine ⟨⟨k0, hold k0 e hk0⟩, he, hname, fun key e2 h2 helig2 hs2 => ?_⟩
            rcases hnew key e2 h2 with rfl | hold2
            · exact absurd hs2 hn
            · exact hmax key e2 hold2 helig2 hs2
        · dsimp only at h ⊢
          rw [find_set hsame]
          split_ifs
          · rfl
          · rcases hnew key e2 h with rfl | hold2
            · rename_i hcon
              exact absurd (hsame.refl _) hcon
            · exact J3 key e2 hold2 helig2
      -- the newest-version list left alone
      have hkeep : (Eligible dev info = true →
            ∃ it, s.info_single_list.find same (GetScriptName info) = some it ∧
              info.version ≤ it.version) →
          NewestInv same GetScriptName dev
            { info_list := s.info_list.set same
                (GetScriptName info ++ "." ++ toString info.version) info
              info_single_list := s.info_single_list } := by
        intro hit
        refine ⟨fun n e h => ?_, fun key e2 h helig2 => ?_⟩
        · dsimp only at h ⊢
          obtain ⟨⟨k0, hk0⟩, he, hname, hmax⟩ := J1 n e h
          refine ⟨⟨k0, hold k0 e hk0⟩, he, hname, fun key e2 h2 helig2 hs2 => ?_⟩
          rcases hnew key e2 h2 with rfl | hold2
          · obtain ⟨it, hit1, hit2⟩ := hit helig2
            rw [find_congr hsame _ hs2, h] at hit1
            cases hit1
            exact hit2
          · exact hmax key e2 hold2 helig2 hs2
        · dsimp only at h ⊢
          rcases hnew key e2 h with rfl | hold2
          · obtain ⟨it, hit1, _⟩ := hit helig2
            rw [hit1]
            rfl
          · exact J3 key e2 hold2 helig2
      by_cases helig : (!info.developer_only || dev) = true
      · rw [if_pos helig]
        cases hit : s.info_single_list.find same (GetScriptName info) with
        | none =>
          simp only [hit]
          exact hstore (fun it hit2 => by rw [hit] at hit2; cases hit2) helig
        | some it =>
          by_cases hv : it.version < info.version
          · simp only [hit, hv, if_true]
            exact hstore (fun it2 hit2 => by
              rw [hit] at hit2
              cases hit2
              exact hv) helig
          · simp only [hit, hv, if_false]
            exact hkeep (fun _ => ⟨it, hit, by omega⟩)
      · rw [if_neg helig]
        exact hkeep (fun h => absurd h helig)

theorem newestInv_reset (same : String → String → Bool) (GetScriptName : ScriptInfo → String)
    (dev : Bool) : NewestInv same GetScriptName dev ScriptScanner.Reset :=
  ⟨fun _ _ h => (by cases h), fun _ _ h => (by cases h)⟩

/-- Every sequence of `RegisterScript` calls keeps the invariant of the two
lists. -/
theorem registerScripts_inv {same : String → String → Bool}
    (hsame : Equivalence (fun a b => same a b = true)) (GetScriptName : ScriptInfo → String)
    (dev : Bool) : ∀ (infos : List ScriptInfo) (s : ScriptScanner),
    NewestInv same GetScriptName dev s →
    NewestInv same GetScriptName dev (s.RegisterScripts same GetScriptName dev infos) := by
  intro infos
  induction infos with
  | nil =>
    intro s h
    exact h
  | cons info rest ih =>
    intro s h
    exact ih _ (registerScript_inv hsame GetScriptName dev s info h)

theorem sameExact_equivalence : Equivalence (fun a b => sameExact a b = true) :=
  ⟨fun a => (by simp [sameExact]), fun h => (by simpa [sameExact, eq_comm] using h),
    fun h1 h2 => by
      simp only [sameExact, decide_eq_true_eq] at h1 h2 ⊢
      exact h1.trans h2⟩

/-- C25, the newest-version list: after any sequence of `RegisterScript` calls
from empty lists, with the developer-tools setting fixed and a key comparison
that is an equivalence, what `info_single_list` holds under a name is a script
registered in `info_list`, eligible, of that name, with a version at least
that of every eligible registered script of the same name; and every eligible
registered script has an entry under its name. -/
theorem newest_version_list (same : String → String → Bool)
    (hsame : Equivalence (fun a b => same a b = true)) (GetScriptName : ScriptInfo → String)
    (ai_developer_tools : Bool) (infos : List ScriptInfo) :
    (∀ n e,
      (ScriptScanner.Reset.RegisterScripts same GetScriptName ai_developer_tools
        infos).info_single_list.find same n = some e →
      (∃ key, (ScriptScanner.Reset.RegisterScripts same GetScriptName ai_developer_tools
        infos).info_list.find same key = some e) ∧
      Eligible ai_developer_tools e = true ∧
      same (GetScriptName e) n = true ∧
      ∀ key e2,
        (ScriptScanner.Reset.RegisterScripts same GetScriptName ai_developer_tools
          infos).info_list.find same key = some e2 →
        Eligible ai_developer_tools e2 = true → same (GetScriptName e2) n = true →
        e2.version ≤ e.version) ∧
    (∀ key e2,
      (ScriptScanner.Reset.RegisterScripts same GetScriptName ai_developer_tools
        infos).info_list.find same key = some e2 →
      Eligible ai_developer_tools e2 = true →
      ((ScriptScanner.Reset.RegisterScripts same GetScriptName ai_developer_tools
        infos).info_single_list.find same (GetScriptName e2)).isSome = true) :=
  registerScripts_inv hsame GetScriptName ai_developer_tools infos ScriptScanner.Reset
    (newestInv_reset same GetScriptName ai_developer_tools)

/-- Witness of C25: of the sample scripts, version 3 is the entry under `Foo`;
version 9 is developer-only and stays out. -/
theorem newest_version_list_witness :
    (ScriptScanner.Reset.RegisterScripts sameExact (fun i => i.name) false
      sampleScripts).info_single_list.find sameExact "Foo"
      = some ⟨"Foo", "FOOO", 3, "foo3/main.nut", false⟩ ∧
    (ScriptScanner.Reset.RegisterScripts sameExact (fun i => i.name) false
      sampleScripts).info_list.find sameExact "Foo.9"
      = some ⟨"Foo", "FOOO", 9, "foo9/main.nut", true⟩ ∧
    ((∃ key, (ScriptScanner.Reset.RegisterScripts sameExact (fun i => i.name) false
        sampleScripts).info_list.find sameExact key
        = some ⟨"Foo", "FOOO", 3, "foo3/main.nut", false⟩) ∧
      Eligible false ⟨"Foo", "FOOO", 3, "foo3/main.nut", false⟩ = true ∧
      sameExact ((fun i : ScriptInfo => i.name) ⟨"Foo", "FOOO", 3, "foo3/main.nut", false⟩)
        "Foo" = true ∧
      ∀ key e2,
        (ScriptScanner.Reset.RegisterScripts sameExact (fun i => i.name) false
          sampleScripts).info_list.find sameExact key = some e2 →
        Eligible false e2 = true → sameExact ((fun i : ScriptInfo => i.name) e2) "Foo" = true →
        e2.version ≤ (ScriptInfo.mk "Foo" "FOOO" 3 "foo3/main.nut" false).version) :=
  ⟨by decide, by decide,
    (newest_version_list sameExact sameExact_equivalence (fun i => i.name) false
      sampleScripts).1 "Foo" ⟨"Foo", "FOOO", 3, "foo3/main.nut", false⟩ (by decide)⟩

end Script
